import Mathlib

/-!
Query projection planning (`go/vt/vtgate/planbuilder/abstract/queryprojection.go`).

A shallow embedding of the query horizon projection planner: the projection,
grouping and ordering builders, the semantic validator and the alignment of
GROUP BY with ORDER BY, followed by the properties proved about them.

Go slices are lists, a nil-able interface or pointer is an `Option`, a function
returning `(value, error)` returns an `Except`, and a method that mutates its
receiver returns the new receiver.
-/

set_option autoImplicit false

/-! ## Errors (`vterrors`) -/

namespace vtrpcpb

/-- Modelled from the spec: the error codes of `vtrpcpb` used by the planner (the
package is not among the sources). -/
inductive Code
  | INTERNAL
  | UNIMPLEMENTED
  | INVALID_ARGUMENT
  | UNKNOWN
  deriving DecidableEq, Repr

end vtrpcpb

namespace vterrors

/-- Modelled from the spec: the MySQL error states of `vterrors` used by the planner
(the package is not among the sources); `Undefined` stands for an error built
without a state. -/
inductive State
  | Undefined
  | MixOfGroupFuncAndFields
  | WrongFieldWithGroup
  | WrongGroupField
  | SyntaxError
  deriving DecidableEq, Repr

/-- Modelled from the spec: an error value of `vterrors` (not among the sources): its
code, its state and its formatted message. -/
structure Error where
  code : vtrpcpb.Code
  state : State
  msg : String
  deriving DecidableEq, Repr

/-- Modelled from the spec: `vterrors.Errorf(code, format, args...)`, with the message
already formatted. -/
def Errorf (code : vtrpcpb.Code) (msg : String) : Error :=
  { code := code, state := State.Undefined, msg := msg }

/-- Modelled from the spec: `vterrors.NewErrorf(code, state, format, args...)`, with
the message already formatted. -/
def NewErrorf (code : vtrpcpb.Code) (state : State) (msg : String) : Error :=
  { code := code, state := state, msg := msg }

end vterrors

/-! ## The parsed statement (`sqlparser`) -/

namespace sqlparser

mutual
/-- Modelled from the spec: the expression nodes of the `sqlparser` syntax tree (the
package is not among the sources). The node kinds the planner tells apart are
kept: a column reference with its qualifier, the NULL literal, other literals,
bind arguments, function calls (whose arguments are select expressions, so that
`count(*)` has one star argument), `group_concat`, subqueries, and a binary
operator standing for every other composite expression. Identifiers are strings;
an empty string is the empty identifier. -/
inductive Expr
  | ColName (name : String) (qualifier : String)
  | NullVal
  | Literal (val : String)
  | Argument (name : String)
  | BinaryExpr (operator : String) (left : Expr) (right : Expr)
  | FuncExpr (name : String) (distinct : Bool) (exprs : SelectExprs)
  | GroupConcatExpr (distinct : Bool) (exprs : SelectExprs) (separator : String)
  | Subquery (select : SelectExprs)
/-- Modelled from the spec: the select-list items of `sqlparser` (not among the
sources): `*` (optionally qualified), an expression with an optional alias (empty
string when there is none), and `NEXT VALUE`, the one remaining kind. -/
inductive SelectExpr
  | StarExpr (tableName : String)
  | AliasedExpr (expr : Expr) (as : String)
  | Nextval (expr : Expr)
/-- Modelled from the spec: `sqlparser.SelectExprs`, a sequence of select-list
items. -/
inductive SelectExprs
  | nil
  | cons (head : SelectExpr) (tail : SelectExprs)
end

deriving instance DecidableEq for Expr, SelectExpr, SelectExprs

/-- Modelled from the spec: direction of an `ORDER BY` item (`sqlparser.OrderDirection`). -/
inductive OrderDirection
  | AscOrder
  | DescOrder
  deriving DecidableEq, Repr

/-- Modelled from the spec: `sqlparser.Order`, one item of an `ORDER BY` clause. -/
structure Order where
  Expr : Expr
  Direction : OrderDirection
  deriving DecidableEq

/-- Modelled from the spec: the parts of `sqlparser.Select` that the planner reads. -/
structure Select where
  Distinct : Bool
  SelectExprs : List SelectExpr
  GroupBy : List Expr
  OrderBy : List Order
  deriving DecidableEq

/-- Modelled from the spec: `sqlparser.SelectStatement` (not among the sources), a
SELECT or a UNION of two statements with its own ORDER BY. -/
inductive SelectStatement
  | Select (sel : Select)
  | Union (left : SelectStatement) (right : SelectStatement) (distinct : Bool)
      (orderBy : List Order)
  deriving DecidableEq

/-- Modelled from the spec: the parts of `sqlparser.Union` that the planner reads. -/
structure Union where
  Left : SelectStatement
  Right : SelectStatement
  Distinct : Bool
  OrderBy : List Order
  deriving DecidableEq

/-- Modelled from the spec: `sqlparser.GetFirstSelect`, the leftmost SELECT of a
statement. -/
def GetFirstSelect : SelectStatement → Select
  | .Select sel => sel
  | .Union left _ _ _ => GetFirstSelect left

/-- A `Union` as a `SelectStatement`. -/
def Union.toStatement (u : Union) : SelectStatement :=
  .Union u.Left u.Right u.Distinct u.OrderBy

/-- Modelled from the spec: every node kind handed to a `Walk` visitor by the
planner (`sqlparser.SQLNode`). -/
inductive SQLNode
  | expr (e : Expr)
  | selectExpr (s : SelectExpr)
  | selectExprs (l : SelectExprs)
  deriving DecidableEq

/-- The items of a `SelectExprs` as a list. -/
def SelectExprs.toList : SelectExprs → List SelectExpr
  | .nil => []
  | .cons h t => h :: t.toList

/-- Number of items, Go's `len` on a `SelectExprs`. -/
def SelectExprs.len : SelectExprs → Nat
  | .nil => 0
  | .cons _ t => t.len + 1

mutual
/-- Modelled from the spec: `sqlparser.EqualsExpr` on two non-nil expressions, the
structural comparison of two trees (same node kind, equal fields, equal children). -/
def Expr.equals : Expr → Expr → Bool
  | .ColName n q, .ColName n2 q2 => n == n2 && q == q2
  | .NullVal, .NullVal => true
  | .Literal v, .Literal v2 => v == v2
  | .Argument a, .Argument a2 => a == a2
  | .BinaryExpr o l r, .BinaryExpr o2 l2 r2 => o == o2 && l.equals l2 && r.equals r2
  | .FuncExpr n d es, .FuncExpr n2 d2 es2 => n == n2 && d == d2 && es.equals es2
  | .GroupConcatExpr d es s, .GroupConcatExpr d2 es2 s2 => d == d2 && es.equals es2 && s == s2
  | .Subquery s, .Subquery s2 => s.equals s2
  | _, _ => false
/-- Structural comparison of two select-list items. -/
def SelectExpr.equals : SelectExpr → SelectExpr → Bool
  | .StarExpr t, .StarExpr t2 => t == t2
  | .AliasedExpr e a, .AliasedExpr e2 a2 => e.equals e2 && a == a2
  | .Nextval e, .Nextval e2 => e.equals e2
  | _, _ => false
/-- Structural comparison of two sequences of select-list items. -/
def SelectExprs.equals : SelectExprs → SelectExprs → Bool
  | .nil, .nil => true
  | .cons h t, .cons h2 t2 => h.equals h2 && t.equals t2
  | _, _ => false
end

/-- Modelled from the spec: `sqlparser.EqualsExpr`, the structural equality of two
expression values, either of which may be the nil interface: two nils are equal, a
nil and a node are not. -/
def EqualsExpr : Option Expr → Option Expr → Bool
  | none, none => true
  | some a, some b => a.equals b
  | _, _ => false

/-- Modelled from the spec: `sqlparser.IsNull`, true exactly on the NULL literal. -/
def IsNull : Option Expr → Bool
  | some .NullVal => true
  | _ => false

/-- Modelled from the spec: `ColIdent.Lowered`, the identifier in lower case. -/
def Lowered (s : String) : String :=
  ⟨s.data.map Char.toLower⟩

/-- Modelled from the spec: the names in `sqlparser.Aggregates`, the functions that
`FuncExpr.IsAggregate` recognises (looked up by lower-cased name). -/
def Aggregates : List String :=
  ["avg", "bit_and", "bit_or", "bit_xor", "count", "group_concat", "max", "min",
   "std", "stddev_pop", "stddev_samp", "stddev", "sum", "var_pop", "var_samp", "variance"]

/-- Modelled from the spec: `FuncExpr.IsAggregate`, on the name of the call. -/
def IsAggregateName (name : String) : Bool :=
  Aggregates.contains (Lowered name)

/-- Modelled from the spec: `sqlparser.IsAggregation` on an expression node, a test
of the node itself (an aggregate function call or a `group_concat`), not of its
descendants: it is the test `checkForInvalidGroupingExpressions` applies to each
node of a walk, and the one `ContainsAggregation` searches a tree for. -/
def IsAggregationExpr : Expr → Bool
  | .FuncExpr n _ _ => IsAggregateName n
  | .GroupConcatExpr _ _ _ => true
  | _ => false

/-- Modelled from the spec: `sqlparser.IsAggregation` on any node. -/
def IsAggregationNode : SQLNode → Bool
  | .expr e => IsAggregationExpr e
  | _ => false

/-- Modelled from the spec: `sqlparser.IsAggregation` on an expression value that may
be nil. -/
def IsAggregation : Option Expr → Bool
  | some e => IsAggregationExpr e
  | none => false

mutual
/-- Modelled from the spec: `sqlparser.ContainsAggregation` on an expression, true
when some node of the tree, the root included, is an aggregation. -/
def Expr.containsAggregation : Expr → Bool
  | .ColName _ _ => false
  | .NullVal => false
  | .Literal _ => false
  | .Argument _ => false
  | .BinaryExpr _ l r => l.containsAggregation || r.containsAggregation
  | .FuncExpr n _ es => IsAggregateName n || es.containsAggregation
  | .GroupConcatExpr _ _ _ => true
  | .Subquery s => s.containsAggregation
/-- Aggregation containment for a select-list item. -/
def SelectExpr.containsAggregation : SelectExpr → Bool
  | .StarExpr _ => false
  | .AliasedExpr e _ => e.containsAggregation
  | .Nextval e => e.containsAggregation
/-- Aggregation containment for a sequence of select-list items. -/
def SelectExprs.containsAggregation : SelectExprs → Bool
  | .nil => false
  | .cons h t => h.containsAggregation || t.containsAggregation
end

/-- Modelled from the spec: `sqlparser.ContainsAggregation` on an expression value
that may be nil. -/
def ContainsAggregation : Option Expr → Bool
  | some e => e.containsAggregation
  | none => false

end sqlparser

namespace sqlparser

/-- Modelled from the spec: `ColIdent.Equal`, the case-insensitive comparison of two
identifiers. -/
def ColIdentEqual (a b : String) : Bool :=
  Lowered a == Lowered b

mutual
/-- Modelled from the spec: `sqlparser.String` on an expression, its SQL text. -/
def Expr.render : Expr → String
  | .ColName n q => if q == "" then n else q ++ "." ++ n
  | .NullVal => "null"
  | .Literal v => v
  | .Argument a => ":" ++ a
  | .BinaryExpr o l r => l.render ++ " " ++ o ++ " " ++ r.render
  | .FuncExpr n d es => n ++ "(" ++ (if d then "distinct " else "") ++ es.render ++ ")"
  | .GroupConcatExpr d es s =>
      "group_concat(" ++ (if d then "distinct " else "") ++ es.render ++ s ++ ")"
  | .Subquery s => "(select " ++ s.render ++ ")"
/-- SQL text of a select-list item. -/
def SelectExpr.render : SelectExpr → String
  | .StarExpr t => if t == "" then "*" else t ++ ".*"
  | .AliasedExpr e a => if a == "" then e.render else e.render ++ " as " ++ a
  | .Nextval e => "next " ++ e.render ++ " values"
/-- SQL text of a sequence of select-list items, separated by commas. -/
def SelectExprs.render : SelectExprs → String
  | .nil => ""
  | .cons h .nil => h.render
  | .cons h (.cons h2 t) => h.render ++ ", " ++ (SelectExprs.cons h2 t).render
end

/-- Modelled from the spec: `sqlparser.String` on a select-list item. -/
def String (s : SelectExpr) : String := s.render

/-- Result of a `Walk` visitor: whether to descend into the children, and an error. -/
abbrev VisitResult := Bool × Option vterrors.Error

/-- One step of a walk: the visitor's answer `r` on a node, then, unless it
stopped or failed, the walk of the node's children. -/
def visitThen (r : VisitResult) (children : Option vterrors.Error) : Option vterrors.Error :=
  match r with
  | (_, some err) => some err
  | (false, none) => none
  | (true, none) => children

/-- The first error of two walks made one after the other. -/
def andThen (a b : Option vterrors.Error) : Option vterrors.Error :=
  match a with
  | some err => some err
  | none => b

mutual
/-- Modelled from the spec: `sqlparser.Walk` on an expression, the pre-order
traversal that calls `visit` on a node, returns its error if it gives one, skips
the node's children if it answers false, and otherwise walks the children from
left to right, stopping at the first error. -/
def Expr.walk (visit : SQLNode → VisitResult) : Expr → Option vterrors.Error
  | .ColName n q => visitThen (visit (.expr (.ColName n q))) none
  | .NullVal => visitThen (visit (.expr .NullVal)) none
  | .Literal v => visitThen (visit (.expr (.Literal v))) none
  | .Argument a => visitThen (visit (.expr (.Argument a))) none
  | .BinaryExpr o l r =>
      visitThen (visit (.expr (.BinaryExpr o l r))) (andThen (l.walk visit) (r.walk visit))
  | .FuncExpr n d es => visitThen (visit (.expr (.FuncExpr n d es))) (es.walk visit)
  | .GroupConcatExpr d es s =>
      visitThen (visit (.expr (.GroupConcatExpr d es s))) (es.walk visit)
  | .Subquery s => visitThen (visit (.expr (.Subquery s))) (s.walk visit)
/-- The walk of a select-list item. -/
def SelectExpr.walk (visit : SQLNode → VisitResult) : SelectExpr → Option vterrors.Error
  | .StarExpr t => visitThen (visit (.selectExpr (.StarExpr t))) none
  | .AliasedExpr e a => visitThen (visit (.selectExpr (.AliasedExpr e a))) (e.walk visit)
  | .Nextval e => visitThen (visit (.selectExpr (.Nextval e))) (e.walk visit)
/-- The walk of a sequence of select-list items. -/
def SelectExprs.walk (visit : SQLNode → VisitResult) : SelectExprs → Option vterrors.Error
  | .nil => visitThen (visit (.selectExprs .nil)) none
  | .cons h t =>
      visitThen (visit (.selectExprs (.cons h t)))
        (andThen (h.walk visit) (SelectExprs.walkItems visit t))
/-- The items of a sequence walked from left to right. -/
def SelectExprs.walkItems (visit : SQLNode → VisitResult) : SelectExprs → Option vterrors.Error
  | .nil => none
  | .cons h t => andThen (h.walk visit) (SelectExprs.walkItems visit t)
end

/-- Modelled from the spec: `sqlparser.Walk(visit, expr)` on an expression value. -/
def Walk (visit : SQLNode → VisitResult) (e : Expr) : Option vterrors.Error :=
  e.walk visit

end sqlparser

/-! ## Semantic analysis (`semantics`) -/

namespace semantics

/-- Modelled from the spec: `semantics.TableInfo` (not among the sources), of which
the planner only asks whether it is a derived table; the number names the table. -/
inductive TableInfo
  | RealTable (id : Nat)
  | DerivedTable (id : Nat)
  deriving DecidableEq, Repr

/-- Modelled from the spec: `semantics.ErrMultipleTables`, the error of a column that
depends on several tables. -/
def ErrMultipleTables : vterrors.Error :=
  vterrors.Errorf vtrpcpb.Code.UNKNOWN "expected exactly one table"

/-- Modelled from the spec: the semantic resolver (`semantics.SemTable` with
`semantics.RewriteDerivedExpression`, not among the sources), as the two
capabilities the planner uses: the originating table of a column reference, with
an error, and the rewriting of a column reference against a derived table. -/
structure SemTable where
  TableInfoForExpr : sqlparser.Expr → Option TableInfo × Option vterrors.Error
  RewriteDerivedExpression : sqlparser.Expr → Nat → Except vterrors.Error sqlparser.Expr

end semantics

/-! ## The query projection (`abstract`) -/

namespace abstract

/-- SelectExpr provides whether the columns is aggregation expression or not. -/
structure SelectExpr where
  Col : sqlparser.SelectExpr
  Aggr : Bool
  deriving DecidableEq

/-- OrderBy contains the expression to used in order by and the expression to
compare by when ordering is done at the gateway. -/
structure OrderBy where
  Inner : sqlparser.Order
  WeightStrExpr : Option sqlparser.Expr
  deriving DecidableEq

/-- GroupBy contains the expression to used in group by, the expression to compare
by, the index at which the user expects to see this column (absent if the user does
not ask for it), and the original aliased expression that this group by refers to
(the fields of a `sqlparser.AliasedExpr`: expression and alias). -/
structure GroupBy where
  Inner : sqlparser.Expr
  WeightStrExpr : Option sqlparser.Expr
  InnerIndex : Option Int
  aliasedExpr : Option (sqlparser.Expr × String)
  deriving DecidableEq

/-- QueryProjection contains the information about the projections, group by and
order by expressions used to do horizon planning. -/
structure QueryProjection where
  SelectExprs : List SelectExpr
  HasAggr : Bool
  Distinct : Bool
  groupByExprs : List GroupBy
  OrderExprs : List OrderBy
  CanPushDownSorting : Bool
  HasStar : Bool
  ProjectionError : Option vterrors.Error
  deriving DecidableEq

/-- The zero value of `QueryProjection`, Go's `&QueryProjection{}`. -/
def QueryProjection.zero : QueryProjection :=
  { SelectExprs := [], HasAggr := false, Distinct := false, groupByExprs := [],
    OrderExprs := [], CanPushDownSorting := false, HasStar := false,
    ProjectionError := none }

/-- `GroupBy.AsOrderBy`: the ascending order key of a grouping key. -/
def GroupBy.AsOrderBy (b : GroupBy) : OrderBy :=
  { Inner := { Expr := b.Inner, Direction := sqlparser.OrderDirection.AscOrder },
    WeightStrExpr := b.WeightStrExpr }

/-- `SelectExpr.GetExpr` returns the underlying expression of a select item. -/
def SelectExpr.GetExpr (s : SelectExpr) : Except vterrors.Error sqlparser.Expr :=
  match s.Col with
  | .AliasedExpr e _ => .ok e
  | .StarExpr _ =>
    .error (vterrors.Errorf vtrpcpb.Code.INTERNAL "[BUG] *sqlparser.StarExpr does not have expr")
  | .Nextval _ =>
    .error (vterrors.Errorf vtrpcpb.Code.INTERNAL "[BUG] *sqlparser.Nextval does not have expr")

/-- `CompareRefInt` compares two references of integers. -/
def CompareRefInt (a b : Option Int) : Bool :=
  match a with
  | none => false
  | some x =>
    match b with
    | none => true
    | some y => decide (x < y)

/-- `GroupBys.Less` of the `sort.Interface`, on two entries. -/
def GroupBys.Less (x y : GroupBy) : Bool :=
  CompareRefInt x.InnerIndex y.InnerIndex

/-- Modelled from the spec: the contract of Go's `sort.Sort` on a `GroupBys`
(standard library, not among the sources; `AlignGroupByAndOrderBy` takes the
sorting function as `sortSort`): the result is a rearrangement of the input in
which no entry is `Less` than an entry before it. The library does not promise a
stable sort, so nothing more is fixed. -/
def SortContract (sortSort : List GroupBy → List GroupBy) : Prop :=
  ∀ l, (sortSort l).Perm l ∧ (sortSort l).Pairwise (fun x y => GroupBys.Less y x = false)

/-- `GetGrouping` returns a copy of the grouping parameters of the QP. -/
def QueryProjection.GetGrouping (qp : QueryProjection) : List GroupBy :=
  qp.groupByExprs

/-- The body of the inner loop of `AlignGroupByAndOrderBy`: grouping key `ig.2` at
index `ig.1` is appended to the new grouping and marked used when it is not used
yet and its sort key equals that of the order key. -/
def alignStep (orderExpr : OrderBy) (st : List GroupBy × List Bool) (ig : Nat × GroupBy) :
    List GroupBy × List Bool :=
  if !(st.2.getD ig.1 false) &&
      sqlparser.EqualsExpr ig.2.WeightStrExpr orderExpr.WeightStrExpr then
    (st.1 ++ [ig.2], st.2.set ig.1 true)
  else st

/-- The inner loop of `AlignGroupByAndOrderBy` for one order key, over the grouping
keys with their indices. -/
def alignOrder (groupByExprs : List GroupBy) (st : List GroupBy × List Bool)
    (orderExpr : OrderBy) : List GroupBy × List Bool :=
  groupByExprs.enum.foldl (alignStep orderExpr) st

/-- The last loop of `AlignGroupByAndOrderBy`: every grouping key not used is
appended to the new grouping and, as an ascending key, to the ORDER BY. -/
def alignMissing (groupByExprs : List GroupBy) (used : List Bool)
    (st : List GroupBy × List OrderBy) : List GroupBy × List OrderBy :=
  used.enum.foldl
    (fun st ia =>
      if !ia.2 then
        match groupByExprs.get? ia.1 with
        | some groupBy => (st.1 ++ [groupBy], st.2 ++ [groupBy.AsOrderBy])
        | none => st
      else st)
    st

/-- `AlignGroupByAndOrderBy` aligns the group by and order by columns, so they are in
the same order. -/
def QueryProjection.AlignGroupByAndOrderBy (sortSort : List GroupBy → List GroupBy)
    (qp : QueryProjection) : QueryProjection :=
  if qp.OrderExprs.length == 0 then
    let newGrouping := sortSort qp.GetGrouping
    { qp with
      OrderExprs := newGrouping.foldl (fun os groupBy => os ++ [groupBy.AsOrderBy]) qp.OrderExprs
      groupByExprs := newGrouping }
  else
    let used := List.replicate qp.groupByExprs.length false
    let st := qp.OrderExprs.foldl (alignOrder qp.groupByExprs) ([], used)
    if st.1.length != qp.groupByExprs.length then
      let r := alignMissing qp.groupByExprs st.2 (st.1, qp.OrderExprs)
      { qp with OrderExprs := r.2, groupByExprs := r.1 }
    else
      { qp with groupByExprs := st.1 }

/-- The error of `checkForInvalidAggregations` for the aggregate call `fExpr`. -/
def singleArgumentError (fExpr : sqlparser.Expr) : vterrors.Error :=
  vterrors.NewErrorf vtrpcpb.Code.INVALID_ARGUMENT vterrors.State.SyntaxError
    ("aggregate functions take a single argument '" ++ fExpr.render ++ "'")

/-- The visitor of `checkForInvalidAggregations`: a function call that is an aggregate
and does not have exactly one argument is an error. -/
def invalidAggregationVisit (node : sqlparser.SQLNode) : sqlparser.VisitResult :=
  match node with
  | .expr (.FuncExpr n d es) =>
    if sqlparser.IsAggregateName n && es.len != 1 then
      (false, some (singleArgumentError (.FuncExpr n d es)))
    else (true, none)
  | _ => (true, none)

/-- `checkForInvalidAggregations`: an aggregate function call anywhere in the
expression of the aliased select item must have exactly one argument. -/
def checkForInvalidAggregations (exp : sqlparser.Expr × String) : Option vterrors.Error :=
  sqlparser.Walk invalidAggregationVisit exp.1

/-- The loop of `addSelectExpressions` over the select list. -/
def addSelectExpressionsLoop :
    List sqlparser.SelectExpr → QueryProjection → Except vterrors.Error QueryProjection
  | [], qp => .ok qp
  | selExp :: rest, qp =>
    match selExp with
    | .AliasedExpr e a =>
      match checkForInvalidAggregations (e, a) with
      | some err => .error err
      | none =>
        if sqlparser.ContainsAggregation (some e) then
          addSelectExpressionsLoop rest
            { qp with
              HasAggr := true
              SelectExprs := qp.SelectExprs ++ [{ Col := selExp, Aggr := true }] }
        else
          addSelectExpressionsLoop rest
            { qp with SelectExprs := qp.SelectExprs ++ [{ Col := selExp, Aggr := false }] }
    | .StarExpr _ =>
      addSelectExpressionsLoop rest
        { qp with
          HasStar := true
          SelectExprs := qp.SelectExprs ++ [{ Col := selExp, Aggr := false }] }
    | .Nextval _ =>
      .error (vterrors.Errorf vtrpcpb.Code.INTERNAL "[BUG] *sqlparser.Nextval in select list")

/-- `addSelectExpressions` classifies every item of the select list. -/
def QueryProjection.addSelectExpressions (qp : QueryProjection) (sel : sqlparser.Select) :
    Except vterrors.Error QueryProjection :=
  addSelectExpressionsLoop sel.SelectExprs qp

/-- The loop of `FindSelectExprIndexForExpr`, from select item number `idx` on. -/
def findSelectExprIndexLoop (expr : sqlparser.Expr) :
    Nat → List SelectExpr → Option Int × Option (sqlparser.Expr × String)
  | _, [] => (none, none)
  | idx, selectExpr :: rest =>
    match selectExpr.Col with
    | .AliasedExpr e a =>
      if (match expr with
          | .ColName name _ => !(a == "") && sqlparser.ColIdentEqual name a
          | _ => false) then
        (some (idx : Int), some (e, a))
      else if sqlparser.EqualsExpr (some e) (some expr) then
        (some (idx : Int), some (e, a))
      else findSelectExprIndexLoop expr (idx + 1) rest
    | _ => findSelectExprIndexLoop expr (idx + 1) rest

/-- `FindSelectExprIndexForExpr` returns the index of the given expression in the
select expressions, if it is part of it, with the aliased expression found there. -/
def QueryProjection.FindSelectExprIndexForExpr (qp : QueryProjection) (expr : sqlparser.Expr) :
    Option Int × Option (sqlparser.Expr × String) :=
  findSelectExprIndexLoop expr 0 qp.SelectExprs

/-- The alias search of `GetSimplifiedExpr`: the expression behind the first aliased
select item whose non-empty alias equals the column name, else the column itself. -/
def simplifyByAlias (e : sqlparser.Expr) (name : String) :
    List SelectExpr → sqlparser.Expr × Option sqlparser.Expr
  | [] => (e, some e)
  | selectExpr :: rest =>
    match selectExpr.Col with
    | .AliasedExpr ex a =>
      if !(a == "") && sqlparser.ColIdentEqual name a then (e, some ex)
      else simplifyByAlias e name rest
    | _ => simplifyByAlias e name rest

/-- `GetSimplifiedExpr` takes an expression used in ORDER BY or GROUP BY, and returns
the expression with the expression to compare by (absent for nil). -/
def QueryProjection.GetSimplifiedExpr (qp : QueryProjection) (e : sqlparser.Expr)
    (semTable : semantics.SemTable) :
    Except vterrors.Error (sqlparser.Expr × Option sqlparser.Expr) :=
  match e with
  | .ColName name qualifier =>
    if sqlparser.IsNull (some e) then .ok (e, none)
    else
      match semTable.TableInfoForExpr e with
      | (tblInfo, err) =>
        match (if err == some semantics.ErrMultipleTables then none else err) with
        | some err => .error err
        | none =>
          match tblInfo with
          | some (.DerivedTable d) =>
            match semTable.RewriteDerivedExpression e d with
            | .error err => .error err
            | .ok weightStrExpr => .ok (e, some weightStrExpr)
          | _ =>
            if qualifier == "" then .ok (simplifyByAlias e name qp.SelectExprs)
            else .ok (e, some e)
  | _ => .ok (e, some e)

/-- The error of `checkForInvalidGroupingExpressions` for an aggregation in the
grouping expression `expr`. -/
def wrongGroupFieldError (expr : sqlparser.Expr) : vterrors.Error :=
  vterrors.NewErrorf vtrpcpb.Code.INVALID_ARGUMENT vterrors.State.WrongGroupField
    ("Can't group on '" ++ expr.render ++ "'")

/-- The error of `checkForInvalidGroupingExpressions` for a subquery. -/
def subqueriesInGroupByError : vterrors.Error :=
  vterrors.Errorf vtrpcpb.Code.UNIMPLEMENTED "unsupported: subqueries disallowed in GROUP BY"

/-- The test `isSubQ` of `checkForInvalidGroupingExpressions`: the node is a subquery. -/
def isSubQ : sqlparser.SQLNode → Bool
  | .expr (.Subquery _) => true
  | _ => false

/-- The test `isArg && strings.HasPrefix(string(arg), "__sq")` of
`checkForInvalidGroupingExpressions`: the node is an argument that stands for a
subquery. -/
def isSubqueryArgument : sqlparser.SQLNode → Bool
  | .expr (.Argument arg) => "__sq".data.isPrefixOf arg.data
  | _ => false

/-- The visitor of `checkForInvalidGroupingExpressions` for the grouping expression
`expr`. -/
def invalidGroupingVisit (expr : sqlparser.Expr) (node : sqlparser.SQLNode) :
    sqlparser.VisitResult :=
  if sqlparser.IsAggregationNode node then (false, some (wrongGroupFieldError expr))
  else if isSubQ node || isSubqueryArgument node then (false, some subqueriesInGroupByError)
  else (true, none)

/-- `checkForInvalidGroupingExpressions`: no aggregation and no subquery may occur in
a grouping expression. -/
def checkForInvalidGroupingExpressions (expr : Option sqlparser.Expr) : Option vterrors.Error :=
  match expr with
  | none => none
  | some ex => sqlparser.Walk (invalidGroupingVisit ex) ex

/-- The loop of `addOrderBy` over the ORDER BY clause, carrying `canPushDownSorting`. -/
def addOrderByLoop (semTable : semantics.SemTable) :
    List sqlparser.Order → QueryProjection → Bool → Except vterrors.Error (QueryProjection × Bool)
  | [], qp, canPushDownSorting => .ok (qp, canPushDownSorting)
  | order :: rest, qp, canPushDownSorting =>
    match qp.GetSimplifiedExpr order.Expr semTable with
    | .error err => .error err
    | .ok (expr, weightStrExpr) =>
      if sqlparser.IsNull weightStrExpr then
        addOrderByLoop semTable rest qp canPushDownSorting
      else
        addOrderByLoop semTable rest
          { qp with
            OrderExprs := qp.OrderExprs ++
              [{ Inner := { Expr := expr, Direction := order.Direction },
                 WeightStrExpr := weightStrExpr }] }
          (canPushDownSorting && !sqlparser.ContainsAggregation weightStrExpr)

/-- `addOrderBy` builds the order keys and `CanPushDownSorting`. -/
def QueryProjection.addOrderBy (qp : QueryProjection) (orderBy : List sqlparser.Order)
    (semTable : semantics.SemTable) : Except vterrors.Error QueryProjection :=
  match addOrderByLoop semTable orderBy qp true with
  | .error err => .error err
  | .ok (qp2, canPushDownSorting) => .ok { qp2 with CanPushDownSorting := canPushDownSorting }

/-- The inner loop of `getNonAggrExprNotMatchingGroupByExprs` for a select item:
`.error` is the early return of the item (it has no expression), `.ok` is the
value of `isGroupByOk` after the loop. -/
def selectExprGroupByOk (expr : SelectExpr) : List GroupBy → Except sqlparser.SelectExpr Bool
  | [] => .ok false
  | groupByExpr :: rest =>
    match expr.GetExpr with
    | .error _ => .error expr.Col
    | .ok exp =>
      if sqlparser.EqualsExpr groupByExpr.WeightStrExpr (some exp) then .ok true
      else selectExprGroupByOk expr rest

/-- The inner loop of `getNonAggrExprNotMatchingGroupByExprs` for an order key: the
value of `isGroupByOk` after the loop. -/
def orderExprGroupByOk (order : OrderBy) : List GroupBy → Bool
  | [] => false
  | groupByExpr :: rest =>
    if sqlparser.EqualsExpr groupByExpr.WeightStrExpr order.WeightStrExpr then true
    else orderExprGroupByOk order rest

/-- The second loop of `getNonAggrExprNotMatchingGroupByExprs`, over the order keys. -/
def orderNotMatchingGroupBy (groupByExprs : List GroupBy) :
    List OrderBy → Option sqlparser.SelectExpr
  | [] => none
  | order :: rest =>
    if sqlparser.IsNull (some order.Inner.Expr) || sqlparser.IsAggregation order.WeightStrExpr then
      orderNotMatchingGroupBy groupByExprs rest
    else if !orderExprGroupByOk order groupByExprs then
      some (.AliasedExpr order.Inner.Expr "")
    else orderNotMatchingGroupBy groupByExprs rest

/-- The first loop of `getNonAggrExprNotMatchingGroupByExprs`, over the select items,
followed by the second loop. -/
def selectNotMatchingGroupBy (groupByExprs : List GroupBy) (orderExprs : List OrderBy) :
    List SelectExpr → Option sqlparser.SelectExpr
  | [] => orderNotMatchingGroupBy groupByExprs orderExprs
  | expr :: rest =>
    if expr.Aggr then selectNotMatchingGroupBy groupByExprs orderExprs rest
    else
      match selectExprGroupByOk expr groupByExprs with
      | .error col => some col
      | .ok isGroupByOk =>
        if !isGroupByOk then some expr.Col
        else selectNotMatchingGroupBy groupByExprs orderExprs rest

/-- `getNonAggrExprNotMatchingGroupByExprs`: the first select item, else the first
order key, that is neither an aggregation nor in the grouping; absent if none. -/
def QueryProjection.getNonAggrExprNotMatchingGroupByExprs (qp : QueryProjection) :
    Option sqlparser.SelectExpr :=
  selectNotMatchingGroupBy qp.groupByExprs qp.OrderExprs qp.SelectExprs

/-- The loop of `CreateQPFromSelect` over the GROUP BY clause. -/
def addGroupByLoop (semTable : semantics.SemTable) :
    List sqlparser.Expr → QueryProjection → Except vterrors.Error QueryProjection
  | [], qp => .ok qp
  | group :: rest, qp =>
    match qp.FindSelectExprIndexForExpr group with
    | (selectExprIdx, aliasExpr) =>
      match qp.GetSimplifiedExpr group semTable with
      | .error err => .error err
      | .ok (expr, weightStrExpr) =>
        match checkForInvalidGroupingExpressions weightStrExpr with
        | some err => .error err
        | none =>
          addGroupByLoop semTable rest
            { qp with
              groupByExprs := qp.groupByExprs ++
                [{ Inner := expr, WeightStrExpr := weightStrExpr,
                   InnerIndex := selectExprIdx, aliasedExpr := aliasExpr }] }

/-- The error of `CreateQPFromSelect` for a non-aggregated expression in an aggregated
query without GROUP BY. -/
def mixOfGroupFuncAndFieldsError (expr : sqlparser.SelectExpr) : vterrors.Error :=
  vterrors.NewErrorf vtrpcpb.Code.INVALID_ARGUMENT vterrors.State.MixOfGroupFuncAndFields
    ("In aggregated query without GROUP BY, expression of SELECT list contains nonaggregated column '"
      ++ sqlparser.String expr ++ "'; this is incompatible with sql_mode=only_full_group_by")

/-- The error `CreateQPFromSelect` stores for a non-aggregated expression that is not
in the GROUP BY clause. -/
def wrongFieldWithGroupError (expr : sqlparser.SelectExpr) : vterrors.Error :=
  vterrors.NewErrorf vtrpcpb.Code.INVALID_ARGUMENT vterrors.State.WrongFieldWithGroup
    ("Expression of SELECT list is not in GROUP BY clause and contains nonaggregated column '"
      ++ sqlparser.String expr ++
      "' which is not functionally dependent on columns in GROUP BY clause; this is incompatible with sql_mode=only_full_group_by")

/-- The validation step of `CreateQPFromSelect`, run when the query aggregates or
groups: an immediate error without GROUP BY, a stored `ProjectionError` with one. -/
def validateGrouping (qp : QueryProjection) : Except vterrors.Error QueryProjection :=
  if qp.HasAggr || decide (qp.groupByExprs.length > 0) then
    match qp.getNonAggrExprNotMatchingGroupByExprs with
    | some expr =>
      if qp.groupByExprs.length == 0 then .error (mixOfGroupFuncAndFieldsError expr)
      else .ok { qp with ProjectionError := some (wrongFieldWithGroupError expr) }
    | none => .ok qp
  else .ok qp

/-- `CreateQPFromSelect` creates the QueryProjection for the input select statement. -/
def CreateQPFromSelect (sel : sqlparser.Select) (semTable : semantics.SemTable) :
    Except vterrors.Error QueryProjection :=
  match ({ QueryProjection.zero with Distinct := sel.Distinct }).addSelectExpressions sel with
  | .error err => .error err
  | .ok qp1 =>
    match addGroupByLoop semTable sel.GroupBy qp1 with
    | .error err => .error err
    | .ok qp2 =>
      match qp2.addOrderBy sel.OrderBy semTable with
      | .error err => .error err
      | .ok qp3 =>
        match validateGrouping qp3 with
        | .error err => .error err
        | .ok qp4 =>
          if qp4.Distinct && !qp4.HasAggr then .ok { qp4 with groupByExprs := [] }
          else .ok qp4

/-- `CreateQPFromUnion` creates the QueryProjection for the input union. -/
def CreateQPFromUnion (union : sqlparser.Union) (semTable : semantics.SemTable) :
    Except vterrors.Error QueryProjection :=
  match QueryProjection.zero.addSelectExpressions
      (sqlparser.GetFirstSelect union.toStatement) with
  | .error err => .error err
  | .ok qp1 =>
    match qp1.addOrderBy union.OrderBy semTable with
    | .error err => .error err
    | .ok qp2 => .ok qp2

/-- `NeedsAggregation` returns true if we either have aggregate functions or grouping
defined. -/
def QueryProjection.NeedsAggregation (qp : QueryProjection) : Bool :=
  qp.HasAggr || decide (qp.groupByExprs.length > 0)

/-- The loop of `onlyAggr` over the select items. -/
def onlyAggrLoop : List SelectExpr → Bool
  | [] => true
  | expr :: rest => if !expr.Aggr then false else onlyAggrLoop rest

/-- `onlyAggr`: the projection aggregates and every select item is flagged aggregate. -/
def QueryProjection.onlyAggr (qp : QueryProjection) : Bool :=
  if !qp.HasAggr then false else onlyAggrLoop qp.SelectExprs

/-- `NeedsDistinct` returns true if the query needs explicit distinct. -/
def QueryProjection.NeedsDistinct (qp : QueryProjection) : Bool :=
  if !qp.Distinct then false
  else if qp.onlyAggr && qp.groupByExprs.length == 0 then false
  else true

end abstract

/-! ## Aggregate opcodes (`engine`) -/

namespace engine

/-- Modelled from the spec: `engine.AggregateOpcode` (the package is not among the
sources): the opcodes of the aggregate functions the spec lists first, the two
DISTINCT variants, and `Other` for every remaining opcode. -/
inductive AggregateOpcode
  | AggregateCount
  | AggregateSum
  | AggregateMin
  | AggregateMax
  | AggregateCountDistinct
  | AggregateSumDistinct
  | Other (code : Nat)
  deriving DecidableEq, Repr

end engine

/-! ## Aggregate extraction and output columns (`abstract`) -/

namespace abstract

/-- The message of the panic of `AsAliasedExpr`. -/
def shouldNotHappenPanic : String :=
  "this should not happen - different inner and weighStringExpr and not a column alias"

/-- The run-time panic of Go for a comparison of two interface values whose common
dynamic type is not comparable. -/
def uncomparablePanic : String :=
  "runtime error: comparing uncomparable type"

/-- Go's `x != x`, the comparison of an interface value holding the expression `e`
with itself: false when the Go type of `e` is comparable, a run-time panic when it is
not. The type declarations of `sqlparser` are not among the sources; which
expressions have a comparable type is the parameter `comparable`. -/
def compareWithItself (comparable : sqlparser.Expr → Bool) (e : sqlparser.Expr) :
    Except String Bool :=
  if comparable e then .ok false else .error uncomparablePanic

/-- `GroupBy.AsAliasedExpr`: the grouping key as a select-list item, as its nil-able
expression and its alias; `.error` is a panic, with its message. Lines 86 and 92
compare the two interface values `b.WeightStrExpr` and `b.Inner`, by pointer, with a
run-time panic when their common dynamic type is not comparable. Expressions are
values here and carry no pointer, so what that comparison `!=` does is the argument
`differ`: its truth value, or the panic. -/
def GroupBy.AsAliasedExpr (b : GroupBy) (differ : Except String Bool) :
    Except String (Option sqlparser.Expr × String) :=
  match b.aliasedExpr with
  | some (e, a) => .ok (some e, a)
  | none =>
    match b.Inner with
    | .ColName name _ =>
      match differ with
      | .error p => .error p
      | .ok true => .ok (b.WeightStrExpr, name)
      | .ok false => .ok (b.WeightStrExpr, "")
    | _ =>
      match differ with
      | .error p => .error p
      | .ok true => .error shouldNotHappenPanic
      | .ok false => .ok (b.WeightStrExpr, "")

/-- `GetAliasedExpr` returns the select item as an aliased expression if its type
allows it, otherwise an error is returned. -/
def SelectExpr.GetAliasedExpr (s : SelectExpr) : Except vterrors.Error (sqlparser.Expr × String) :=
  match s.Col with
  | .AliasedExpr e a => .ok (e, a)
  | .StarExpr _ =>
    .error (vterrors.Errorf vtrpcpb.Code.UNIMPLEMENTED
      "unsupported: '*' expression in cross-shard query")
  | .Nextval _ =>
    .error (vterrors.Errorf vtrpcpb.Code.UNIMPLEMENTED
      "not an aliased expression: *sqlparser.Nextval")

/-- One recognised aggregate call: the original aliased expression, the function call
node, the opcode, the output alias, the index at which the user expects to see this
aggregated function, and whether the call is DISTINCT. -/
structure Aggr where
  Original : sqlparser.Expr × String
  Func : sqlparser.Expr
  OpCode : engine.AggregateOpcode
  Alias : String
  Index : Option Int
  Distinct : Bool
  deriving DecidableEq

/-- The error of `AggregationExpressions` for an aggregate-containing select item that
is not a function call. -/
def complexAggregateError : vterrors.Error :=
  vterrors.Errorf vtrpcpb.Code.UNIMPLEMENTED
    "unsupported: in scatter query: complex aggregate expression"

/-- The error of `AggregationExpressions` for a function name that is not in the
opcode table. -/
def unsupportedAggregationError (funcName : String) : vterrors.Error :=
  vterrors.Errorf vtrpcpb.Code.UNIMPLEMENTED
    ("unsupported: in scatter query: aggregation function '" ++ funcName ++ "'")

/-- The `switch opcode` of `AggregationExpressions`, entered when the call is DISTINCT. -/
def distinctOpcode (distinct : Bool) (opcode : engine.AggregateOpcode) : engine.AggregateOpcode :=
  if distinct then
    match opcode with
    | .AggregateCount => .AggregateCountDistinct
    | .AggregateSum => .AggregateSumDistinct
    | other => other
  else opcode

/-- The output alias `AggregationExpressions` gives an aliased expression. -/
def aggrAlias (aliasedExpr : sqlparser.Expr × String) : String :=
  if aliasedExpr.2 == "" then aliasedExpr.1.render else aliasedExpr.2

/-- The loop of `AggregationExpressions` from select item number `idx` on, with the
list `out` built so far. The table `engine.SupportedAggregates` (not among the
sources) is the parameter `SupportedAggregates`, a lookup by name. -/
def aggregationExpressionsLoop (SupportedAggregates : String → Option engine.AggregateOpcode) :
    Nat → List SelectExpr → List Aggr → Except vterrors.Error (List Aggr)
  | _, [], out => .ok out
  | idx, expr :: rest, out =>
    if !expr.Col.containsAggregation then
      aggregationExpressionsLoop SupportedAggregates (idx + 1) rest out
    else
      match expr.GetAliasedExpr with
      | .error err => .error err
      | .ok aliasedExpr =>
        match aliasedExpr.1 with
        | .FuncExpr name distinct _ =>
          match SupportedAggregates (sqlparser.Lowered name) with
          | none => .error (unsupportedAggregationError (sqlparser.Lowered name))
          | some opcode =>
            aggregationExpressionsLoop SupportedAggregates (idx + 1) rest
              (out ++ [{ Original := aliasedExpr, Func := aliasedExpr.1,
                         OpCode := distinctOpcode distinct opcode,
                         Alias := aggrAlias aliasedExpr,
                         Index := some (idx : Int), Distinct := distinct }])
        | _ => .error complexAggregateError

/-- `AggregationExpressions` lists the aggregate calls of the select list. -/
def QueryProjection.AggregationExpressions (qp : QueryProjection)
    (SupportedAggregates : String → Option engine.AggregateOpcode) :
    Except vterrors.Error (List Aggr) :=
  aggregationExpressionsLoop SupportedAggregates 0 qp.SelectExprs []

/-- `Aggrs.Less` of the `sort.Interface`, on two entries. -/
def Aggrs.Less (x y : Aggr) : Bool :=
  CompareRefInt x.Index y.Index

end abstract

/-! ## The fake health check (`discovery`) -/

namespace discovery

/-- Modelled from the spec: `querypb.Target` (not among the sources), the keyspace,
shard, tablet type and cell that a query is aimed at. -/
structure Target where
  Keyspace : String
  Shard : String
  TabletType : Int
  Cell : String
  deriving DecidableEq

/-- Modelled from the spec: `proto.Equal` on two targets, either of which may be nil. -/
def protoEqual (a b : Option Target) : Bool :=
  decide (a = b)

/-- Modelled from the spec: the fields of `discovery.TabletHealth` (declared outside
the sources) that the fake health check reads; the tablet stands by its name. -/
structure TabletHealth where
  Tablet : String
  Target : Option Target
  Serving : Bool
  LastError : Option vterrors.Error
  deriving DecidableEq

/-- An entry of the fake health check. -/
structure fhcItem where
  ts : TabletHealth
  deriving DecidableEq

/-- FakeHealthCheck implements discovery.HealthCheck. The map `items` is the list of
its entries, key first, in the order in which a `range` loop meets them. -/
structure FakeHealthCheck where
  items : List (String × fhcItem)
  currentTabletUID : Int

/-- `GetHealthyTabletStats` returns only the healthy tablets. -/
def FakeHealthCheck.GetHealthyTabletStats (fhc : FakeHealthCheck) (target : Option Target) :
    List TabletHealth :=
  fhc.items.foldl
    (fun result item =>
      if protoEqual item.2.ts.Target target && item.2.ts.Serving &&
          decide (item.2.ts.LastError = none) then
        result ++ [item.2.ts]
      else result)
    []

end discovery

/-! ## Descriptions used in the statements -/

namespace sqlparser

mutual
/-- The nodes of an expression in the order in which a walk that never stops meets
them: a node before its children, the children from left to right. -/
def Expr.nodes : Expr → List SQLNode
  | .ColName n q => [.expr (.ColName n q)]
  | .NullVal => [.expr .NullVal]
  | .Literal v => [.expr (.Literal v)]
  | .Argument a => [.expr (.Argument a)]
  | .BinaryExpr o l r => .expr (.BinaryExpr o l r) :: (l.nodes ++ r.nodes)
  | .FuncExpr n d es => .expr (.FuncExpr n d es) :: es.nodes
  | .GroupConcatExpr d es s => .expr (.GroupConcatExpr d es s) :: es.nodes
  | .Subquery s => .expr (.Subquery s) :: s.nodes
/-- The nodes of a select-list item, in walking order. -/
def SelectExpr.nodes : SelectExpr → List SQLNode
  | .StarExpr t => [.selectExpr (.StarExpr t)]
  | .AliasedExpr e a => .selectExpr (.AliasedExpr e a) :: e.nodes
  | .Nextval e => .selectExpr (.Nextval e) :: e.nodes
/-- The nodes of a sequence of select-list items, in walking order. -/
def SelectExprs.nodes : SelectExprs → List SQLNode
  | .nil => [.selectExprs .nil]
  | .cons h t => .selectExprs (.cons h t) :: (h.nodes ++ SelectExprs.itemNodes t)
/-- The nodes of the items of a sequence, in walking order. -/
def SelectExprs.itemNodes : SelectExprs → List SQLNode
  | .nil => []
  | .cons h t => h.nodes ++ SelectExprs.itemNodes t
end

end sqlparser

namespace abstract

/-- Whether the sort key of grouping key `g` is structurally equal to that of order key `o`. -/
def matchesOrder (g : GroupBy) (o : OrderBy) : Bool :=
  sqlparser.EqualsExpr g.WeightStrExpr o.WeightStrExpr

/-- Whether some order key of `os` matches grouping key `g`. -/
def matchedByAny (os : List OrderBy) (g : GroupBy) : Bool :=
  os.any (matchesOrder g)

/-- The grouping keys taken by the order keys `os` in turn, after the order keys
`seen`: each order key takes, in grouping order, the keys it matches that no
earlier order key has matched. -/
def matchedKeys (G : List GroupBy) : List OrderBy → List OrderBy → List GroupBy
  | _, [] => []
  | seen, o :: os =>
    G.filter (fun g => !matchedByAny seen g && matchesOrder g o) ++ matchedKeys G (seen ++ [o]) os

/-- The grouping keys that no order key of `os` matches, in grouping order. -/
def unmatchedKeys (G : List GroupBy) (os : List OrderBy) : List GroupBy :=
  G.filter (fun g => !matchedByAny os g)

/-- No two grouping keys have structurally equal sort-key expressions. -/
def DistinctSortKeys (G : List GroupBy) : Prop :=
  G.Pairwise (fun a b => sqlparser.EqualsExpr a.WeightStrExpr b.WeightStrExpr = false)

/-- The position in `os` of the first order key whose sort-key expression is
structurally equal to that of `g` (the length of `os` if there is none). -/
def firstOrderKey (os : List OrderBy) (g : GroupBy) : Nat :=
  os.findIdx (fun o => sqlparser.EqualsExpr g.WeightStrExpr o.WeightStrExpr)

/-- The stable sort of grouping keys by `InnerIndex` under `CompareRefInt`: insertion
sort, each key going before the first key of the sorted rest that is not `Less`
than it, so that keys neither of which is `Less` keep their relative order. -/
def stableSortByIndex (l : List GroupBy) : List GroupBy :=
  l.insertionSort (fun x y => GroupBys.Less y x = false)

/-- One shell pass: the entries of `back` are compared with the entries of `front`
at the same position and the two are swapped when the later one is `Less`. -/
def gapSwap : List GroupBy → List GroupBy → List GroupBy × List GroupBy
  | x :: xs, y :: ys =>
    if GroupBys.Less y x then (y :: (gapSwap xs ys).1, x :: (gapSwap xs ys).2)
    else (x :: (gapSwap xs ys).1, y :: (gapSwap xs ys).2)
  | xs, ys => (xs, ys)

/-- A sorting function within the contract of `sort.Sort` that is not stable: one
shell pass with gap 6 followed by insertion sort, which is how `sort.Sort` of the
Go releases before 1.19 sorts a slice of at most 12 entries. -/
def shellSort (l : List GroupBy) : List GroupBy :=
  stableSortByIndex ((gapSwap (l.take 6) (l.drop 6)).1 ++ (gapSwap (l.take 6) (l.drop 6)).2)

/-- The grouping key of the unqualified column `name`, seen at select-list position
`idx`. -/
def columnKey (name : String) (idx : Option Int) : GroupBy :=
  { Inner := .ColName name "", WeightStrExpr := some (.ColName name ""),
    InnerIndex := idx, aliasedExpr := none }

/-- The order key of the unqualified column `name` in direction `dir`. -/
def columnOrder (name : String) (dir : sqlparser.OrderDirection) : OrderBy :=
  { Inner := { Expr := .ColName name "", Direction := dir },
    WeightStrExpr := some (.ColName name "") }

/-- A projection with the given grouping and ordering and nothing else. -/
def projectionOf (groupBy : List GroupBy) (orderBy : List OrderBy) : QueryProjection :=
  { QueryProjection.zero with groupByExprs := groupBy, OrderExprs := orderBy }


/-- A semantic table in which every column belongs to one real table. -/
def plainSemTable : semantics.SemTable :=
  { TableInfoForExpr := fun _ => (some (.RealTable 0), none),
    RewriteDerivedExpression := fun e _ => .ok e }

/-- The unqualified column `name` as a select-list item without alias. -/
def columnItem (name : String) : sqlparser.SelectExpr :=
  .AliasedExpr (.ColName name "") ""

/-- The call `count(*)`. -/
def countStar : sqlparser.Expr :=
  .FuncExpr "count" false (.cons (.StarExpr "") .nil)

/-- The statement `select c, a, b, count(*) from t group by c, a, b, a order by c`. -/
def repeatedKeySelect : sqlparser.Select :=
  { Distinct := false,
    SelectExprs := [columnItem "c", columnItem "a", columnItem "b", .AliasedExpr countStar ""],
    GroupBy := [.ColName "c" "", .ColName "a" "", .ColName "b" "", .ColName "a" ""],
    OrderBy := [{ Expr := .ColName "c" "", Direction := .AscOrder }] }

/-- The grouping key built for a GROUP BY column that is select item `idx`. -/
def selectedKey (name : String) (idx : Int) : GroupBy :=
  { Inner := .ColName name "", WeightStrExpr := some (.ColName name ""),
    InnerIndex := some idx, aliasedExpr := some (.ColName name "", "") }

/-- The projection of `repeatedKeySelect`. -/
def repeatedKeyProjection : QueryProjection :=
  { SelectExprs := [{ Col := columnItem "c", Aggr := false }, { Col := columnItem "a", Aggr := false },
      { Col := columnItem "b", Aggr := false }, { Col := .AliasedExpr countStar "", Aggr := true }],
    HasAggr := true, Distinct := false,
    groupByExprs := [selectedKey "c" 0, selectedKey "a" 1, selectedKey "b" 2, selectedKey "a" 1],
    OrderExprs := [columnOrder "c" .AscOrder],
    CanPushDownSorting := true, HasStar := false, ProjectionError := none }

/-- Grouping `[b, a]` with `ORDER BY a asc`. -/
def groupBAOrderA : QueryProjection :=
  projectionOf [columnKey "b" none, columnKey "a" none] [columnOrder "a" .AscOrder]

/-- Grouping keys with select-list indices `[2, 0, nil]` and no ORDER BY. -/
def indices20nil : QueryProjection :=
  projectionOf [columnKey "x" (some 2), columnKey "y" (some 0), columnKey "z" none] []

/-- The statement
`select c0, c1, c2, c3, c4, count(*) from t group by a, b, c1, c2, c3, c4, c0`. -/
def sevenKeySelect : sqlparser.Select :=
  { Distinct := false,
    SelectExprs := [columnItem "c0", columnItem "c1", columnItem "c2", columnItem "c3",
      columnItem "c4", .AliasedExpr countStar ""],
    GroupBy := [.ColName "a" "", .ColName "b" "", .ColName "c1" "", .ColName "c2" "",
      .ColName "c3" "", .ColName "c4" "", .ColName "c0" ""],
    OrderBy := [] }

/-- The projection of `sevenKeySelect`: the first two grouping keys are not in the
select list. -/
def sevenKeyProjection : QueryProjection :=
  { SelectExprs := [{ Col := columnItem "c0", Aggr := false }, { Col := columnItem "c1", Aggr := false },
      { Col := columnItem "c2", Aggr := false }, { Col := columnItem "c3", Aggr := false },
      { Col := columnItem "c4", Aggr := false }, { Col := .AliasedExpr countStar "", Aggr := true }],
    HasAggr := true, Distinct := false,
    groupByExprs := [columnKey "a" none, columnKey "b" none, selectedKey "c1" 1,
      selectedKey "c2" 2, selectedKey "c3" 3, selectedKey "c4" 4, selectedKey "c0" 0],
    OrderExprs := [],
    CanPushDownSorting := true, HasStar := false, ProjectionError := none }

/-- The entry `addSelectExpressions` makes for a select-list item: the item, flagged
when it contains an aggregation. -/
def classify (item : sqlparser.SelectExpr) : SelectExpr :=
  { Col := item, Aggr := item.containsAggregation }

/-- Whether a select-list item is an aliased expression structurally equal to the
sort-key expression of some grouping key. -/
def inGrouping (G : List GroupBy) (item : sqlparser.SelectExpr) : Bool :=
  match item with
  | .AliasedExpr e _ => G.any (fun g => sqlparser.EqualsExpr g.WeightStrExpr (some e))
  | _ => false

/-- Whether the validator passes over an order key: its expression is NULL or its
sort-key expression is itself an aggregation. -/
def orderSkipped (order : OrderBy) : Bool :=
  sqlparser.IsNull (some order.Inner.Expr) || sqlparser.IsAggregation order.WeightStrExpr

/-- Whether the sort-key expression of an order key is structurally equal to that of
some grouping key. -/
def orderInGrouping (G : List GroupBy) (order : OrderBy) : Bool :=
  G.any (fun g => sqlparser.EqualsExpr g.WeightStrExpr order.WeightStrExpr)

/-- The projection `CreateQPFromSelect` starts from. -/
def initialProjection (sel : sqlparser.Select) : QueryProjection :=
  { QueryProjection.zero with Distinct := sel.Distinct }

/-- A resolution error other than `ErrMultipleTables`. -/
def lookupFailure : vterrors.Error :=
  vterrors.Errorf vtrpcpb.Code.INTERNAL "table lookup failed"

/-- A semantic table whose table lookup fails for every column. -/
def failingSemTable : semantics.SemTable :=
  { TableInfoForExpr := fun _ => (none, some lookupFailure),
    RewriteDerivedExpression := fun e _ => .ok e }

/-- The statement `select a, count(*) from t`. -/
def mixSelect : sqlparser.Select :=
  { Distinct := false, SelectExprs := [columnItem "a", .AliasedExpr countStar ""],
    GroupBy := [], OrderBy := [] }

/-- The statement `select a, count(*) from t order by x`. -/
def mixOrderSelect : sqlparser.Select :=
  { Distinct := false, SelectExprs := [columnItem "a", .AliasedExpr countStar ""],
    GroupBy := [], OrderBy := [{ Expr := .ColName "x" "", Direction := .AscOrder }] }

/-- The statement `select a, count(*) from t group by a`. -/
def fullGroupSelect : sqlparser.Select :=
  { Distinct := false, SelectExprs := [columnItem "a", .AliasedExpr countStar ""],
    GroupBy := [.ColName "a" ""], OrderBy := [] }

/-- The statement `select a, b, count(*) from t group by a`. -/
def partialGroupSelect : sqlparser.Select :=
  { Distinct := false,
    SelectExprs := [columnItem "a", columnItem "b", .AliasedExpr countStar ""],
    GroupBy := [.ColName "a" ""], OrderBy := [] }

/-- The statement `select a, b, count(a, b) from t group by a`. -/
def twoArgumentSelect : sqlparser.Select :=
  { Distinct := false,
    SelectExprs := [columnItem "a", columnItem "b",
      .AliasedExpr (.FuncExpr "count" false (.cons (columnItem "a") (.cons (columnItem "b") .nil))) ""],
    GroupBy := [.ColName "a" ""], OrderBy := [] }

/-- The expression `count(*) + 1`. -/
def countStarPlusOne : sqlparser.Expr :=
  .BinaryExpr "+" countStar (.Literal "1")

/-- The statement `select count(*) from t order by count(*)`. -/
def orderByCountSelect : sqlparser.Select :=
  { Distinct := false, SelectExprs := [.AliasedExpr countStar ""], GroupBy := [],
    OrderBy := [{ Expr := countStar, Direction := .AscOrder }] }

/-- The statement `select count(*) from t order by count(*) + 1`. -/
def orderByCountPlusOneSelect : sqlparser.Select :=
  { Distinct := false, SelectExprs := [.AliasedExpr countStar ""], GroupBy := [],
    OrderBy := [{ Expr := countStarPlusOne, Direction := .AscOrder }] }

/-- The statement `select a from t order by b desc`. -/
def plainSelect : sqlparser.Select :=
  { Distinct := false, SelectExprs := [columnItem "a"], GroupBy := [],
    OrderBy := [{ Expr := .ColName "b" "", Direction := .DescOrder }] }

/-- The order key of an expression that is its own sort key, in direction `dir`. -/
def aggregationOrder (e : sqlparser.Expr) (dir : sqlparser.OrderDirection) : OrderBy :=
  { Inner := { Expr := e, Direction := dir }, WeightStrExpr := some e }

/-- The statement `select a, count(*) from t group by a order by a desc, count(*)`. -/
def groupOrderSelect : sqlparser.Select :=
  { Distinct := false, SelectExprs := [columnItem "a", .AliasedExpr countStar ""],
    GroupBy := [.ColName "a" ""],
    OrderBy := [{ Expr := .ColName "a" "", Direction := .DescOrder },
      { Expr := countStar, Direction := .AscOrder }] }

/-- The projection of `groupOrderSelect`. -/
def groupOrderProjection : QueryProjection :=
  { SelectExprs := [{ Col := columnItem "a", Aggr := false },
      { Col := .AliasedExpr countStar "", Aggr := true }],
    HasAggr := true, Distinct := false,
    groupByExprs := [selectedKey "a" 0],
    OrderExprs := [columnOrder "a" .DescOrder, aggregationOrder countStar .AscOrder],
    CanPushDownSorting := false, HasStar := false, ProjectionError := none }

/-- The projection of `orderByCountSelect`. -/
def orderByCountProjection : QueryProjection :=
  { SelectExprs := [{ Col := .AliasedExpr countStar "", Aggr := true }],
    HasAggr := true, Distinct := false, groupByExprs := [],
    OrderExprs := [aggregationOrder countStar .AscOrder],
    CanPushDownSorting := false, HasStar := false, ProjectionError := none }

/-- The projection of `plainSelect`. -/
def plainProjection : QueryProjection :=
  { SelectExprs := [{ Col := columnItem "a", Aggr := false }],
    HasAggr := false, Distinct := false, groupByExprs := [],
    OrderExprs := [columnOrder "b" .DescOrder],
    CanPushDownSorting := true, HasStar := false, ProjectionError := none }

/-- The statement `select distinct a, b from t group by a`. -/
def distinctGroupSelect : sqlparser.Select :=
  { Distinct := true, SelectExprs := [columnItem "a", columnItem "b"],
    GroupBy := [.ColName "a" ""], OrderBy := [] }

/-- The projection of `distinctGroupSelect`: the grouping is cleared, the validator's
error is kept. -/
def distinctGroupProjection : QueryProjection :=
  { SelectExprs := [{ Col := columnItem "a", Aggr := false }, { Col := columnItem "b", Aggr := false }],
    HasAggr := false, Distinct := true, groupByExprs := [], OrderExprs := [],
    CanPushDownSorting := true, HasStar := false,
    ProjectionError := some (wrongFieldWithGroupError (columnItem "b")) }

/-- The statement `select distinct count(*) from t`. -/
def distinctCountSelect : sqlparser.Select :=
  { Distinct := true, SelectExprs := [.AliasedExpr countStar ""], GroupBy := [], OrderBy := [] }

/-- The projection of `distinctCountSelect`. -/
def distinctCountProjection : QueryProjection :=
  { SelectExprs := [{ Col := .AliasedExpr countStar "", Aggr := true }],
    HasAggr := true, Distinct := true, groupByExprs := [], OrderExprs := [],
    CanPushDownSorting := true, HasStar := false, ProjectionError := none }

/-- The statement `select a from t group by count(*)`. -/
def groupByCountSelect : sqlparser.Select :=
  { Distinct := false, SelectExprs := [columnItem "a"], GroupBy := [countStar], OrderBy := [] }

/-- The subquery `(select b)`. -/
def subqueryB : sqlparser.Expr :=
  .Subquery (.cons (columnItem "b") .nil)

/-- The statement `select a from t group by a, (select b)`. -/
def groupBySubquerySelect : sqlparser.Select :=
  { Distinct := false, SelectExprs := [columnItem "a"],
    GroupBy := [.ColName "a" "", subqueryB], OrderBy := [] }

/-- The expression behind the first aliased select item whose non-empty alias equals
the column name `name`, if there is one. -/
def aliasTarget (name : String) (items : List SelectExpr) : Option sqlparser.Expr :=
  items.findSome? (fun s =>
    match s.Col with
    | .AliasedExpr ex a => if !(a == "") && sqlparser.ColIdentEqual name a then some ex else none
    | _ => none)

/-- The order key `addOrderBy` makes from an ORDER BY item, if it makes one: none when
the resolved sort key is NULL. -/
def orderKeyOf (qp : QueryProjection) (semTable : semantics.SemTable)
    (order : sqlparser.Order) : Option OrderBy :=
  match qp.GetSimplifiedExpr order.Expr semTable with
  | .ok (_, w) =>
    if sqlparser.IsNull w then none
    else some { Inner := { Expr := order.Expr, Direction := order.Direction },
                WeightStrExpr := w }
  | .error _ => none

/-- The statement `select foo as bar, weightstring(foo) from music order by bar`. -/
def aliasOrderSelect : sqlparser.Select :=
  { Distinct := false,
    SelectExprs := [.AliasedExpr (.ColName "foo" "") "bar",
      .AliasedExpr (.FuncExpr "weightstring" false (.cons (columnItem "foo") .nil)) ""],
    GroupBy := [], OrderBy := [{ Expr := .ColName "bar" "", Direction := .AscOrder }] }

/-- The projection of `aliasOrderSelect`: the order key `bar` is compared by `foo`. -/
def aliasOrderProjection : QueryProjection :=
  { SelectExprs := [{ Col := .AliasedExpr (.ColName "foo" "") "bar", Aggr := false },
      { Col := .AliasedExpr (.FuncExpr "weightstring" false (.cons (columnItem "foo") .nil)) "",
        Aggr := false }],
    HasAggr := false, Distinct := false, groupByExprs := [],
    OrderExprs := [{ Inner := { Expr := .ColName "bar" "", Direction := .AscOrder },
                     WeightStrExpr := some (.ColName "foo" "") }],
    CanPushDownSorting := true, HasStar := false, ProjectionError := none }

/-- The ORDER BY clause `a desc, null, count(*)`. -/
def mixedOrderBy : List sqlparser.Order :=
  [{ Expr := .ColName "a" "", Direction := .DescOrder },
   { Expr := .NullVal, Direction := .AscOrder },
   { Expr := countStar, Direction := .AscOrder }]

/-- The union `select a from t union select b from u order by a desc, null, count(*)`. -/
def sampleUnion : sqlparser.Union :=
  { Left := .Select { Distinct := false, SelectExprs := [columnItem "a"], GroupBy := [],
                      OrderBy := [] },
    Right := .Select { Distinct := false, SelectExprs := [columnItem "b"], GroupBy := [],
                       OrderBy := [] },
    Distinct := true, OrderBy := mixedOrderBy }

/-- The projection of `sampleUnion`. -/
def sampleUnionProjection : QueryProjection :=
  { SelectExprs := [{ Col := columnItem "a", Aggr := false }],
    HasAggr := false, Distinct := false, groupByExprs := [],
    OrderExprs := [columnOrder "a" .DescOrder, aggregationOrder countStar .AscOrder],
    CanPushDownSorting := false, HasStar := false, ProjectionError := none }

/-- The call `count(a, b)`. -/
def countAB : sqlparser.Expr :=
  .FuncExpr "count" false (.cons (columnItem "a") (.cons (columnItem "b") .nil))

/-- The statement `select *, a, sum(b) + 1 from t`. -/
def starSelect : sqlparser.Select :=
  { Distinct := false,
    SelectExprs := [.StarExpr "", columnItem "a",
      .AliasedExpr (.BinaryExpr "+" (.FuncExpr "sum" false (.cons (columnItem "b") .nil))
        (.Literal "1")) ""],
    GroupBy := [], OrderBy := [] }

/-- The union `select a, b, count(a, b) from t group by a union select b from u`. -/
def twoArgumentUnion : sqlparser.Union :=
  { Left := .Select twoArgumentSelect,
    Right := .Select { Distinct := false, SelectExprs := [columnItem "b"], GroupBy := [],
                       OrderBy := [] },
    Distinct := true, OrderBy := [] }

/-- The name of the function called by a select item whose expression is itself a
function call. -/
def topFunctionName (s : SelectExpr) : Option String :=
  match s.Col with
  | .AliasedExpr (.FuncExpr name _ _) _ => some name
  | _ => none

/-- Whether `AggregationExpressions` refuses a select item: it contains an aggregation
and either is not itself a function call or calls a function whose lower-cased name
is not a key of the table. -/
def offending (SupportedAggregates : String → Option engine.AggregateOpcode)
    (s : SelectExpr) : Bool :=
  s.Col.containsAggregation &&
    match topFunctionName s with
    | none => true
    | some name => (SupportedAggregates (sqlparser.Lowered name)).isNone

/-- The error for a refused select item. -/
def offenceError (s : SelectExpr) : vterrors.Error :=
  match topFunctionName s with
  | none => complexAggregateError
  | some name => unsupportedAggregationError (sqlparser.Lowered name)

/-- What an entry `a` of the aggregate list records of the select item `p.2` at
position `p.1`, under the opcode table. -/
def Aggr.Records (SupportedAggregates : String → Option engine.AggregateOpcode)
    (a : Aggr) (p : Nat × SelectExpr) : Prop :=
  a.Index = some (p.1 : Int) ∧ p.2.Col = .AliasedExpr a.Original.1 a.Original.2 ∧
  a.Func = a.Original.1 ∧ a.Alias = aggrAlias a.Original ∧
  ∃ name distinct exprs opcode,
    a.Original.1 = .FuncExpr name distinct exprs ∧
    SupportedAggregates (sqlparser.Lowered name) = some opcode ∧
    a.OpCode = distinctOpcode distinct opcode ∧ a.Distinct = distinct

/-- The select items that contain an aggregation, each with its position, from
position `idx` on. -/
def aggregateItemsFrom (idx : Nat) (items : List SelectExpr) : List (Nat × SelectExpr) :=
  (items.enumFrom idx).filter (fun p => p.2.Col.containsAggregation)

/-- An opcode table with the entries count, sum, min and max. -/
def sampleAggregates (name : String) : Option engine.AggregateOpcode :=
  [("count", engine.AggregateOpcode.AggregateCount), ("sum", engine.AggregateOpcode.AggregateSum),
   ("min", engine.AggregateOpcode.AggregateMin), ("max", engine.AggregateOpcode.AggregateMax)].lookup name

/-- The call `f(name)` or `f(distinct name)` on an unqualified column. -/
def columnCall (f : String) (distinct : Bool) (name : String) : sqlparser.Expr :=
  .FuncExpr f distinct (.cons (columnItem name) .nil)

/-- The statement
`select a, COUNT(*), sum(distinct b) as total, min(distinct c) from t group by a`. -/
def aggregatesSelect : sqlparser.Select :=
  { Distinct := false,
    SelectExprs := [columnItem "a",
      .AliasedExpr (.FuncExpr "COUNT" false (.cons (.StarExpr "") .nil)) "",
      .AliasedExpr (columnCall "sum" true "b") "total",
      .AliasedExpr (columnCall "min" true "c") ""],
    GroupBy := [.ColName "a" ""], OrderBy := [] }

/-- The projection of `aggregatesSelect`. -/
def aggregatesProjection : QueryProjection :=
  { SelectExprs := [{ Col := columnItem "a", Aggr := false },
      { Col := .AliasedExpr (.FuncExpr "COUNT" false (.cons (.StarExpr "") .nil)) "", Aggr := true },
      { Col := .AliasedExpr (columnCall "sum" true "b") "total", Aggr := true },
      { Col := .AliasedExpr (columnCall "min" true "c") "", Aggr := true }],
    HasAggr := true, Distinct := false,
    groupByExprs := [selectedKey "a" 0], OrderExprs := [],
    CanPushDownSorting := true, HasStar := false, ProjectionError := none }

/-- The aggregate list of `aggregatesProjection` under `sampleAggregates`. -/
def aggregatesList : List Aggr :=
  [{ Original := (.FuncExpr "COUNT" false (.cons (.StarExpr "") .nil), ""),
     Func := .FuncExpr "COUNT" false (.cons (.StarExpr "") .nil),
     OpCode := .AggregateCount, Alias := "COUNT(*)", Index := some 1, Distinct := false },
   { Original := (columnCall "sum" true "b", "total"), Func := columnCall "sum" true "b",
     OpCode := .AggregateSumDistinct, Alias := "total", Index := some 2, Distinct := true },
   { Original := (columnCall "min" true "c", ""), Func := columnCall "min" true "c",
     OpCode := .AggregateMin, Alias := "min(distinct c)", Index := some 3, Distinct := true }]

/-- The statement `select sum(a) + sum(b), avg(c) from t`. -/
def complexAggregateSelect : sqlparser.Select :=
  { Distinct := false,
    SelectExprs := [.AliasedExpr (.BinaryExpr "+" (columnCall "sum" false "a")
        (columnCall "sum" false "b")) "",
      .AliasedExpr (columnCall "avg" false "c") ""],
    GroupBy := [], OrderBy := [] }

/-- The projection of `complexAggregateSelect`. -/
def complexAggregateProjection : QueryProjection :=
  { SelectExprs := [{ Col := .AliasedExpr (.BinaryExpr "+" (columnCall "sum" false "a")
        (columnCall "sum" false "b")) "", Aggr := true },
      { Col := .AliasedExpr (columnCall "avg" false "c") "", Aggr := true }],
    HasAggr := true, Distinct := false, groupByExprs := [], OrderExprs := [],
    CanPushDownSorting := true, HasStar := false, ProjectionError := none }

/-- Whether a select item answers for the expression `e`: it is an aliased expression
that is structurally equal to `e` or, when `e` is a column reference, has a non-empty
alias equal to the name of the column. -/
def matchesItem (e : sqlparser.Expr) (s : SelectExpr) : Bool :=
  match s.Col with
  | .AliasedExpr ex a =>
    sqlparser.EqualsExpr (some ex) (some e) ||
      (match e with
       | .ColName name _ => !(a == "") && sqlparser.ColIdentEqual name a
       | _ => false)
  | _ => false

/-- The statement `select count(*) as b from t group by t.b`. -/
def aliasClashSelect : sqlparser.Select :=
  { Distinct := false, SelectExprs := [.AliasedExpr countStar "b"],
    GroupBy := [.ColName "b" "t"], OrderBy := [] }

/-- The projection of `aliasClashSelect`: the grouping key `t.b` is given the output
column of `count(*) as b`. -/
def aliasClashProjection : QueryProjection :=
  { SelectExprs := [{ Col := .AliasedExpr countStar "b", Aggr := true }],
    HasAggr := true, Distinct := false,
    groupByExprs := [{ Inner := .ColName "b" "t", WeightStrExpr := some (.ColName "b" "t"),
                       InnerIndex := some 0, aliasedExpr := some (countStar, "b") }],
    OrderExprs := [],
    CanPushDownSorting := true, HasStar := false, ProjectionError := none }

/-- The statement `select *, a + 1, B as x, count(*) from t group by x, a + 1, c`. -/
def indexedGroupSelect : sqlparser.Select :=
  { Distinct := false,
    SelectExprs := [.StarExpr "", .AliasedExpr (.BinaryExpr "+" (.ColName "a" "") (.Literal "1")) "",
      .AliasedExpr (.ColName "B" "") "x", .AliasedExpr countStar ""],
    GroupBy := [.ColName "x" "", .BinaryExpr "+" (.ColName "a" "") (.Literal "1"),
      .ColName "c" ""],
    OrderBy := [] }

/-- The projection of `indexedGroupSelect`: the keys `x` and `a + 1` have the output
columns 2 and 1, the key `c` has none; the validator's error for `*` is stored. -/
def indexedGroupProjection : QueryProjection :=
  { SelectExprs := [{ Col := .StarExpr "", Aggr := false },
      { Col := .AliasedExpr (.BinaryExpr "+" (.ColName "a" "") (.Literal "1")) "", Aggr := false },
      { Col := .AliasedExpr (.ColName "B" "") "x", Aggr := false },
      { Col := .AliasedExpr countStar "", Aggr := true }],
    HasAggr := true, Distinct := false,
    groupByExprs := [
      { Inner := .ColName "x" "", WeightStrExpr := some (.ColName "B" ""),
        InnerIndex := some 2, aliasedExpr := some (.ColName "B" "", "x") },
      { Inner := .BinaryExpr "+" (.ColName "a" "") (.Literal "1"),
        WeightStrExpr := some (.BinaryExpr "+" (.ColName "a" "") (.Literal "1")),
        InnerIndex := some 1,
        aliasedExpr := some (.BinaryExpr "+" (.ColName "a" "") (.Literal "1"), "") },
      columnKey "c" none],
    OrderExprs := [],
    CanPushDownSorting := true, HasStar := true,
    ProjectionError := some (wrongFieldWithGroupError (.StarExpr "")) }

/-- The statement `select count(*) + 1 from t order by count(*) + 1`. -/
def orderByOwnItemSelect : sqlparser.Select :=
  { Distinct := false, SelectExprs := [.AliasedExpr countStarPlusOne ""], GroupBy := [],
    OrderBy := [{ Expr := countStarPlusOne, Direction := .AscOrder }] }

/-- Whether an expression is a column reference. -/
def isColumn : sqlparser.Expr → Bool
  | .ColName _ _ => true
  | _ => false

/-- What Go's comparison `b.WeightStrExpr != b.Inner` can do on a grouping key that
`CreateQPFromSelect` has built. For a key whose expression is a column reference, a
pointer, it gives a truth value. For any other key `GetSimplifiedExpr` has returned
the one interface value `e` for both fields (line 322), so it is the comparison of
that value with itself. -/
def keyComparison (comparable : sqlparser.Expr → Bool) (g : GroupBy)
    (differ : Except String Bool) : Prop :=
  match g.Inner with
  | .ColName _ _ => ∃ b, differ = .ok b
  | e => differ = compareWithItself comparable e

/-- The tuple `(a, b)`: a composite expression, written in this embedding as the
composite node with the operator `,`. -/
def tupleAB : sqlparser.Expr :=
  .BinaryExpr "," (.ColName "a" "") (.ColName "b" "")

/-- Go types in which the tuple, a slice of expressions, is the one expression type
that is not comparable. -/
def tupleComparable : sqlparser.Expr → Bool
  | .BinaryExpr o _ _ => !(o == ",")
  | _ => true

/-- The statement `select count(*) from t group by (a, b)`. -/
def tupleSelect : sqlparser.Select :=
  { Distinct := false, SelectExprs := [.AliasedExpr countStar ""],
    GroupBy := [tupleAB], OrderBy := [] }

/-- The grouping key of `tupleSelect`: the tuple, with itself as sort key, no output
column and no aliased select item. -/
def tupleKey : GroupBy :=
  { Inner := tupleAB, WeightStrExpr := some tupleAB, InnerIndex := none, aliasedExpr := none }

/-- The projection of `tupleSelect`. -/
def tupleProjection : QueryProjection :=
  { SelectExprs := [{ Col := .AliasedExpr countStar "", Aggr := true }],
    HasAggr := true, Distinct := false, groupByExprs := [tupleKey], OrderExprs := [],
    CanPushDownSorting := true, HasStar := false, ProjectionError := none }

end abstract

namespace discovery

/-- Whether an entry passes the test of `GetHealthyTabletStats` for `target`: its
target equals `target`, it is serving, and its last error is nil. -/
def passes (target : Option Target) (item : String × fhcItem) : Bool :=
  decide (item.2.ts.Target = target) && item.2.ts.Serving && item.2.ts.LastError.isNone

/-- The target of the replicas of shard `-80` of keyspace `ks`. -/
def replicaTarget : Target :=
  { Keyspace := "ks", Shard := "-80", TabletType := 2, Cell := "" }

/-- A tablet of `replicaTarget` with the given name, serving flag and last error. -/
def replica (name : String) (serving : Bool) (err : Option vterrors.Error) : TabletHealth :=
  { Tablet := name, Target := some replicaTarget, Serving := serving, LastError := err }

/-- The error of a tablet that cannot be reached. -/
def noConnection : vterrors.Error :=
  vterrors.Errorf vtrpcpb.Code.UNKNOWN "no connection"

/-- A health check with four tablets: `a` serving without error, `b` serving with a
last error, `c` not serving, and `d` serving without error for another shard. -/
def sampleHealthCheck : FakeHealthCheck :=
  { items := [("a", { ts := replica "a" true none }),
              ("b", { ts := replica "b" true (some noConnection) }),
              ("c", { ts := replica "c" false none }),
              ("d", { ts := { Tablet := "d",
                              Target := some { Keyspace := "ks", Shard := "80-",
                                               TabletType := 2, Cell := "" },
                              Serving := true, LastError := none } })],
    currentTabletUID := 4 }

end discovery

/-! ## Properties -/

namespace sqlparser

mutual
theorem Expr.exprEquals_iff : ∀ (a b : Expr), a.equals b = true ↔ a = b
  | .ColName n q, b => by cases b <;> simp [Expr.equals]
  | .NullVal, b => by cases b <;> simp [Expr.equals]
  | .Literal v, b => by cases b <;> simp [Expr.equals]
  | .Argument v, b => by cases b <;> simp [Expr.equals]
  | .BinaryExpr o l r, b => by
    cases b <;> simp [Expr.equals, Expr.exprEquals_iff l, Expr.exprEquals_iff r, and_assoc]
  | .FuncExpr n d es, b => by
    cases b <;> simp [Expr.equals, SelectExprs.itemsEquals_iff es, and_assoc]
  | .GroupConcatExpr d es s, b => by
    cases b <;> simp [Expr.equals, SelectExprs.itemsEquals_iff es, and_assoc]
  | .Subquery s, b => by
    cases b <;> simp [Expr.equals, SelectExprs.itemsEquals_iff s]
theorem SelectExpr.itemEquals_iff : ∀ (a b : SelectExpr), a.equals b = true ↔ a = b
  | .StarExpr t, b => by cases b <;> simp [SelectExpr.equals]
  | .AliasedExpr e a, b => by cases b <;> simp [SelectExpr.equals, Expr.exprEquals_iff e]
  | .Nextval e, b => by cases b <;> simp [SelectExpr.equals, Expr.exprEquals_iff e]
theorem SelectExprs.itemsEquals_iff : ∀ (a b : SelectExprs), a.equals b = true ↔ a = b
  | .nil, b => by cases b <;> simp [SelectExprs.equals]
  | .cons h t, b => by
    cases b <;> simp [SelectExprs.equals, SelectExpr.itemEquals_iff h, SelectExprs.itemsEquals_iff t]
end

theorem EqualsExpr_iff (a b : Option Expr) : EqualsExpr a b = true ↔ a = b := by
  cases a <;> cases b <;> simp [EqualsExpr, Expr.exprEquals_iff]

end sqlparser

namespace abstract

theorem getD_append_length {α : Type} (l1 l2 : List α) (a d : α) :
    (l1 ++ a :: l2).getD l1.length d = a := by
  induction l1 with
  | nil => rfl
  | cons x xs ih => simpa using ih

theorem set_append_length {α : Type} (l1 l2 : List α) (a b : α) :
    (l1 ++ a :: l2).set l1.length b = l1 ++ b :: l2 := by
  induction l1 with
  | nil => rfl
  | cons x xs ih => simp

theorem alignStep_foldl (o : OrderBy) (p : GroupBy → Bool) :
    ∀ (rest pre acc : List GroupBy),
      (rest.enumFrom pre.length).foldl (alignStep o)
          (acc, pre.map (fun g => p g || matchesOrder g o) ++ rest.map p)
        = (acc ++ rest.filter (fun g => !p g && matchesOrder g o),
            (pre ++ rest).map (fun g => p g || matchesOrder g o)) := by
  intro rest
  induction rest with
  | nil => intro pre acc; simp
  | cons g rest ih =>
    intro pre acc
    have hIH := ih (pre ++ [g])
    simp only [List.length_append, List.length_singleton, List.map_append, List.map_cons,
      List.map_nil, List.append_assoc, List.singleton_append] at hIH
    have hget := getD_append_length (pre.map (fun g => p g || matchesOrder g o))
      (rest.map p) (p g) false
    have hset := set_append_length (pre.map (fun g => p g || matchesOrder g o))
      (rest.map p) (p g) true
    rw [List.length_map] at hget hset
    simp only [List.enumFrom_cons, List.foldl_cons, List.map_cons, alignStep, hget, hset]
    by_cases hc : (!p g && sqlparser.EqualsExpr g.WeightStrExpr o.WeightStrExpr) = true
    · rw [if_pos hc]
      have hp : (p g || matchesOrder g o) = true := by
        simp only [Bool.and_eq_true, Bool.not_eq_true', matchesOrder] at hc ⊢
        simp [hc.2]
      have h2 := hIH (acc ++ [g])
      rw [hp] at h2
      have hf : (g :: rest).filter (fun g => !p g && matchesOrder g o)
          = g :: rest.filter (fun g => !p g && matchesOrder g o) :=
        List.filter_cons_of_pos (by simpa [matchesOrder] using hc)
      rw [h2, hf, List.map_append, List.map_cons, hp]
      simp
    · rw [if_neg hc]
      have hp : (p g || matchesOrder g o) = p g := by
        simp only [matchesOrder] at hc ⊢
        cases hpg : p g <;> simp_all
      have h2 := hIH acc
      rw [hp] at h2
      have hf : (g :: rest).filter (fun g => !p g && matchesOrder g o)
          = rest.filter (fun g => !p g && matchesOrder g o) :=
        List.filter_cons_of_neg (by simpa [matchesOrder] using hc)
      rw [h2, hf, List.map_append, List.map_cons, hp]


theorem matchedByAny_append_singleton (seen : List OrderBy) (o : OrderBy) (g : GroupBy) :
    matchedByAny (seen ++ [o]) g = (matchedByAny seen g || matchesOrder g o) := by
  simp [matchedByAny, List.any_append]

theorem alignOrder_eq (G : List GroupBy) (seen : List OrderBy) (o : OrderBy)
    (acc : List GroupBy) :
    alignOrder G (acc, G.map (matchedByAny seen)) o
      = (acc ++ G.filter (fun g => !matchedByAny seen g && matchesOrder g o),
          G.map (matchedByAny (seen ++ [o]))) := by
  have h := alignStep_foldl o (matchedByAny seen) G [] acc
  simp only [List.length_nil, List.map_nil, List.nil_append] at h
  unfold alignOrder List.enum
  rw [h]
  congr 1
  apply List.map_congr_left
  intro g _
  rw [matchedByAny_append_singleton]

theorem alignOrder_foldl (G : List GroupBy) :
    ∀ (os seen : List OrderBy) (acc : List GroupBy),
      os.foldl (alignOrder G) (acc, G.map (matchedByAny seen))
        = (acc ++ matchedKeys G seen os, G.map (matchedByAny (seen ++ os))) := by
  intro os
  induction os with
  | nil => intro seen acc; simp [matchedKeys]
  | cons o os ih =>
    intro seen acc
    rw [List.foldl_cons, alignOrder_eq, ih]
    simp [matchedKeys, List.append_assoc]

theorem getOpt_append_length {α : Type} (l1 l2 : List α) (a : α) :
    (l1 ++ a :: l2).get? l1.length = some a := by
  induction l1 with
  | nil => rfl
  | cons x xs ih => simpa using ih

theorem alignMissing_foldl (u : GroupBy → Bool) :
    ∀ (rest pre acc : List GroupBy) (os : List OrderBy),
      ((rest.map u).enumFrom pre.length).foldl
          (fun st ia =>
            if !ia.2 then
              match (pre ++ rest).get? ia.1 with
              | some groupBy => (st.1 ++ [groupBy], st.2 ++ [groupBy.AsOrderBy])
              | none => st
            else st)
          (acc, os)
        = (acc ++ rest.filter (fun g => !u g),
            os ++ (rest.filter (fun g => !u g)).map GroupBy.AsOrderBy) := by
  intro rest
  induction rest with
  | nil => intro pre acc os; simp
  | cons g rest ih =>
    intro pre acc os
    have hIH := ih (pre ++ [g])
    simp only [List.length_append, List.length_singleton, List.append_assoc,
      List.singleton_append] at hIH
    have hget := getOpt_append_length pre rest g
    simp only [List.map_cons, List.enumFrom_cons, List.foldl_cons, hget]
    cases hu : u g
    · simp only [Bool.not_false, if_true]
      rw [hIH]
      simp [List.filter_cons, hu]
    · simp only [Bool.not_true, Bool.false_eq_true, if_false]
      rw [hIH]
      simp [List.filter_cons, hu]

theorem alignMissing_eq (G : List GroupBy) (u : GroupBy → Bool) (acc : List GroupBy)
    (os : List OrderBy) :
    alignMissing G (G.map u) (acc, os)
      = (acc ++ G.filter (fun g => !u g),
          os ++ (G.filter (fun g => !u g)).map GroupBy.AsOrderBy) := by
  have h := alignMissing_foldl u G [] acc os
  simpa [alignMissing, List.enum] using h

theorem foldl_asOrderBy (l : List GroupBy) :
    ∀ (init : List OrderBy),
      l.foldl (fun os groupBy => os ++ [groupBy.AsOrderBy]) init
        = init ++ l.map GroupBy.AsOrderBy := by
  induction l with
  | nil => intro init; simp
  | cons g l ih => intro init; simp [ih]

/-- The matched and the unmatched keys together are a rearrangement of the keys
not matched before. -/
theorem matchedKeys_perm (G : List GroupBy) :
    ∀ (os seen : List OrderBy),
      (matchedKeys G seen os ++ unmatchedKeys G (seen ++ os)).Perm (unmatchedKeys G seen) := by
  intro os
  induction os with
  | nil => intro seen; simp [matchedKeys]
  | cons o os ih =>
    intro seen
    have h1 := ih (seen ++ [o])
    simp only [List.append_assoc, List.singleton_append] at h1
    simp only [matchedKeys, List.append_assoc]
    refine (List.Perm.append_left _ h1).trans ?_
    have h2 := List.filter_append_perm (fun g => matchesOrder g o) (unmatchedKeys G seen)
    simp only [unmatchedKeys, List.filter_filter] at h2 ⊢
    refine List.Perm.trans ?_ h2
    have e1 : (fun g => !matchedByAny seen g && matchesOrder g o)
        = (fun a => matchesOrder a o && !matchedByAny seen a) := by
      funext g; exact Bool.and_comm _ _
    have e2 : (fun g => !matchedByAny (seen ++ [o]) g)
        = (fun a => (!matchesOrder a o) && !matchedByAny seen a) := by
      funext g; rw [matchedByAny_append_singleton]; cases matchedByAny seen g <;> cases matchesOrder g o <;> rfl
    rw [e1, e2]


theorem unmatchedKeys_nil (G : List GroupBy) : unmatchedKeys G [] = G := by
  simp [unmatchedKeys, matchedByAny]

theorem matchedKeys_perm_all (G : List GroupBy) (os : List OrderBy) :
    (matchedKeys G [] os ++ unmatchedKeys G os).Perm G := by
  have h := matchedKeys_perm G os []
  rwa [unmatchedKeys_nil, List.nil_append] at h

theorem replicate_false_eq (G : List GroupBy) :
    List.replicate G.length false = G.map (matchedByAny []) := by
  induction G with
  | nil => rfl
  | cons g G ih => simp [List.replicate_succ, ih, matchedByAny]

/-- With an empty ORDER BY the grouping is sorted and the ORDER BY is made from it. -/
theorem align_of_empty (sortSort : List GroupBy → List GroupBy) (qp : QueryProjection)
    (h : qp.OrderExprs = []) :
    qp.AlignGroupByAndOrderBy sortSort =
      { qp with
        OrderExprs := (sortSort qp.groupByExprs).map GroupBy.AsOrderBy
        groupByExprs := sortSort qp.groupByExprs } := by
  unfold QueryProjection.AlignGroupByAndOrderBy
  simp [h, foldl_asOrderBy, QueryProjection.GetGrouping]

/-- With a non-empty ORDER BY the grouping is the matched keys followed by the
unmatched ones, which are also appended to the ORDER BY. -/
theorem align_of_nonempty (sortSort : List GroupBy → List GroupBy) (qp : QueryProjection)
    (h : qp.OrderExprs ≠ []) :
    qp.AlignGroupByAndOrderBy sortSort =
      { qp with
        OrderExprs := qp.OrderExprs ++
          (unmatchedKeys qp.groupByExprs qp.OrderExprs).map GroupBy.AsOrderBy
        groupByExprs := matchedKeys qp.groupByExprs [] qp.OrderExprs ++
          unmatchedKeys qp.groupByExprs qp.OrderExprs } := by
  have hlen : (qp.OrderExprs.length == 0) = false := by
    cases hO : qp.OrderExprs with
    | nil => exact absurd hO h
    | cons o os => rfl
  have hst := alignOrder_foldl qp.groupByExprs qp.OrderExprs [] []
  rw [List.nil_append, List.nil_append, ← replicate_false_eq] at hst
  have hperm := (matchedKeys_perm_all qp.groupByExprs qp.OrderExprs).length_eq
  rw [List.length_append] at hperm
  unfold QueryProjection.AlignGroupByAndOrderBy
  simp only [hlen, Bool.false_eq_true, if_false, hst]
  by_cases hne : ((matchedKeys qp.groupByExprs [] qp.OrderExprs).length
      != qp.groupByExprs.length) = true
  · rw [if_pos hne, alignMissing_eq]
    rfl
  · rw [if_neg hne]
    have heq : (matchedKeys qp.groupByExprs [] qp.OrderExprs).length
        = qp.groupByExprs.length := by simpa using hne
    have hnil : unmatchedKeys qp.groupByExprs qp.OrderExprs = [] :=
      List.length_eq_zero.mp (by omega)
    simp [hnil]


theorem matchesOrder_iff (g : GroupBy) (o : OrderBy) :
    matchesOrder g o = true ↔ g.WeightStrExpr = o.WeightStrExpr := by
  simp [matchesOrder, sqlparser.EqualsExpr_iff]

theorem matchesOrder_asOrderBy_self (g : GroupBy) : matchesOrder g g.AsOrderBy = true := by
  rw [matchesOrder_iff]; rfl

theorem matchedByAny_append (os1 os2 : List OrderBy) (g : GroupBy) :
    matchedByAny (os1 ++ os2) g = (matchedByAny os1 g || matchedByAny os2 g) := by
  simp [matchedByAny, List.any_append]

/-- Every matched key is a grouping key that the earlier order keys did not match and
some current order key does. -/
theorem mem_matchedKeys (G : List GroupBy) :
    ∀ (os seen : List OrderBy) (g : GroupBy), g ∈ matchedKeys G seen os →
      g ∈ G ∧ matchedByAny seen g = false ∧ matchedByAny os g = true := by
  intro os
  induction os with
  | nil => intro seen g h; simp [matchedKeys] at h
  | cons o os ih =>
    intro seen g h
    simp only [matchedKeys, List.mem_append, List.mem_filter] at h
    rcases h with ⟨hg, hp⟩ | h
    · simp only [Bool.and_eq_true, Bool.not_eq_true'] at hp
      exact ⟨hg, hp.1, by simp [matchedByAny, hp.2]⟩
    · obtain ⟨hg, h1, h2⟩ := ih _ g h
      rw [matchedByAny_append_singleton] at h1
      simp only [Bool.or_eq_false_iff] at h1
      refine ⟨hg, h1.1, ?_⟩
      simp only [matchedByAny, List.any_cons, Bool.or_eq_true] at h2 ⊢
      exact Or.inr h2

theorem matchedKeys_append_orders (G : List GroupBy) :
    ∀ (os1 os2 seen : List OrderBy),
      matchedKeys G seen (os1 ++ os2)
        = matchedKeys G seen os1 ++ matchedKeys G (seen ++ os1) os2 := by
  intro os1
  induction os1 with
  | nil => intro os2 seen; simp [matchedKeys]
  | cons o os1 ih =>
    intro os2 seen
    simp [matchedKeys, ih, List.append_assoc]

/-- Keys that no current order key matches contribute nothing. -/
theorem matchedKeys_append_unmatched (L X : List GroupBy) :
    ∀ (os seen : List OrderBy), (∀ x ∈ X, matchedByAny os x = false) →
      matchedKeys (L ++ X) seen os = matchedKeys L seen os := by
  intro os
  induction os with
  | nil => intro seen _; simp [matchedKeys]
  | cons o os ih =>
    intro seen hX
    have hX2 : ∀ x ∈ X, matchedByAny os x = false := by
      intro x hx
      have := hX x hx
      simp only [matchedByAny, List.any_cons, Bool.or_eq_false_iff] at this ⊢
      exact this.2
    have hf : X.filter (fun g => !matchedByAny seen g && matchesOrder g o) = [] := by
      rw [List.filter_eq_nil_iff]
      intro x hx
      have := hX x hx
      simp only [matchedByAny, List.any_cons, Bool.or_eq_false_iff] at this
      simp [this.1]
    simp only [matchedKeys, List.filter_append, hf, List.append_nil, ih _ hX2]

/-- Keys already matched by the earlier order keys contribute nothing. -/
theorem matchedKeys_seen_append (X L : List GroupBy) :
    ∀ (os seen : List OrderBy), (∀ x ∈ X, matchedByAny seen x = true) →
      matchedKeys (X ++ L) seen os = matchedKeys L seen os := by
  intro os
  induction os with
  | nil => intro seen _; simp [matchedKeys]
  | cons o os ih =>
    intro seen hX
    have hX2 : ∀ x ∈ X, matchedByAny (seen ++ [o]) x = true := by
      intro x hx
      rw [matchedByAny_append_singleton, hX x hx]; rfl
    have hf : X.filter (fun g => !matchedByAny seen g && matchesOrder g o) = [] := by
      rw [List.filter_eq_nil_iff]
      intro x hx
      simp [hX x hx]
    simp only [matchedKeys, List.filter_append, hf, List.nil_append, ih _ hX2]

/-- Matching the matched keys again, with the same order keys, returns them unchanged. -/
theorem matchedKeys_idem (G : List GroupBy) :
    ∀ (os seen : List OrderBy),
      matchedKeys (matchedKeys G seen os) seen os = matchedKeys G seen os := by
  intro os
  induction os with
  | nil => intro seen; simp [matchedKeys]
  | cons o os ih =>
    intro seen
    have hB : ∀ x ∈ G.filter (fun g => !matchedByAny seen g && matchesOrder g o),
        matchedByAny (seen ++ [o]) x = true := by
      intro x hx
      simp only [List.mem_filter, Bool.and_eq_true] at hx
      rw [matchedByAny_append_singleton, hx.2.2]; simp
    have hM : (matchedKeys G (seen ++ [o]) os).filter
        (fun g => !matchedByAny seen g && matchesOrder g o) = [] := by
      rw [List.filter_eq_nil_iff]
      intro x hx
      have := (mem_matchedKeys G os _ x hx).2.1
      rw [matchedByAny_append_singleton] at this
      simp only [Bool.or_eq_false_iff] at this
      simp [this.2]
    conv_lhs => rw [matchedKeys]
    rw [matchedKeys, List.filter_append, List.filter_filter, hM, List.append_nil,
      matchedKeys_seen_append _ _ _ _ hB, ih]
    simp


theorem distinctSortKeys_cons (u : GroupBy) (U : List GroupBy) (h : DistinctSortKeys (u :: U)) :
    (∀ x ∈ U, matchesOrder x u.AsOrderBy = false) ∧ DistinctSortKeys U := by
  unfold DistinctSortKeys at h
  rw [List.pairwise_cons] at h
  refine ⟨?_, h.2⟩
  intro x hx
  have h1 := h.1 x hx
  cases hm : matchesOrder x u.AsOrderBy
  · rfl
  · rw [matchesOrder_iff] at hm
    have : sqlparser.EqualsExpr u.WeightStrExpr x.WeightStrExpr = true := by
      rw [sqlparser.EqualsExpr_iff]; exact hm.symm
    rw [this] at h1; exact absurd h1 (by simp)

theorem distinctSortKeys_perm {l1 l2 : List GroupBy} (hp : l1.Perm l2)
    (h : DistinctSortKeys l2) : DistinctSortKeys l1 := by
  unfold DistinctSortKeys at *
  refine (hp.pairwise_iff ?_).mpr h
  intro a b hab
  cases hba : sqlparser.EqualsExpr b.WeightStrExpr a.WeightStrExpr
  · rfl
  · rw [sqlparser.EqualsExpr_iff] at hba
    have : sqlparser.EqualsExpr a.WeightStrExpr b.WeightStrExpr = true := by
      rw [sqlparser.EqualsExpr_iff]; exact hba.symm
    rw [this] at hab; exact absurd hab (by simp)

theorem distinctSortKeys_sublist {l1 l2 : List GroupBy} (hs : l1.Sublist l2)
    (h : DistinctSortKeys l2) : DistinctSortKeys l1 :=
  List.Pairwise.sublist hs h

/-- Keys with distinct sort keys, none matched before, are matched one by one, in
order, by their own order keys. -/
theorem matchedKeys_own_keys :
    ∀ (U : List GroupBy) (seen : List OrderBy), (∀ g ∈ U, matchedByAny seen g = false) →
      DistinctSortKeys U → matchedKeys U seen (U.map GroupBy.AsOrderBy) = U := by
  intro U
  induction U with
  | nil => intro seen _ _; rfl
  | cons u U ih =>
    intro seen hseen hd
    obtain ⟨hne, hd2⟩ := distinctSortKeys_cons u U hd
    have hu : matchedByAny seen u = false := hseen u (List.mem_cons_self _ _)
    have hf : (u :: U).filter (fun g => !matchedByAny seen g && matchesOrder g u.AsOrderBy)
        = [u] := by
      rw [List.filter_cons_of_pos (by simp [hu, matchesOrder_asOrderBy_self])]
      congr 1
      rw [List.filter_eq_nil_iff]
      intro x hx
      simp [hne x hx]
    have hseen2 : ∀ g ∈ U, matchedByAny (seen ++ [u.AsOrderBy]) g = false := by
      intro g hg
      rw [matchedByAny_append_singleton, hseen g (List.mem_cons_of_mem _ hg), hne g hg]
      rfl
    have hu2 : ∀ x ∈ [u], matchedByAny (seen ++ [u.AsOrderBy]) x = true := by
      intro x hx
      rw [List.mem_singleton] at hx
      rw [hx, matchedByAny_append_singleton, matchesOrder_asOrderBy_self]; simp
    have h3 := matchedKeys_seen_append [u] U (U.map GroupBy.AsOrderBy) _ hu2
    simp only [List.singleton_append] at h3
    simp only [List.map_cons, matchedKeys]
    rw [hf, h3, ih _ hseen2 hd2]
    rfl

/-- Every key is matched by its own order key. -/
theorem unmatchedKeys_own_keys (U : List GroupBy) (os : List OrderBy) :
    unmatchedKeys U (os ++ U.map GroupBy.AsOrderBy) = [] := by
  unfold unmatchedKeys
  rw [List.filter_eq_nil_iff]
  intro g hg
  have : matchedByAny (U.map GroupBy.AsOrderBy) g = true := by
    simp only [matchedByAny, List.any_eq_true]
    exact ⟨g.AsOrderBy, List.mem_map_of_mem _ hg, matchesOrder_asOrderBy_self g⟩
  simp [matchedByAny_append, this]

theorem mem_unmatchedKeys (G : List GroupBy) (os : List OrderBy) (g : GroupBy) :
    g ∈ unmatchedKeys G os ↔ g ∈ G ∧ matchedByAny os g = false := by
  simp [unmatchedKeys, List.mem_filter]

/-- After one alignment with a non-empty ORDER BY every grouping key is matched. -/
theorem unmatchedKeys_aligned (G : List GroupBy) (O : List OrderBy) :
    unmatchedKeys (matchedKeys G [] O ++ unmatchedKeys G O)
      (O ++ (unmatchedKeys G O).map GroupBy.AsOrderBy) = [] := by
  unfold unmatchedKeys
  rw [List.filter_eq_nil_iff]
  intro g hg
  rw [List.mem_append] at hg
  rcases hg with hg | hg
  · have := (mem_matchedKeys G O [] g hg).2.2
    simp [matchedByAny_append, this]
  · have : matchedByAny ((G.filter (fun g => !matchedByAny O g)).map GroupBy.AsOrderBy) g
        = true := by
      simp only [matchedByAny, List.any_eq_true]
      exact ⟨g.AsOrderBy, List.mem_map_of_mem _ hg, matchesOrder_asOrderBy_self g⟩
    simp [matchedByAny_append, this]

/-- After one alignment with a non-empty ORDER BY, matching again returns the matched
keys and then regroups the unmatched ones by their own order keys. -/
theorem matchedKeys_aligned (G : List GroupBy) (O : List OrderBy) :
    matchedKeys (matchedKeys G [] O ++ unmatchedKeys G O) []
        (O ++ (unmatchedKeys G O).map GroupBy.AsOrderBy)
      = matchedKeys G [] O ++
          matchedKeys (unmatchedKeys G O) O ((unmatchedKeys G O).map GroupBy.AsOrderBy) := by
  rw [matchedKeys_append_orders, List.nil_append]
  have h1 : ∀ x ∈ unmatchedKeys G O, matchedByAny O x = false :=
    fun x hx => ((mem_unmatchedKeys G O x).mp hx).2
  have h2 : ∀ x ∈ matchedKeys G [] O, matchedByAny O x = true :=
    fun x hx => (mem_matchedKeys G O [] x hx).2.2
  rw [matchedKeys_append_unmatched _ _ _ _ h1, matchedKeys_idem,
    matchedKeys_seen_append _ _ _ _ h2]


theorem CompareRefInt_asymm (a b : Option Int) (h : CompareRefInt a b = true) :
    CompareRefInt b a = false := by
  cases a <;> cases b <;> simp_all [CompareRefInt]
  omega

theorem CompareRefInt_negtrans (a b c : Option Int) (h1 : CompareRefInt b a = false)
    (h2 : CompareRefInt c b = false) : CompareRefInt c a = false := by
  cases a <;> cases b <;> cases c <;> simp_all [CompareRefInt]
  omega

theorem notLess_total (x y : GroupBy) :
    GroupBys.Less y x = false ∨ GroupBys.Less x y = false := by
  cases h : GroupBys.Less y x
  · exact Or.inl rfl
  · exact Or.inr (CompareRefInt_asymm _ _ h)

theorem stableSortByIndex_sorted (l : List GroupBy) :
    (stableSortByIndex l).Pairwise (fun x y => GroupBys.Less y x = false) := by
  haveI : IsTotal GroupBy (fun x y => GroupBys.Less y x = false) := ⟨notLess_total⟩
  haveI : IsTrans GroupBy (fun x y => GroupBys.Less y x = false) :=
    ⟨fun x y z h1 h2 => CompareRefInt_negtrans _ _ _ h1 h2⟩
  exact List.sorted_insertionSort (fun x y => GroupBys.Less y x = false) l

theorem stableSortByIndex_contract : SortContract stableSortByIndex :=
  fun l => ⟨List.perm_insertionSort _ l, stableSortByIndex_sorted l⟩

theorem gapSwap_perm :
    ∀ (xs ys : List GroupBy), ((gapSwap xs ys).1 ++ (gapSwap xs ys).2).Perm (xs ++ ys)
  | [], ys => by simp [gapSwap]
  | x :: xs, [] => by simp [gapSwap]
  | x :: xs, y :: ys => by
    have ih := gapSwap_perm xs ys
    have hmid : ∀ (a b : GroupBy),
        (a :: ((gapSwap xs ys).1 ++ b :: (gapSwap xs ys).2)).Perm (a :: (xs ++ b :: ys)) := by
      intro a b
      refine List.Perm.cons a ?_
      refine List.perm_middle.trans ?_
      exact (List.Perm.cons b ih).trans List.perm_middle.symm
    unfold gapSwap
    by_cases hc : GroupBys.Less y x = true
    · simp only [hc, if_true, List.cons_append]
      refine (hmid y x).trans ?_
      refine (List.Perm.cons y List.perm_middle).trans ?_
      refine (List.Perm.swap x y _).trans ?_
      exact List.Perm.cons x List.perm_middle.symm
    · simp only [hc, if_false, List.cons_append]
      exact hmid x y

theorem shellSort_contract : SortContract shellSort := by
  intro l
  refine ⟨?_, stableSortByIndex_sorted _⟩
  unfold shellSort stableSortByIndex
  refine (List.perm_insertionSort _ _).trans ?_
  refine (gapSwap_perm _ _).trans ?_
  rw [List.take_append_drop]


theorem firstOrderKey_append (P rest : List OrderBy) (g : GroupBy)
    (h : matchedByAny P g = false) :
    firstOrderKey (P ++ rest) g = P.length + firstOrderKey rest g := by
  induction P with
  | nil => simp
  | cons o P ih =>
    simp only [matchedByAny, List.any_cons, Bool.or_eq_false_iff] at h
    have ih2 := ih h.2
    have ho : sqlparser.EqualsExpr g.WeightStrExpr o.WeightStrExpr = false := h.1
    simp only [firstOrderKey, List.cons_append, List.findIdx_cons, ho, cond_false,
      List.length_cons] at ih2 ⊢
    omega

theorem firstOrderKey_head (o : OrderBy) (rest : List OrderBy) (g : GroupBy)
    (h : matchesOrder g o = true) : firstOrderKey (o :: rest) g = 0 := by
  have ho : sqlparser.EqualsExpr g.WeightStrExpr o.WeightStrExpr = true := h
  simp [firstOrderKey, List.findIdx_cons, ho]

/-- The matched keys stand in the order of the first order key that matches them,
and before keys that no order key so far matches. -/
theorem matchedKeys_ordered (G : List GroupBy) (T : List OrderBy) :
    ∀ (os seen : List OrderBy) (V : List GroupBy),
      (∀ v ∈ V, matchedByAny (seen ++ os) v = false) →
      V.Pairwise (fun a b =>
        firstOrderKey (seen ++ os ++ T) a ≤ firstOrderKey (seen ++ os ++ T) b) →
      (matchedKeys G seen os ++ V).Pairwise (fun a b =>
        firstOrderKey (seen ++ os ++ T) a ≤ firstOrderKey (seen ++ os ++ T) b) := by
  intro os
  induction os with
  | nil => intro seen V _ hV; simpa [matchedKeys] using hV
  | cons o os ih =>
    intro seen V hVu hV
    have hass : seen ++ o :: os ++ T = seen ++ [o] ++ os ++ T := by simp
    have hass2 : seen ++ o :: os = seen ++ [o] ++ os := by simp
    rw [hass] at hV ⊢
    rw [hass2] at hVu
    have hrec := ih (seen ++ [o]) V hVu hV
    have hB : ∀ b ∈ G.filter (fun g => !matchedByAny seen g && matchesOrder g o),
        firstOrderKey (seen ++ [o] ++ os ++ T) b = seen.length := by
      intro b hb
      simp only [List.mem_filter, Bool.and_eq_true, Bool.not_eq_true'] at hb
      have := firstOrderKey_append seen ([o] ++ os ++ T) b hb.2.1
      simp only [List.append_assoc] at this ⊢
      rw [this, List.singleton_append, firstOrderKey_head o _ b hb.2.2]; rfl
    have hX : ∀ x ∈ matchedKeys G (seen ++ [o]) os ++ V,
        seen.length ≤ firstOrderKey (seen ++ [o] ++ os ++ T) x := by
      intro x hx
      have hxs : matchedByAny seen x = false := by
        rw [List.mem_append] at hx
        rcases hx with hx | hx
        · have := (mem_matchedKeys G os _ x hx).2.1
          rw [matchedByAny_append] at this
          simp only [Bool.or_eq_false_iff] at this
          exact this.1
        · have := hVu x hx
          rw [matchedByAny_append, matchedByAny_append] at this
          simp only [Bool.or_eq_false_iff] at this
          exact this.1.1
      have := firstOrderKey_append seen ([o] ++ os ++ T) x hxs
      simp only [List.append_assoc] at this ⊢
      omega
    generalize seen ++ [o] ++ os ++ T = full at hrec hB hX ⊢
    rw [matchedKeys, List.append_assoc, List.pairwise_append]
    refine ⟨?_, hrec, ?_⟩
    · rw [List.pairwise_iff_forall_sublist]
      intro a b hab
      have ha := hB a (hab.subset (by simp))
      have hb := hB b (hab.subset (by simp))
      omega
    · intro a ha b hb
      have h1 := hB a ha
      have h2 := hX b hb
      omega

/-- Keys with distinct sort keys stand in the order of their own order keys. -/
theorem own_keys_ordered :
    ∀ (U : List GroupBy) (P : List OrderBy), (∀ g ∈ U, matchedByAny P g = false) →
      DistinctSortKeys U →
      U.Pairwise (fun a b =>
        firstOrderKey (P ++ U.map GroupBy.AsOrderBy) a
          ≤ firstOrderKey (P ++ U.map GroupBy.AsOrderBy) b) := by
  intro U
  induction U with
  | nil => intro P _ _; exact List.Pairwise.nil
  | cons u U ih =>
    intro P hP hd
    obtain ⟨hne, hd2⟩ := distinctSortKeys_cons u U hd
    have hP2 : ∀ g ∈ U, matchedByAny (P ++ [u.AsOrderBy]) g = false := by
      intro g hg
      rw [matchedByAny_append_singleton, hP g (List.mem_cons_of_mem _ hg), hne g hg]
      rfl
    have hrec := ih (P ++ [u.AsOrderBy]) hP2 hd2
    have hass : P ++ List.map GroupBy.AsOrderBy (u :: U)
        = P ++ [u.AsOrderBy] ++ List.map GroupBy.AsOrderBy U := by simp
    rw [hass, List.pairwise_cons]
    refine ⟨?_, hrec⟩
    intro x hx
    have h1 := firstOrderKey_append P ([u.AsOrderBy] ++ U.map GroupBy.AsOrderBy) u
      (hP u (List.mem_cons_self _ _))
    rw [List.singleton_append, firstOrderKey_head _ _ u (matchesOrder_asOrderBy_self u)] at h1
    have h2 := firstOrderKey_append (P ++ [u.AsOrderBy]) (U.map GroupBy.AsOrderBy) x (hP2 x hx)
    simp only [List.append_assoc, List.singleton_append, List.length_append,
      List.length_singleton] at h1 h2 ⊢
    omega

end abstract

/-! ## Construction of the projection -/

namespace abstract

/-- What a successful `addSelectExpressions` loop leaves behind. -/
theorem addSelectExpressionsLoop_ok :
    ∀ (items : List sqlparser.SelectExpr) (qp qp2 : QueryProjection),
      addSelectExpressionsLoop items qp = .ok qp2 →
      qp2.SelectExprs = qp.SelectExprs ++ items.map classify ∧
      qp2.HasAggr = (qp.HasAggr || items.any (fun i => i.containsAggregation)) ∧
      qp2.HasStar = (qp.HasStar || items.any (fun i =>
        match i with
        | .StarExpr _ => true
        | _ => false)) ∧
      qp2.Distinct = qp.Distinct ∧ qp2.groupByExprs = qp.groupByExprs ∧
      qp2.OrderExprs = qp.OrderExprs ∧ qp2.CanPushDownSorting = qp.CanPushDownSorting ∧
      qp2.ProjectionError = qp.ProjectionError := by
  intro items
  induction items with
  | nil =>
    intro qp qp2 h
    simp only [addSelectExpressionsLoop, Except.ok.injEq] at h
    subst h
    simp
  | cons item items ih =>
    intro qp qp2 h
    cases item with
    | StarExpr t =>
      simp only [addSelectExpressionsLoop] at h
      obtain ⟨h1, h2, h3, h4, h5, h6, h7, h8⟩ := ih _ _ h
      refine ⟨?_, ?_, ?_, h4, h5, h6, h7, h8⟩
      · rw [h1]; simp [classify, sqlparser.SelectExpr.containsAggregation]
      · rw [h2]; simp [sqlparser.SelectExpr.containsAggregation]
      · rw [h3]; simp
    | AliasedExpr e a =>
      simp only [addSelectExpressionsLoop] at h
      cases hc : checkForInvalidAggregations (e, a) with
      | some err => rw [hc] at h; cases h
      | none =>
        rw [hc] at h
        by_cases hagg : sqlparser.ContainsAggregation (some e) = true
        · rw [if_pos hagg] at h
          have hagg2 : e.containsAggregation = true := hagg
          obtain ⟨h1, h2, h3, h4, h5, h6, h7, h8⟩ := ih _ _ h
          refine ⟨?_, ?_, ?_, h4, h5, h6, h7, h8⟩
          · rw [h1]; simp [classify, sqlparser.SelectExpr.containsAggregation, hagg2]
          · rw [h2]; simp [sqlparser.SelectExpr.containsAggregation, hagg2]
          · rw [h3]; simp
        · rw [if_neg hagg] at h
          have hagg2 : e.containsAggregation = false := by
            simpa [sqlparser.ContainsAggregation] using hagg
          obtain ⟨h1, h2, h3, h4, h5, h6, h7, h8⟩ := ih _ _ h
          refine ⟨?_, ?_, ?_, h4, h5, h6, h7, h8⟩
          · rw [h1]; simp [classify, sqlparser.SelectExpr.containsAggregation, hagg2]
          · rw [h2]; simp [sqlparser.SelectExpr.containsAggregation, hagg2]
          · rw [h3]; simp
    | Nextval e =>
      simp only [addSelectExpressionsLoop] at h
      cases h

end abstract

namespace abstract


/-- `GetSimplifiedExpr` reads only the select list of the projection. -/
theorem GetSimplifiedExpr_congr (qp qp2 : QueryProjection) (e : sqlparser.Expr)
    (semTable : semantics.SemTable) (h : qp.SelectExprs = qp2.SelectExprs) :
    qp.GetSimplifiedExpr e semTable = qp2.GetSimplifiedExpr e semTable := by
  unfold QueryProjection.GetSimplifiedExpr
  rw [h]

/-- `FindSelectExprIndexForExpr` reads only the select list of the projection. -/
theorem FindSelectExprIndexForExpr_congr (qp qp2 : QueryProjection) (e : sqlparser.Expr)
    (h : qp.SelectExprs = qp2.SelectExprs) :
    qp.FindSelectExprIndexForExpr e = qp2.FindSelectExprIndexForExpr e := by
  unfold QueryProjection.FindSelectExprIndexForExpr
  rw [h]

/-- A successful GROUP BY loop only appends grouping keys, one per GROUP BY item, each
with the sort key that `GetSimplifiedExpr` gives for its item. -/
theorem addGroupByLoop_ok (semTable : semantics.SemTable) :
    ∀ (groups : List sqlparser.Expr) (qp qp2 : QueryProjection),
      addGroupByLoop semTable groups qp = .ok qp2 →
      ∃ built : List GroupBy,
        qp2 = { qp with groupByExprs := qp.groupByExprs ++ built } ∧
        built.length = groups.length ∧
        List.Forall₂ (fun group g =>
          qp.GetSimplifiedExpr group semTable = .ok (g.Inner, g.WeightStrExpr) ∧
          checkForInvalidGroupingExpressions g.WeightStrExpr = none ∧
          (g.InnerIndex, g.aliasedExpr) = qp.FindSelectExprIndexForExpr group) groups built := by
  intro groups
  induction groups with
  | nil =>
    intro qp qp2 h
    simp only [addGroupByLoop, Except.ok.injEq] at h
    subst h
    exact ⟨[], by simp, rfl, List.Forall₂.nil⟩
  | cons group groups ih =>
    intro qp qp2 h
    unfold addGroupByLoop at h
    cases hs : qp.GetSimplifiedExpr group semTable with
    | error err => rw [hs] at h; cases h
    | ok r =>
      obtain ⟨expr, weightStrExpr⟩ := r
      rw [hs] at h
      cases hc : checkForInvalidGroupingExpressions weightStrExpr with
      | some err => simp only [hc] at h; cases h
      | none =>
        simp only [hc] at h
        obtain ⟨built, hq, hl, hf⟩ := ih _ _ h
        refine ⟨{ Inner := expr, WeightStrExpr := weightStrExpr,
                  InnerIndex := (qp.FindSelectExprIndexForExpr group).1,
                  aliasedExpr := (qp.FindSelectExprIndexForExpr group).2 } :: built,
          ?_, by simp [hl], List.Forall₂.cons ⟨hs, hc, rfl⟩ ?_⟩
        · rw [hq]; simp
        · refine hf.imp ?_
          intro a b hab
          refine ⟨?_, hab.2.1, ?_⟩
          · rw [← hab.1]; exact GetSimplifiedExpr_congr _ _ _ _ rfl
          · rw [hab.2.2]; exact FindSelectExprIndexForExpr_congr _ _ _ rfl

/-- On success `GetSimplifiedExpr` returns the expression it was given, and for the
NULL literal the NULL literal as sort key. -/
theorem GetSimplifiedExpr_ok (qp : QueryProjection) (e : sqlparser.Expr)
    (semTable : semantics.SemTable) (expr : sqlparser.Expr) (w : Option sqlparser.Expr)
    (h : qp.GetSimplifiedExpr e semTable = .ok (expr, w)) :
    expr = e ∧ (sqlparser.IsNull (some e) = true → sqlparser.IsNull w = true) := by
  cases e with
  | ColName name qualifier =>
    refine ⟨?_, fun hn => by simp [sqlparser.IsNull] at hn⟩
    simp only [QueryProjection.GetSimplifiedExpr, sqlparser.IsNull, Bool.false_eq_true,
      if_false] at h
    have halias : ∀ (l : List SelectExpr),
        (simplifyByAlias (.ColName name qualifier) name l).1 = .ColName name qualifier := by
      intro l
      induction l with
      | nil => rfl
      | cons s l ih =>
        unfold simplifyByAlias
        split
        · split
          · rfl
          · exact ih
        · exact ih
    repeat' (split at h)
    all_goals first
      | (cases h; done)
      | (simp only [Except.ok.injEq, Prod.mk.injEq] at h; exact h.1.symm)
      | (simp only [Except.ok.injEq] at h; rw [← halias qp.SelectExprs, h])
  | NullVal =>
    simp only [QueryProjection.GetSimplifiedExpr, Except.ok.injEq, Prod.mk.injEq] at h
    exact ⟨h.1.symm, fun _ => by rw [← h.2]; rfl⟩
  | Literal v =>
    simp only [QueryProjection.GetSimplifiedExpr, Except.ok.injEq, Prod.mk.injEq] at h
    exact ⟨h.1.symm, fun hn => by simp [sqlparser.IsNull] at hn⟩
  | Argument v =>
    simp only [QueryProjection.GetSimplifiedExpr, Except.ok.injEq, Prod.mk.injEq] at h
    exact ⟨h.1.symm, fun hn => by simp [sqlparser.IsNull] at hn⟩
  | BinaryExpr o l r =>
    simp only [QueryProjection.GetSimplifiedExpr, Except.ok.injEq, Prod.mk.injEq] at h
    exact ⟨h.1.symm, fun hn => by simp [sqlparser.IsNull] at hn⟩
  | FuncExpr n d es =>
    simp only [QueryProjection.GetSimplifiedExpr, Except.ok.injEq, Prod.mk.injEq] at h
    exact ⟨h.1.symm, fun hn => by simp [sqlparser.IsNull] at hn⟩
  | GroupConcatExpr d es sep =>
    simp only [QueryProjection.GetSimplifiedExpr, Except.ok.injEq, Prod.mk.injEq] at h
    exact ⟨h.1.symm, fun hn => by simp [sqlparser.IsNull] at hn⟩
  | Subquery sq =>
    simp only [QueryProjection.GetSimplifiedExpr, Except.ok.injEq, Prod.mk.injEq] at h
    exact ⟨h.1.symm, fun hn => by simp [sqlparser.IsNull] at hn⟩

/-- A successful ORDER BY loop only appends order keys, each made from an ORDER BY item
whose sort key is not NULL, with the direction of the item. -/
theorem addOrderByLoop_ok (semTable : semantics.SemTable) :
    ∀ (orders : List sqlparser.Order) (qp qp2 : QueryProjection) (c c2 : Bool),
      addOrderByLoop semTable orders qp c = .ok (qp2, c2) →
      ∃ built : List OrderBy, qp2 = { qp with OrderExprs := qp.OrderExprs ++ built } ∧
        ∀ o ∈ built, sqlparser.IsNull o.WeightStrExpr = false ∧
          sqlparser.IsNull (some o.Inner.Expr) = false ∧
          ∃ order ∈ orders, o.Inner.Direction = order.Direction ∧
            qp.GetSimplifiedExpr order.Expr semTable = .ok (o.Inner.Expr, o.WeightStrExpr) := by
  intro orders
  induction orders with
  | nil =>
    intro qp qp2 c c2 h
    simp only [addOrderByLoop, Except.ok.injEq, Prod.mk.injEq] at h
    obtain ⟨h, _⟩ := h
    subst h
    exact ⟨[], by simp, by simp⟩
  | cons order orders ih =>
    intro qp qp2 c c2 h
    unfold addOrderByLoop at h
    cases hs : qp.GetSimplifiedExpr order.Expr semTable with
    | error err => rw [hs] at h; cases h
    | ok r =>
      obtain ⟨expr, weightStrExpr⟩ := r
      rw [hs] at h
      by_cases hn : sqlparser.IsNull weightStrExpr = true
      · simp only [hn, if_true] at h
        obtain ⟨built, hq, hb⟩ := ih _ _ _ _ h
        refine ⟨built, hq, ?_⟩
        intro o ho
        obtain ⟨h1, h2, ord, hord, h3, h4⟩ := hb o ho
        exact ⟨h1, h2, ord, List.mem_cons_of_mem _ hord, h3, h4⟩
      · simp only [hn, Bool.false_eq_true, if_false] at h
        obtain ⟨built, hq, hb⟩ := ih _ _ _ _ h
        refine ⟨{ Inner := { Expr := expr, Direction := order.Direction },
                  WeightStrExpr := weightStrExpr } :: built, (by rw [hq]; simp), ?_⟩
        intro o ho
        rw [List.mem_cons] at ho
        rcases ho with ho | ho
        · subst ho
          have hn2 : sqlparser.IsNull weightStrExpr = false := by simpa using hn
          obtain ⟨he, hnull⟩ := GetSimplifiedExpr_ok _ _ _ _ _ hs
          refine ⟨hn2, ?_, order, List.mem_cons_self _ _, rfl, hs⟩
          cases hx : sqlparser.IsNull (some expr)
          · rfl
          · rw [he] at hx
            rw [hnull hx] at hn2; cases hn2
        · obtain ⟨h1, h2, ord, hord, h3, h4⟩ := hb o ho
          refine ⟨h1, h2, ord, List.mem_cons_of_mem _ hord, h3, ?_⟩
          rw [← h4]; exact GetSimplifiedExpr_congr _ _ _ _ rfl

/-- A successful `addOrderBy` changes only the order keys and `CanPushDownSorting`. -/
theorem addOrderBy_ok (semTable : semantics.SemTable) (orders : List sqlparser.Order)
    (qp qp2 : QueryProjection) (h : qp.addOrderBy orders semTable = .ok qp2) :
    qp2.SelectExprs = qp.SelectExprs ∧ qp2.HasAggr = qp.HasAggr ∧
    qp2.HasStar = qp.HasStar ∧ qp2.Distinct = qp.Distinct ∧
    qp2.groupByExprs = qp.groupByExprs ∧ qp2.ProjectionError = qp.ProjectionError := by
  unfold QueryProjection.addOrderBy at h
  cases hl : addOrderByLoop semTable orders qp true with
  | error err => rw [hl] at h; cases h
  | ok r =>
    obtain ⟨qp3, c⟩ := r
    rw [hl] at h
    simp only [Except.ok.injEq] at h
    obtain ⟨built, hq, _⟩ := addOrderByLoop_ok semTable orders qp qp3 true c hl
    subst h
    subst hq
    simp

theorem selectExprGroupByOk_aliased (e : sqlparser.Expr) (a : String) (b : Bool) :
    ∀ (G : List GroupBy),
      selectExprGroupByOk { Col := .AliasedExpr e a, Aggr := b } G
        = .ok (G.any (fun g => sqlparser.EqualsExpr g.WeightStrExpr (some e))) := by
  intro G
  induction G with
  | nil => rfl
  | cons g G ih =>
    unfold selectExprGroupByOk
    simp only [SelectExpr.GetExpr, List.any_cons]
    by_cases hc : sqlparser.EqualsExpr g.WeightStrExpr (some e) = true
    · simp [hc]
    · simp only [hc, Bool.false_eq_true, if_false, ih]
      simp [hc]

theorem orderExprGroupByOk_eq (order : OrderBy) :
    ∀ (G : List GroupBy), orderExprGroupByOk order G = orderInGrouping G order := by
  intro G
  induction G with
  | nil => rfl
  | cons g G ih =>
    unfold orderExprGroupByOk orderInGrouping
    simp only [List.any_cons]
    by_cases hc : sqlparser.EqualsExpr g.WeightStrExpr order.WeightStrExpr = true
    · simp [hc]
    · simp only [hc, Bool.false_eq_true, if_false, ih]
      simp [hc, orderInGrouping]

/-- The second loop of the validator reports the first order key that is neither
passed over nor in the grouping. -/
theorem orderNotMatchingGroupBy_eq (G : List GroupBy) :
    ∀ (os : List OrderBy),
      orderNotMatchingGroupBy G os
        = (os.find? (fun o => !orderSkipped o && !orderInGrouping G o)).map
            (fun o => sqlparser.SelectExpr.AliasedExpr o.Inner.Expr "") := by
  intro os
  induction os with
  | nil => rfl
  | cons o os ih =>
    unfold orderNotMatchingGroupBy
    rw [orderExprGroupByOk_eq, List.find?_cons]
    by_cases hs : (sqlparser.IsNull (some o.Inner.Expr) ||
        sqlparser.IsAggregation o.WeightStrExpr) = true
    · simp only [hs, if_true, ih]
      simp [orderSkipped, hs]
    · simp only [hs, Bool.false_eq_true, if_false]
      have hs2 : orderSkipped o = false := by simpa [orderSkipped] using hs
      by_cases hg : orderInGrouping G o = true
      · simp [hg, ih, hs2]
      · simp [hg, hs2]

/-- The validator reports the first select item that neither contains an aggregation
nor is in the grouping, and otherwise the first such order key. -/
theorem selectNotMatchingGroupBy_eq (G : List GroupBy) (os : List OrderBy) :
    ∀ (items : List sqlparser.SelectExpr),
      selectNotMatchingGroupBy G os (items.map classify)
        = match items.find? (fun i => !i.containsAggregation && !inGrouping G i) with
          | some item => some item
          | none => orderNotMatchingGroupBy G os := by
  intro items
  induction items with
  | nil => rfl
  | cons item items ih =>
    rw [List.map_cons, selectNotMatchingGroupBy, List.find?_cons]
    by_cases ha : item.containsAggregation = true
    · simp only [classify, ha, if_true, Bool.not_true, Bool.false_and]
      exact ih
    · have ha2 : item.containsAggregation = false := by simpa using ha
      simp only [classify, ha2, Bool.false_eq_true, if_false, Bool.not_false, Bool.true_and]
      cases item with
      | StarExpr t =>
        cases G with
        | nil => simp [selectExprGroupByOk, inGrouping]
        | cons g G => simp [selectExprGroupByOk, SelectExpr.GetExpr, inGrouping]
      | Nextval e =>
        cases G with
        | nil => simp [selectExprGroupByOk, inGrouping]
        | cons g G => simp [selectExprGroupByOk, SelectExpr.GetExpr, inGrouping]
      | AliasedExpr e a =>
        rw [selectExprGroupByOk_aliased]
        by_cases hg : (G.any (fun g => sqlparser.EqualsExpr g.WeightStrExpr (some e))) = true
        · simp only [hg, inGrouping, Bool.not_true, Bool.false_eq_true, if_false]
          exact ih
        · have hg2 : (G.any (fun g => sqlparser.EqualsExpr g.WeightStrExpr (some e))) = false := by
            simpa using hg
          simp [hg2, inGrouping]

end abstract

namespace abstract


/-- `CreateQPFromSelect` once its three building stages have succeeded. -/
theorem CreateQPFromSelect_of_stages (sel : sqlparser.Select) (semTable : semantics.SemTable)
    (qp1 qp2 qp3 : QueryProjection)
    (hsel : (initialProjection sel).addSelectExpressions sel = .ok qp1)
    (hgrp : addGroupByLoop semTable sel.GroupBy qp1 = .ok qp2)
    (hord : qp2.addOrderBy sel.OrderBy semTable = .ok qp3) :
    CreateQPFromSelect sel semTable =
      match validateGrouping qp3 with
      | .error err => .error err
      | .ok qp4 =>
        if qp4.Distinct && !qp4.HasAggr then .ok { qp4 with groupByExprs := [] } else .ok qp4 := by
  unfold CreateQPFromSelect
  unfold initialProjection at hsel
  rw [hsel]
  simp only [hgrp, hord]

/-- The stages behind a successful `CreateQPFromSelect`. -/
theorem CreateQPFromSelect_stages (sel : sqlparser.Select) (semTable : semantics.SemTable)
    (qp : QueryProjection) (h : CreateQPFromSelect sel semTable = .ok qp) :
    ∃ qp1 qp2 qp3 qp4,
      (initialProjection sel).addSelectExpressions sel = .ok qp1 ∧
      addGroupByLoop semTable sel.GroupBy qp1 = .ok qp2 ∧
      qp2.addOrderBy sel.OrderBy semTable = .ok qp3 ∧
      validateGrouping qp3 = .ok qp4 ∧
      (qp = qp4 ∨ qp = { qp4 with groupByExprs := [] }) := by
  unfold CreateQPFromSelect at h
  cases h1 : ({ QueryProjection.zero with Distinct := sel.Distinct } :
      QueryProjection).addSelectExpressions sel with
  | error err => rw [h1] at h; cases h
  | ok qp1 =>
    rw [h1] at h
    cases h2 : addGroupByLoop semTable sel.GroupBy qp1 with
    | error err => simp only [h2] at h; cases h
    | ok qp2 =>
      simp only [h2] at h
      cases h3 : qp2.addOrderBy sel.OrderBy semTable with
      | error err => simp only [h3] at h; cases h
      | ok qp3 =>
        simp only [h3] at h
        cases h4 : validateGrouping qp3 with
        | error err => simp only [h4] at h; cases h
        | ok qp4 =>
          simp only [h4] at h
          refine ⟨qp1, qp2, qp3, qp4, h1, h2, h3, h4, ?_⟩
          split at h
          · simp only [Except.ok.injEq] at h; exact Or.inr h.symm
          · simp only [Except.ok.injEq] at h; exact Or.inl h.symm

/-- The projection after the three building stages. -/
theorem stages_facts (sel : sqlparser.Select) (semTable : semantics.SemTable)
    (qp1 qp2 qp3 : QueryProjection)
    (hsel : (initialProjection sel).addSelectExpressions sel = .ok qp1)
    (hgrp : addGroupByLoop semTable sel.GroupBy qp1 = .ok qp2)
    (hord : qp2.addOrderBy sel.OrderBy semTable = .ok qp3) :
    qp1.SelectExprs = sel.SelectExprs.map classify ∧
    qp3.SelectExprs = sel.SelectExprs.map classify ∧
    qp3.HasAggr = sel.SelectExprs.any (fun i => i.containsAggregation) ∧
    qp3.Distinct = sel.Distinct ∧
    qp3.ProjectionError = none ∧
    qp3.groupByExprs.length = sel.GroupBy.length ∧
    List.Forall₂ (fun group g =>
      qp1.GetSimplifiedExpr group semTable = .ok (g.Inner, g.WeightStrExpr) ∧
      checkForInvalidGroupingExpressions g.WeightStrExpr = none ∧
      (g.InnerIndex, g.aliasedExpr) = qp1.FindSelectExprIndexForExpr group)
      sel.GroupBy qp3.groupByExprs := by
  obtain ⟨a1, a2, _, a4, a5, _, _, a8⟩ := addSelectExpressionsLoop_ok _ _ _ hsel
  obtain ⟨built, hq, hl, hf⟩ := addGroupByLoop_ok semTable _ _ _ hgrp
  obtain ⟨b1, b2, _, b4, b5, b6⟩ := addOrderBy_ok semTable _ _ _ hord
  have hz : (initialProjection sel).SelectExprs = [] := rfl
  have hz2 : (initialProjection sel).HasAggr = false := rfl
  have hz3 : (initialProjection sel).groupByExprs = [] := rfl
  have hz4 : (initialProjection sel).ProjectionError = none := rfl
  have hz5 : (initialProjection sel).Distinct = sel.Distinct := rfl
  rw [hz, List.nil_append] at a1
  rw [hz2, Bool.false_or] at a2
  have hg : qp3.groupByExprs = built := by
    rw [b5, hq]; simp [a5, hz3]
  refine ⟨a1, ?_, ?_, ?_, ?_, ?_, ?_⟩
  · rw [b1, hq]; exact a1
  · rw [b2, hq]; exact a2
  · rw [b4, hq]; simp [a4, hz5]
  · rw [b6, hq]; simp [a8, hz4]
  · rw [hg]; exact hl
  · rw [hg]; exact hf

end abstract

/-! ## Alignment of GROUP BY and ORDER BY -/

namespace abstract

/-- Under the contract of `sort.Sort`, grouping keys that `CompareRefInt` orders one
way or the other can only be sorted in one way. -/
theorem sort_unique (sortSort : List GroupBy → List GroupBy) (hS : SortContract sortSort)
    (l : List GroupBy)
    (hc : l.Pairwise (fun x y => GroupBys.Less x y = true ∨ GroupBys.Less y x = true)) :
    sortSort l = stableSortByIndex l := by
  have hP := (hS l).1
  have hQ := (stableSortByIndex_contract l).1
  refine List.Perm.eq_of_sorted ?_ (hS l).2 (stableSortByIndex_contract l).2 (hP.trans hQ.symm)
  intro a b ha hb hab hba
  by_contra hne
  have hsym : Symmetric (fun x y : GroupBy => GroupBys.Less x y = true ∨ GroupBys.Less y x = true) :=
    fun _ _ h => h.symm
  have := List.Pairwise.forall hsym hc (hP.subset ha) (hQ.subset hb) hne
  rcases this with h | h
  · rw [h] at hba; exact absurd hba (by simp)
  · rw [h] at hab; exact absurd hab (by simp)

/-- C1 (as amended): on a projection in which no two grouping keys have structurally
equal sort-key expressions, `AlignGroupByAndOrderBy` is idempotent: running it twice
gives the same projection, so the same grouping sequence and the same ORDER BY
sequence, as running it once. -/
theorem AlignGroupByAndOrderBy_idempotent_of_distinct
    (sortSort : List GroupBy → List GroupBy) (qp : QueryProjection)
    (hS : SortContract sortSort) (hd : DistinctSortKeys qp.groupByExprs) :
    (qp.AlignGroupByAndOrderBy sortSort).AlignGroupByAndOrderBy sortSort
      = qp.AlignGroupByAndOrderBy sortSort := by
  by_cases hO : qp.OrderExprs = []
  · rw [align_of_empty sortSort qp hO]
    by_cases hN : sortSort qp.groupByExprs = []
    · rw [align_of_empty _ _ (by simp [hN])]
      have h0 : sortSort [] = [] := List.Perm.eq_nil (hS []).1
      simp [hN, h0]
    · rw [align_of_nonempty _ _ (by simpa using hN)]
      have hdS : DistinctSortKeys (sortSort qp.groupByExprs) :=
        distinctSortKeys_perm (hS _).1 hd
      have h1 := unmatchedKeys_own_keys (sortSort qp.groupByExprs) []
      have h2 := matchedKeys_own_keys (sortSort qp.groupByExprs) []
        (by intro g _; rfl) hdS
      simp only [List.nil_append] at h1
      simp [h1, h2]
  · rw [align_of_nonempty sortSort qp hO]
    rw [align_of_nonempty _ _ (by simp [hO])]
    have hU : DistinctSortKeys (unmatchedKeys qp.groupByExprs qp.OrderExprs) :=
      distinctSortKeys_sublist (List.filter_sublist _) hd
    have h1 := unmatchedKeys_aligned qp.groupByExprs qp.OrderExprs
    have h2 := matchedKeys_aligned qp.groupByExprs qp.OrderExprs
    have h3 := matchedKeys_own_keys (unmatchedKeys qp.groupByExprs qp.OrderExprs)
      qp.OrderExprs (fun x hx => ((mem_unmatchedKeys _ _ x).mp hx).2) hU
    simp [h1, h2, h3]

/-- Witness of C1: grouping `[b, a]` with `ORDER BY a asc` has distinct sort keys, and
a second alignment leaves grouping `[a, b]`. -/
theorem AlignGroupByAndOrderBy_idempotent_witness :
    SortContract stableSortByIndex ∧ DistinctSortKeys groupBAOrderA.groupByExprs ∧
      ((groupBAOrderA.AlignGroupByAndOrderBy stableSortByIndex).AlignGroupByAndOrderBy
          stableSortByIndex).groupByExprs = [columnKey "a" none, columnKey "b" none] :=
  ⟨stableSortByIndex_contract, by unfold DistinctSortKeys; decide,
    (congrArg QueryProjection.groupByExprs
      (AlignGroupByAndOrderBy_idempotent_of_distinct stableSortByIndex groupBAOrderA
        stableSortByIndex_contract (by unfold DistinctSortKeys; decide))).trans (by decide)⟩

/-- Counterexample to C1 as stated: for
`select c, a, b, count(*) from t group by c, a, b, a order by c` the first alignment
leaves the grouping `[c, a, b, a]` and the second one changes it to `[c, a, a, b]`. -/
theorem AlignGroupByAndOrderBy_not_idempotent :
    CreateQPFromSelect repeatedKeySelect plainSemTable = .ok repeatedKeyProjection ∧
    (repeatedKeyProjection.AlignGroupByAndOrderBy stableSortByIndex).groupByExprs
      = [selectedKey "c" 0, selectedKey "a" 1, selectedKey "b" 2, selectedKey "a" 1] ∧
    ((repeatedKeyProjection.AlignGroupByAndOrderBy stableSortByIndex).AlignGroupByAndOrderBy
        stableSortByIndex).groupByExprs
      = [selectedKey "c" 0, selectedKey "a" 1, selectedKey "a" 1, selectedKey "b" 2] ∧
    ((repeatedKeyProjection.AlignGroupByAndOrderBy stableSortByIndex).AlignGroupByAndOrderBy
        stableSortByIndex).groupByExprs
      ≠ (repeatedKeyProjection.AlignGroupByAndOrderBy stableSortByIndex).groupByExprs :=
  ⟨by rfl, by decide, by decide, by decide⟩

/-- C2: `AlignGroupByAndOrderBy` only re-arranges the grouping keys: the grouping
sequence after the call is a permutation of the one before, of the same length and
with every entry occurring as often as before. -/
theorem AlignGroupByAndOrderBy_grouping_perm
    (sortSort : List GroupBy → List GroupBy) (qp : QueryProjection)
    (hS : SortContract sortSort) :
    (qp.AlignGroupByAndOrderBy sortSort).groupByExprs.Perm qp.groupByExprs ∧
    (qp.AlignGroupByAndOrderBy sortSort).groupByExprs.length = qp.groupByExprs.length ∧
    ∀ g, (qp.AlignGroupByAndOrderBy sortSort).groupByExprs.count g
      = qp.groupByExprs.count g := by
  have hperm : (qp.AlignGroupByAndOrderBy sortSort).groupByExprs.Perm qp.groupByExprs := by
    by_cases hO : qp.OrderExprs = []
    · rw [align_of_empty sortSort qp hO]
      exact (hS _).1
    · rw [align_of_nonempty sortSort qp hO]
      exact matchedKeys_perm_all _ _
  exact ⟨hperm, hperm.length_eq, fun g => hperm.count_eq g⟩

/-- Witness of C2: the grouping `[c, a, b, a]`, with its repeated key, keeps its four
entries. -/
theorem AlignGroupByAndOrderBy_grouping_perm_witness :
    SortContract stableSortByIndex ∧
      (repeatedKeyProjection.AlignGroupByAndOrderBy stableSortByIndex).groupByExprs.length = 4 :=
  ⟨stableSortByIndex_contract,
    (AlignGroupByAndOrderBy_grouping_perm stableSortByIndex repeatedKeyProjection
      stableSortByIndex_contract).2.1.trans (by decide)⟩

/-- C3: with a non-empty ORDER BY, after `AlignGroupByAndOrderBy` the ORDER BY is the
original one followed by one ascending key, built by `AsOrderBy`, for each grouping
key whose sort-key expression is structurally equal to that of no order key, in
original grouping order; the same keys, in the same order, are the tail of the new
grouping, after the matched keys. Grouping `[b, a]` with `ORDER BY a asc` becomes
grouping `[a, b]` with `ORDER BY a asc, b asc`. -/
theorem AlignGroupByAndOrderBy_with_order
    (sortSort : List GroupBy → List GroupBy) (qp : QueryProjection)
    (h : qp.OrderExprs ≠ []) :
    (qp.AlignGroupByAndOrderBy sortSort).OrderExprs
      = qp.OrderExprs ++
          (qp.groupByExprs.filter (fun g => !qp.OrderExprs.any (fun o =>
            sqlparser.EqualsExpr g.WeightStrExpr o.WeightStrExpr))).map GroupBy.AsOrderBy ∧
    (qp.AlignGroupByAndOrderBy sortSort).groupByExprs
      = matchedKeys qp.groupByExprs [] qp.OrderExprs ++
          qp.groupByExprs.filter (fun g => !qp.OrderExprs.any (fun o =>
            sqlparser.EqualsExpr g.WeightStrExpr o.WeightStrExpr)) ∧
    (∀ g ∈ matchedKeys qp.groupByExprs [] qp.OrderExprs, ∃ o ∈ qp.OrderExprs,
      sqlparser.EqualsExpr g.WeightStrExpr o.WeightStrExpr = true) ∧
    (∀ g : GroupBy, g.AsOrderBy.Inner.Direction = sqlparser.OrderDirection.AscOrder ∧
      g.AsOrderBy.Inner.Expr = g.Inner ∧ g.AsOrderBy.WeightStrExpr = g.WeightStrExpr) ∧
    (groupBAOrderA.AlignGroupByAndOrderBy sortSort).groupByExprs
      = [columnKey "a" none, columnKey "b" none] ∧
    (groupBAOrderA.AlignGroupByAndOrderBy sortSort).OrderExprs
      = [columnOrder "a" .AscOrder, columnOrder "b" .AscOrder] := by
  refine ⟨?_, ?_, ?_, fun g => ⟨rfl, rfl, rfl⟩, ?_, ?_⟩
  · rw [align_of_nonempty sortSort qp h]; rfl
  · rw [align_of_nonempty sortSort qp h]; rfl
  · intro g hg
    have := (mem_matchedKeys _ _ _ g hg).2.2
    simp only [matchedByAny, List.any_eq_true] at this
    exact this
  · rw [align_of_nonempty sortSort groupBAOrderA (by decide)]; decide
  · rw [align_of_nonempty sortSort groupBAOrderA (by decide)]; decide

/-- Witness of C3: for `select c, a, b, count(*) from t group by c, a, b, a order by c`
the keys `a, b, a` are appended to `ORDER BY c`. -/
theorem AlignGroupByAndOrderBy_with_order_witness :
    repeatedKeyProjection.OrderExprs ≠ [] ∧
      (repeatedKeyProjection.AlignGroupByAndOrderBy stableSortByIndex).OrderExprs
        = [columnOrder "c" .AscOrder, columnOrder "a" .AscOrder, columnOrder "b" .AscOrder,
            columnOrder "a" .AscOrder] :=
  ⟨by decide,
    (AlignGroupByAndOrderBy_with_order stableSortByIndex repeatedKeyProjection
      (by decide)).1.trans (by decide)⟩

end abstract

namespace abstract

/-- C4 (as amended): with an empty ORDER BY, after `AlignGroupByAndOrderBy` the
grouping is a rearrangement of the original grouping sorted by `InnerIndex` under
`CompareRefInt` (no key has an index less than that of a key before it, so present
indices ascend and absent ones come last), and the ORDER BY is that sequence mapped
through `AsOrderBy`. `sort.Sort` is not stable, so the relative order of keys with
equal or absent indices is not fixed; when `CompareRefInt` orders every two keys
one way or the other the result is the stable sort. For indices `[2, 0, nil]` the
grouping becomes `[idx0, idx2, idx-nil]`. -/
theorem AlignGroupByAndOrderBy_without_order
    (sortSort : List GroupBy → List GroupBy) (qp : QueryProjection)
    (hS : SortContract sortSort) (hO : qp.OrderExprs = []) :
    (qp.AlignGroupByAndOrderBy sortSort).groupByExprs.Perm qp.groupByExprs ∧
    (qp.AlignGroupByAndOrderBy sortSort).groupByExprs.Pairwise
      (fun x y => CompareRefInt y.InnerIndex x.InnerIndex = false) ∧
    (qp.AlignGroupByAndOrderBy sortSort).OrderExprs
      = (qp.AlignGroupByAndOrderBy sortSort).groupByExprs.map GroupBy.AsOrderBy ∧
    (qp.groupByExprs.Pairwise (fun x y =>
        CompareRefInt x.InnerIndex y.InnerIndex = true ∨
        CompareRefInt y.InnerIndex x.InnerIndex = true) →
      (qp.AlignGroupByAndOrderBy sortSort).groupByExprs = stableSortByIndex qp.groupByExprs) ∧
    (indices20nil.AlignGroupByAndOrderBy sortSort).groupByExprs
      = [columnKey "y" (some 0), columnKey "x" (some 2), columnKey "z" none] ∧
    (indices20nil.AlignGroupByAndOrderBy sortSort).OrderExprs
      = [columnOrder "y" .AscOrder, columnOrder "x" .AscOrder, columnOrder "z" .AscOrder] := by
  have h20 : sortSort indices20nil.groupByExprs = stableSortByIndex indices20nil.groupByExprs :=
    sort_unique sortSort hS _ (by decide)
  refine ⟨?_, ?_, ?_, ?_, ?_, ?_⟩
  · rw [align_of_empty sortSort qp hO]; exact (hS _).1
  · rw [align_of_empty sortSort qp hO]; exact (hS _).2
  · rw [align_of_empty sortSort qp hO]
  · intro hc
    rw [align_of_empty sortSort qp hO]
    exact sort_unique sortSort hS _ hc
  · rw [align_of_empty sortSort indices20nil (by decide)]
    show sortSort indices20nil.groupByExprs = _
    rw [h20]; decide
  · rw [align_of_empty sortSort indices20nil (by decide)]
    show (sortSort indices20nil.groupByExprs).map GroupBy.AsOrderBy = _
    rw [h20]; decide

/-- Witness of C4: the seven grouping keys of
`select c0, c1, c2, c3, c4, count(*) from t group by a, b, c1, c2, c3, c4, c0`, sorted
by the stable insertion sort, give seven ascending order keys. -/
theorem AlignGroupByAndOrderBy_without_order_witness :
    SortContract stableSortByIndex ∧ sevenKeyProjection.OrderExprs = [] ∧
      (sevenKeyProjection.AlignGroupByAndOrderBy stableSortByIndex).OrderExprs
        = [columnOrder "c0" .AscOrder, columnOrder "c1" .AscOrder, columnOrder "c2" .AscOrder,
            columnOrder "c3" .AscOrder, columnOrder "c4" .AscOrder, columnOrder "a" .AscOrder,
            columnOrder "b" .AscOrder] :=
  ⟨stableSortByIndex_contract, by decide,
    (AlignGroupByAndOrderBy_without_order stableSortByIndex sevenKeyProjection
      stableSortByIndex_contract (by decide)).2.2.1.trans (by decide)⟩

/-- Counterexample to C4 as stated: a sorting function within the contract of
`sort.Sort` (a shell pass with gap 6, then insertion sort, as in the Go releases
before 1.19) puts the absent-index keys of
`select c0, c1, c2, c3, c4, count(*) from t group by a, b, c1, c2, c3, c4, c0`
in the order `b, a`, not in their original order `a, b` that the stable sort keeps. -/
theorem AlignGroupByAndOrderBy_not_stable :
    SortContract shellSort ∧
    CreateQPFromSelect sevenKeySelect plainSemTable = .ok sevenKeyProjection ∧
    (sevenKeyProjection.AlignGroupByAndOrderBy shellSort).groupByExprs
      = [selectedKey "c0" 0, selectedKey "c1" 1, selectedKey "c2" 2, selectedKey "c3" 3,
          selectedKey "c4" 4, columnKey "b" none, columnKey "a" none] ∧
    stableSortByIndex sevenKeyProjection.groupByExprs
      = [selectedKey "c0" 0, selectedKey "c1" 1, selectedKey "c2" 2, selectedKey "c3" 3,
          selectedKey "c4" 4, columnKey "a" none, columnKey "b" none] ∧
    (sevenKeyProjection.AlignGroupByAndOrderBy shellSort).groupByExprs
      ≠ stableSortByIndex sevenKeyProjection.groupByExprs :=
  ⟨shellSort_contract, by rfl, by decide, by decide, by decide⟩

/-- C5 (as amended): on a projection in which no two grouping keys have structurally
equal sort-key expressions, after `AlignGroupByAndOrderBy` the grouping keys are in
the same order as the ORDER BY: every grouping key has an order key whose sort-key
expression is structurally equal to its own, and of two grouping keys the earlier
one has its first such order key no later in the ORDER BY than the later one. -/
theorem AlignGroupByAndOrderBy_same_order
    (sortSort : List GroupBy → List GroupBy) (qp : QueryProjection)
    (hS : SortContract sortSort) (hd : DistinctSortKeys qp.groupByExprs) :
    (∀ g ∈ (qp.AlignGroupByAndOrderBy sortSort).groupByExprs,
      ∃ o ∈ (qp.AlignGroupByAndOrderBy sortSort).OrderExprs,
        sqlparser.EqualsExpr g.WeightStrExpr o.WeightStrExpr = true) ∧
    (qp.AlignGroupByAndOrderBy sortSort).groupByExprs.Pairwise (fun a b =>
      firstOrderKey (qp.AlignGroupByAndOrderBy sortSort).OrderExprs a
        ≤ firstOrderKey (qp.AlignGroupByAndOrderBy sortSort).OrderExprs b) := by
  by_cases hO : qp.OrderExprs = []
  · rw [align_of_empty sortSort qp hO]
    refine ⟨?_, ?_⟩
    · intro g hg
      exact ⟨g.AsOrderBy, List.mem_map_of_mem _ hg, matchesOrder_asOrderBy_self g⟩
    · have := own_keys_ordered (sortSort qp.groupByExprs) [] (by intro g _; rfl)
        (distinctSortKeys_perm (hS _).1 hd)
      simpa only [List.nil_append] using this
  · rw [align_of_nonempty sortSort qp hO]
    refine ⟨?_, ?_⟩
    · intro g hg
      have hg2 : g ∈ matchedKeys qp.groupByExprs [] qp.OrderExprs ++
          unmatchedKeys qp.groupByExprs qp.OrderExprs := hg
      rw [List.mem_append] at hg2
      rcases hg2 with hg2 | hg2
      · have := (mem_matchedKeys _ _ _ g hg2).2.2
        simp only [matchedByAny, List.any_eq_true] at this
        obtain ⟨o, ho, hm⟩ := this
        exact ⟨o, List.mem_append_left _ ho, hm⟩
      · exact ⟨g.AsOrderBy, List.mem_append_right _ (List.mem_map_of_mem _ hg2),
          matchesOrder_asOrderBy_self g⟩
    · have hU : DistinctSortKeys (unmatchedKeys qp.groupByExprs qp.OrderExprs) :=
        distinctSortKeys_sublist (List.filter_sublist _) hd
      have hV := own_keys_ordered (unmatchedKeys qp.groupByExprs qp.OrderExprs)
        qp.OrderExprs (fun x hx => ((mem_unmatchedKeys _ _ x).mp hx).2) hU
      have := matchedKeys_ordered qp.groupByExprs
        ((unmatchedKeys qp.groupByExprs qp.OrderExprs).map GroupBy.AsOrderBy)
        qp.OrderExprs [] (unmatchedKeys qp.groupByExprs qp.OrderExprs)
        (fun x hx => ((mem_unmatchedKeys _ _ x).mp hx).2) hV
      simpa only [List.nil_append] using this

/-- Witness of C5: grouping `[b, a]` with `ORDER BY a asc` has distinct sort keys; after
alignment the first grouping key is matched by the first order key. -/
theorem AlignGroupByAndOrderBy_same_order_witness :
    SortContract stableSortByIndex ∧ DistinctSortKeys groupBAOrderA.groupByExprs ∧
      ∃ o ∈ (groupBAOrderA.AlignGroupByAndOrderBy stableSortByIndex).OrderExprs,
        sqlparser.EqualsExpr (columnKey "a" none).WeightStrExpr o.WeightStrExpr = true :=
  ⟨stableSortByIndex_contract, by unfold DistinctSortKeys; decide,
    (AlignGroupByAndOrderBy_same_order stableSortByIndex groupBAOrderA
      stableSortByIndex_contract (by unfold DistinctSortKeys; decide)).1
      (columnKey "a" none) (by decide)⟩

/-- Counterexample to C5 as stated: for
`select c, a, b, count(*) from t group by c, a, b, a order by c` the aligned grouping
is `[c, a, b, a]` with `ORDER BY c, a, b, a`; its third key `b` is first matched by
the order key at position 2, its fourth key `a` by the one at position 1. -/
theorem AlignGroupByAndOrderBy_order_broken :
    CreateQPFromSelect repeatedKeySelect plainSemTable = .ok repeatedKeyProjection ∧
    (repeatedKeyProjection.AlignGroupByAndOrderBy stableSortByIndex).groupByExprs.map
      (firstOrderKey (repeatedKeyProjection.AlignGroupByAndOrderBy stableSortByIndex).OrderExprs)
      = [0, 1, 2, 1] ∧
    ¬ (repeatedKeyProjection.AlignGroupByAndOrderBy stableSortByIndex).groupByExprs.Pairwise
      (fun a b =>
        firstOrderKey (repeatedKeyProjection.AlignGroupByAndOrderBy stableSortByIndex).OrderExprs a
          ≤ firstOrderKey
              (repeatedKeyProjection.AlignGroupByAndOrderBy stableSortByIndex).OrderExprs b) :=
  ⟨by rfl, by decide, by decide⟩

end abstract

/-! ## Validation of grouping -/

namespace abstract

theorem inGrouping_nil (i : sqlparser.SelectExpr) : inGrouping [] i = false := by
  cases i <;> rfl

theorem validateGrouping_of_some (qp : QueryProjection) (item : sqlparser.SelectExpr)
    (hc : (qp.HasAggr || decide (qp.groupByExprs.length > 0)) = true)
    (hv : qp.getNonAggrExprNotMatchingGroupByExprs = some item) :
    validateGrouping qp =
      if qp.groupByExprs.length == 0 then .error (mixOfGroupFuncAndFieldsError item)
      else .ok { qp with ProjectionError := some (wrongFieldWithGroupError item) } := by
  unfold validateGrouping
  rw [if_pos hc, hv]

theorem validateGrouping_of_none (qp : QueryProjection)
    (hv : qp.getNonAggrExprNotMatchingGroupByExprs = none) :
    validateGrouping qp = .ok qp := by
  unfold validateGrouping
  rw [hv]
  simp

/-- C6 (as amended): for a SELECT with no GROUP BY clause whose select list is valid
and has an item containing an aggregation and an item containing none, and whose ORDER
BY resolves without error, `CreateQPFromSelect` returns no projection and the
invalid-argument `MixOfGroupFuncAndFields` error whose message names the first select
item that contains no aggregation. -/
theorem CreateQPFromSelect_mix_without_group_by (sel : sqlparser.Select)
    (semTable : semantics.SemTable) (qp1 qp3 : QueryProjection) (item : sqlparser.SelectExpr)
    (hg : sel.GroupBy = [])
    (hsel : (initialProjection sel).addSelectExpressions sel = .ok qp1)
    (hagg : ∃ i ∈ sel.SelectExprs, i.containsAggregation = true)
    (hitem : sel.SelectExprs.find? (fun i => !i.containsAggregation) = some item)
    (hord : qp1.addOrderBy sel.OrderBy semTable = .ok qp3) :
    CreateQPFromSelect sel semTable = .error (mixOfGroupFuncAndFieldsError item) ∧
    (mixOfGroupFuncAndFieldsError item).code = vtrpcpb.Code.INVALID_ARGUMENT ∧
    (mixOfGroupFuncAndFieldsError item).state = vterrors.State.MixOfGroupFuncAndFields ∧
    (mixOfGroupFuncAndFieldsError item).msg =
      "In aggregated query without GROUP BY, expression of SELECT list contains nonaggregated column '"
        ++ item.render ++ "'; this is incompatible with sql_mode=only_full_group_by" := by
  refine ⟨?_, rfl, rfl, rfl⟩
  have hgrp : addGroupByLoop semTable sel.GroupBy qp1 = .ok qp1 := by rw [hg]; rfl
  rw [CreateQPFromSelect_of_stages sel semTable qp1 qp1 qp3 hsel hgrp hord]
  obtain ⟨_, f2, f3, _, _, f6, _⟩ := stages_facts sel semTable qp1 qp1 qp3 hsel hgrp hord
  have hG : qp3.groupByExprs = [] := List.length_eq_zero.mp (by rw [f6, hg]; rfl)
  have hA : qp3.HasAggr = true := by
    rw [f3, List.any_eq_true]
    exact hagg
  have hv : qp3.getNonAggrExprNotMatchingGroupByExprs = some item := by
    unfold QueryProjection.getNonAggrExprNotMatchingGroupByExprs
    rw [f2, hG, selectNotMatchingGroupBy_eq]
    have hp : (fun i : sqlparser.SelectExpr => !i.containsAggregation && !inGrouping [] i)
        = (fun i => !i.containsAggregation) := by
      funext i; rw [inGrouping_nil]; simp
    rw [hp, hitem]
  rw [validateGrouping_of_some qp3 item (by simp [hA]) hv, hG]
  rfl

/-- Witness of C6: `select a, count(*) from t` fails at once with the error that names
column `a`. -/
theorem CreateQPFromSelect_mix_without_group_by_witness :
    mixSelect.GroupBy = [] ∧
    (∃ i ∈ mixSelect.SelectExprs, i.containsAggregation = true) ∧
    mixSelect.SelectExprs.find? (fun i => !i.containsAggregation) = some (columnItem "a") ∧
    CreateQPFromSelect mixSelect plainSemTable
      = .error (mixOfGroupFuncAndFieldsError (columnItem "a")) ∧
    (mixOfGroupFuncAndFieldsError (columnItem "a")).msg =
      "In aggregated query without GROUP BY, expression of SELECT list contains nonaggregated column 'a'; this is incompatible with sql_mode=only_full_group_by" :=
  ⟨rfl, ⟨.AliasedExpr countStar "", by decide, by decide⟩, by decide,
    (CreateQPFromSelect_mix_without_group_by mixSelect plainSemTable _ _ (columnItem "a") rfl
      (by rfl) ⟨.AliasedExpr countStar "", by decide, by decide⟩ (by decide) (by rfl)).1,
    by decide⟩

/-- Counterexample to C6 as stated: `select a, count(*) from t order by x` has no GROUP
BY and a valid select list with an aggregate and a non-aggregate item, but when the
table lookup for `x` fails `CreateQPFromSelect` returns that resolution error, not
the `MixOfGroupFuncAndFields` error. -/
theorem CreateQPFromSelect_mix_resolution_error :
    mixOrderSelect.GroupBy = [] ∧
    (∃ qp1, (initialProjection mixOrderSelect).addSelectExpressions mixOrderSelect = .ok qp1) ∧
    (∃ i ∈ mixOrderSelect.SelectExprs, i.containsAggregation = true) ∧
    (∃ i ∈ mixOrderSelect.SelectExprs, i.containsAggregation = false) ∧
    CreateQPFromSelect mixOrderSelect failingSemTable = .error lookupFailure ∧
    lookupFailure.state ≠ vterrors.State.MixOfGroupFuncAndFields ∧
    lookupFailure ≠ semantics.ErrMultipleTables :=
  ⟨rfl, ⟨_, rfl⟩, ⟨.AliasedExpr countStar "", by decide, by decide⟩,
    ⟨columnItem "a", by decide, by decide⟩, by rfl, by decide, by decide⟩

/-- C7 (as amended): for a SELECT with a valid select list, a non-empty, valid GROUP BY
and an ORDER BY that resolves without error, in which some select item that contains
no aggregation is not structurally equal to the sort-key expression of any grouping
key, `CreateQPFromSelect` does not fail: it returns a projection whose
`ProjectionError` is the invalid-argument `WrongFieldWithGroup` error naming the first
such select item. -/
theorem CreateQPFromSelect_deferred_error (sel : sqlparser.Select)
    (semTable : semantics.SemTable) (qp1 qp2 qp3 : QueryProjection)
    (item : sqlparser.SelectExpr)
    (hne : sel.GroupBy ≠ [])
    (hsel : (initialProjection sel).addSelectExpressions sel = .ok qp1)
    (hgrp : addGroupByLoop semTable sel.GroupBy qp1 = .ok qp2)
    (hord : qp2.addOrderBy sel.OrderBy semTable = .ok qp3)
    (hitem : sel.SelectExprs.find?
      (fun i => !i.containsAggregation && !inGrouping qp2.groupByExprs i) = some item) :
    (∃ qp, CreateQPFromSelect sel semTable = .ok qp ∧
      qp.ProjectionError = some (wrongFieldWithGroupError item)) ∧
    (wrongFieldWithGroupError item).code = vtrpcpb.Code.INVALID_ARGUMENT ∧
    (wrongFieldWithGroupError item).state = vterrors.State.WrongFieldWithGroup ∧
    (wrongFieldWithGroupError item).msg =
      "Expression of SELECT list is not in GROUP BY clause and contains nonaggregated column '"
        ++ item.render ++
        "' which is not functionally dependent on columns in GROUP BY clause; this is incompatible with sql_mode=only_full_group_by" := by
  refine ⟨?_, rfl, rfl, rfl⟩
  rw [CreateQPFromSelect_of_stages sel semTable qp1 qp2 qp3 hsel hgrp hord]
  obtain ⟨_, f2, _, _, _, f6, _⟩ := stages_facts sel semTable qp1 qp2 qp3 hsel hgrp hord
  have hG : qp3.groupByExprs = qp2.groupByExprs := (addOrderBy_ok semTable _ _ _ hord).2.2.2.2.1
  have hlen : 0 < qp3.groupByExprs.length := by
    rw [f6]; exact List.length_pos.mpr hne
  have hv : qp3.getNonAggrExprNotMatchingGroupByExprs = some item := by
    unfold QueryProjection.getNonAggrExprNotMatchingGroupByExprs
    rw [f2, hG, selectNotMatchingGroupBy_eq, hitem]
  have hl0 : (qp3.groupByExprs.length == 0) = false := by
    cases hq : qp3.groupByExprs with
    | nil => rw [hq] at hlen; cases hlen
    | cons g G => rfl
  rw [validateGrouping_of_some qp3 item (by simp [hlen]) hv, hl0]
  simp only [Bool.false_eq_true, if_false]
  split
  · exact ⟨_, rfl, rfl⟩
  · exact ⟨_, rfl, rfl⟩

/-- Witness of C7: `select a, b, count(*) from t group by a` is built, with the stored
error that names column `b`. -/
theorem CreateQPFromSelect_deferred_error_witness :
    partialGroupSelect.GroupBy ≠ [] ∧
    (∃ qp, CreateQPFromSelect partialGroupSelect plainSemTable = .ok qp ∧
      qp.ProjectionError = some (wrongFieldWithGroupError (columnItem "b"))) ∧
    (wrongFieldWithGroupError (columnItem "b")).msg =
      "Expression of SELECT list is not in GROUP BY clause and contains nonaggregated column 'b' which is not functionally dependent on columns in GROUP BY clause; this is incompatible with sql_mode=only_full_group_by" :=
  ⟨by decide,
    (CreateQPFromSelect_deferred_error partialGroupSelect plainSemTable _ _ _ (columnItem "b")
      (by decide) (by rfl) (by rfl) (by rfl) (by decide)).1,
    by rfl⟩

/-- Counterexample to C7 as stated: `select a, b, count(a, b) from t group by a` has a
non-empty, valid GROUP BY and the non-aggregate item `b` is not in it, but
`CreateQPFromSelect` fails, because `count` has two arguments. -/
theorem CreateQPFromSelect_deferred_error_invalid_select :
    twoArgumentSelect.GroupBy = [.ColName "a" ""] ∧
    (initialProjection twoArgumentSelect).GetSimplifiedExpr (.ColName "a" "") plainSemTable
      = .ok (.ColName "a" "", some (.ColName "a" "")) ∧
    checkForInvalidGroupingExpressions (some (.ColName "a" "")) = none ∧
    (columnItem "b").containsAggregation = false ∧
    sqlparser.EqualsExpr (some (.ColName "a" "")) (some (.ColName "b" "")) = false ∧
    CreateQPFromSelect twoArgumentSelect plainSemTable
      = .error (vterrors.NewErrorf vtrpcpb.Code.INVALID_ARGUMENT vterrors.State.SyntaxError
          "aggregate functions take a single argument 'count(a, b)'") :=
  ⟨rfl, by rfl, by rfl, by decide, by decide, by rfl⟩

end abstract

namespace abstract

theorem forall2_mem_right {α β : Type} {R : α → β → Prop} :
    ∀ {l1 : List α} {l2 : List β}, List.Forall₂ R l1 l2 → ∀ b ∈ l2, ∃ a ∈ l1, R a b := by
  intro l1 l2 h
  induction h with
  | nil => intro b hb; cases hb
  | cons hab _ ih =>
    intro b hb
    rw [List.mem_cons] at hb
    rcases hb with hb | hb
    · subst hb; exact ⟨_, List.mem_cons_self _ _, hab⟩
    · obtain ⟨a, ha, hr⟩ := ih b hb
      exact ⟨a, List.mem_cons_of_mem _ ha, hr⟩

/-- The order keys of a successful `addOrderBy`: the old ones, then keys made from
ORDER BY items, none of them NULL. -/
theorem addOrderBy_keys (semTable : semantics.SemTable) (orders : List sqlparser.Order)
    (qp qp2 : QueryProjection) (h : qp.addOrderBy orders semTable = .ok qp2) :
    ∃ built : List OrderBy, qp2.OrderExprs = qp.OrderExprs ++ built ∧
      ∀ o ∈ built, sqlparser.IsNull o.WeightStrExpr = false ∧
        sqlparser.IsNull (some o.Inner.Expr) = false ∧
        ∃ order ∈ orders, o.Inner.Direction = order.Direction ∧
          qp.GetSimplifiedExpr order.Expr semTable = .ok (o.Inner.Expr, o.WeightStrExpr) := by
  unfold QueryProjection.addOrderBy at h
  cases hl : addOrderByLoop semTable orders qp true with
  | error err => rw [hl] at h; cases h
  | ok r =>
    obtain ⟨qp3, c⟩ := r
    rw [hl] at h
    simp only [Except.ok.injEq] at h
    obtain ⟨built, hq, hb⟩ := addOrderByLoop_ok semTable orders qp qp3 true c hl
    subst h
    subst hq
    exact ⟨built, rfl, hb⟩

theorem IsAggregation_containsAggregation (w : Option sqlparser.Expr)
    (h : sqlparser.IsAggregation w = true) : sqlparser.ContainsAggregation w = true := by
  cases w with
  | none => cases h
  | some e =>
    cases e <;>
      simp_all [sqlparser.IsAggregation, sqlparser.IsAggregationExpr,
        sqlparser.ContainsAggregation, sqlparser.Expr.containsAggregation]

/-- What the validator has checked when it reports nothing. -/
theorem selectNotMatchingGroupBy_none (G : List GroupBy) (os : List OrderBy)
    (items : List sqlparser.SelectExpr)
    (h : selectNotMatchingGroupBy G os (items.map classify) = none) :
    (∀ i ∈ items, i.containsAggregation = false → inGrouping G i = true) ∧
    (∀ o ∈ os, orderSkipped o = false → orderInGrouping G o = true) := by
  rw [selectNotMatchingGroupBy_eq] at h
  cases hf : items.find? (fun i => !i.containsAggregation && !inGrouping G i) with
  | some item => rw [hf] at h; cases h
  | none =>
    rw [hf] at h
    simp only at h
    rw [orderNotMatchingGroupBy_eq, Option.map_eq_none'] at h
    rw [List.find?_eq_none] at hf h
    refine ⟨?_, ?_⟩
    · intro i hi ha
      have := hf i hi
      simpa [ha] using this
    · intro o ho hs
      have := h o ho
      simpa [hs] using this

/-- C8: validator soundness. For a SELECT with an aggregation in its select list or a
non-empty GROUP BY, if `CreateQPFromSelect` succeeds with a nil `ProjectionError`, then
every select item not flagged as aggregate is an aliased expression structurally equal
to the resolved sort-key expression of some GROUP BY item, and every retained order
key (none of which is NULL) whose sort-key expression contains no aggregation has a
sort-key expression structurally equal to the resolved sort-key expression of some
GROUP BY item. -/
theorem CreateQPFromSelect_validator_sound (sel : sqlparser.Select)
    (semTable : semantics.SemTable) (qp : QueryProjection)
    (h : CreateQPFromSelect sel semTable = .ok qp)
    (hpe : qp.ProjectionError = none)
    (hag : (∃ i ∈ sel.SelectExprs, i.containsAggregation = true) ∨ sel.GroupBy ≠ []) :
    (∀ s ∈ qp.SelectExprs, s.Aggr = false →
      ∃ e a, s.Col = .AliasedExpr e a ∧
        ∃ group ∈ sel.GroupBy, ∃ expr w,
          qp.GetSimplifiedExpr group semTable = .ok (expr, w) ∧
          sqlparser.EqualsExpr w (some e) = true) ∧
    (∀ o ∈ qp.OrderExprs,
      sqlparser.IsNull o.WeightStrExpr = false ∧ sqlparser.IsNull (some o.Inner.Expr) = false ∧
      (sqlparser.ContainsAggregation o.WeightStrExpr = false →
        ∃ group ∈ sel.GroupBy, ∃ expr w,
          qp.GetSimplifiedExpr group semTable = .ok (expr, w) ∧
          sqlparser.EqualsExpr w o.WeightStrExpr = true)) := by
  obtain ⟨qp1, qp2, qp3, qp4, hsel, hgrp, hord, hval, hq⟩ :=
    CreateQPFromSelect_stages sel semTable qp h
  obtain ⟨f1, f2, f3, _, f5, f6, f7⟩ := stages_facts sel semTable qp1 qp2 qp3 hsel hgrp hord
  have hpe4 : qp4.ProjectionError = none := by
    rcases hq with hq | hq <;> rw [hq] at hpe <;> exact hpe
  have hc : (qp3.HasAggr || decide (qp3.groupByExprs.length > 0)) = true := by
    rcases hag with hag | hag
    · have : qp3.HasAggr = true := by rw [f3, List.any_eq_true]; exact hag
      simp [this]
    · have : 0 < qp3.groupByExprs.length := by rw [f6]; exact List.length_pos.mpr hag
      simp [this]
  have hnone : qp3.getNonAggrExprNotMatchingGroupByExprs = none := by
    cases hv : qp3.getNonAggrExprNotMatchingGroupByExprs with
    | none => rfl
    | some item =>
      rw [validateGrouping_of_some qp3 item hc hv] at hval
      split at hval
      · cases hval
      · simp only [Except.ok.injEq] at hval
        rw [← hval] at hpe4
        cases hpe4
  have h43 : qp4 = qp3 := by
    rw [validateGrouping_of_none qp3 hnone] at hval
    simp only [Except.ok.injEq] at hval
    exact hval.symm
  have hS : qp.SelectExprs = qp3.SelectExprs := by
    rcases hq with hq | hq <;> rw [hq, h43]
  have hO : qp.OrderExprs = qp3.OrderExprs := by
    rcases hq with hq | hq <;> rw [hq, h43]
  unfold QueryProjection.getNonAggrExprNotMatchingGroupByExprs at hnone
  rw [f2] at hnone
  obtain ⟨hsi, hoi⟩ := selectNotMatchingGroupBy_none _ _ _ hnone
  have hkey : ∀ g ∈ qp3.groupByExprs, ∃ group ∈ sel.GroupBy, ∃ expr w,
      qp.GetSimplifiedExpr group semTable = .ok (expr, w) ∧ w = g.WeightStrExpr := by
    intro g hg
    obtain ⟨group, hgm, hr, _, _⟩ := forall2_mem_right f7 g hg
    refine ⟨group, hgm, g.Inner, g.WeightStrExpr, ?_, rfl⟩
    rw [← hr]
    exact GetSimplifiedExpr_congr _ _ _ _ (by rw [hS, f2, f1])
  obtain ⟨built, hb, hbf⟩ := addOrderBy_keys semTable _ _ _ hord
  have hO2 : qp2.OrderExprs = [] := by
    obtain ⟨_, _, _, _, _, a6, _, _⟩ := addSelectExpressionsLoop_ok _ _ _ hsel
    obtain ⟨bg, hqg, _, _⟩ := addGroupByLoop_ok semTable _ _ _ hgrp
    rw [hqg]; exact a6
  rw [hO2, List.nil_append] at hb
  refine ⟨?_, ?_⟩
  · intro s hs hagg
    rw [hS, f2, List.mem_map] at hs
    obtain ⟨i, hi, rfl⟩ := hs
    have hin := hsi i hi hagg
    cases i with
    | StarExpr t => simp [inGrouping] at hin
    | Nextval e => simp [inGrouping] at hin
    | AliasedExpr e a =>
      simp only [inGrouping, List.any_eq_true] at hin
      obtain ⟨g, hg, hge⟩ := hin
      obtain ⟨group, hgm, expr, w, hr, hw⟩ := hkey g hg
      exact ⟨e, a, rfl, group, hgm, expr, w, hr, by rw [hw]; exact hge⟩
  · intro o ho
    rw [hO, hb] at ho
    obtain ⟨hn1, hn2, _⟩ := hbf o ho
    refine ⟨hn1, hn2, ?_⟩
    intro hca
    have hia : sqlparser.IsAggregation o.WeightStrExpr = false := by
      cases hx : sqlparser.IsAggregation o.WeightStrExpr
      · rfl
      · rw [IsAggregation_containsAggregation _ hx] at hca; cases hca
    have hskip : orderSkipped o = false := by simp [orderSkipped, hn2, hia]
    have hin := hoi o (by rw [hb]; exact ho) hskip
    simp only [orderInGrouping, List.any_eq_true] at hin
    obtain ⟨g, hg, hge⟩ := hin
    obtain ⟨group, hgm, expr, w, hr, hw⟩ := hkey g hg
    exact ⟨group, hgm, expr, w, hr, by rw [hw]; exact hge⟩

end abstract

namespace abstract

/-- Witness of C8: `select a, count(*) from t group by a order by a desc, count(*)` is
built without error; its order key `a` contains no aggregation and is matched by the
GROUP BY item `a`. -/
theorem CreateQPFromSelect_validator_sound_witness :
    CreateQPFromSelect groupOrderSelect plainSemTable = .ok groupOrderProjection ∧
    groupOrderProjection.ProjectionError = none ∧
    ((∃ i ∈ groupOrderSelect.SelectExprs, i.containsAggregation = true) ∨
      groupOrderSelect.GroupBy ≠ []) ∧
    ∃ group ∈ groupOrderSelect.GroupBy, ∃ expr w,
      groupOrderProjection.GetSimplifiedExpr group plainSemTable = .ok (expr, w) ∧
      sqlparser.EqualsExpr w (columnOrder "a" .DescOrder).WeightStrExpr = true :=
  ⟨by rfl, rfl, Or.inr (by decide),
    ((CreateQPFromSelect_validator_sound groupOrderSelect plainSemTable groupOrderProjection
      (by rfl) rfl (Or.inr (by decide))).2 (columnOrder "a" .DescOrder) (by decide)).2.2
      (by decide)⟩

theorem selectNotMatchingGroupBy_congr (G : List GroupBy) (os os2 : List OrderBy)
    (h : orderNotMatchingGroupBy G os = orderNotMatchingGroupBy G os2) :
    ∀ (items : List SelectExpr),
      selectNotMatchingGroupBy G os items = selectNotMatchingGroupBy G os2 items := by
  intro items
  induction items with
  | nil => exact h
  | cons s items ih =>
    unfold selectNotMatchingGroupBy
    rw [ih]

/-- The order keys that the validator does pass over are those whose sort-key
expression is itself an aggregation: `getNonAggrExprNotMatchingGroupByExprs` reports
the same with and without them, and a SELECT with a valid select list whose items all
contain an aggregation, no GROUP BY and only such order keys is accepted with a nil
`ProjectionError`. -/
theorem CreateQPFromSelect_skips_aggregation_keys (sel : sqlparser.Select)
    (semTable : semantics.SemTable) (qp1 qp3 : QueryProjection)
    (hg : sel.GroupBy = [])
    (hsel : (initialProjection sel).addSelectExpressions sel = .ok qp1)
    (hall : ∀ i ∈ sel.SelectExprs, i.containsAggregation = true)
    (hord : qp1.addOrderBy sel.OrderBy semTable = .ok qp3)
    (hkeys : ∀ o ∈ qp3.OrderExprs, sqlparser.IsAggregation o.WeightStrExpr = true) :
    (∀ qp : QueryProjection,
      qp.getNonAggrExprNotMatchingGroupByExprs =
        QueryProjection.getNonAggrExprNotMatchingGroupByExprs
          { qp with
            OrderExprs :=
              qp.OrderExprs.filter (fun o => !sqlparser.IsAggregation o.WeightStrExpr) }) ∧
    ∃ qp, CreateQPFromSelect sel semTable = .ok qp ∧ qp.ProjectionError = none := by
  refine ⟨?_, ?_⟩
  · intro qp
    unfold QueryProjection.getNonAggrExprNotMatchingGroupByExprs
    apply selectNotMatchingGroupBy_congr
    rw [orderNotMatchingGroupBy_eq, orderNotMatchingGroupBy_eq, List.find?_filter]
    congr 2
    funext o
    cases hx : sqlparser.IsAggregation o.WeightStrExpr <;> simp [orderSkipped, hx]
  · have hgrp : addGroupByLoop semTable sel.GroupBy qp1 = .ok qp1 := by rw [hg]; rfl
    rw [CreateQPFromSelect_of_stages sel semTable qp1 qp1 qp3 hsel hgrp hord]
    obtain ⟨_, f2, _, _, f5, _, _⟩ := stages_facts sel semTable qp1 qp1 qp3 hsel hgrp hord
    have hv : qp3.getNonAggrExprNotMatchingGroupByExprs = none := by
      unfold QueryProjection.getNonAggrExprNotMatchingGroupByExprs
      rw [f2, selectNotMatchingGroupBy_eq]
      have h1 : sel.SelectExprs.find?
          (fun i => !i.containsAggregation && !inGrouping qp3.groupByExprs i) = none := by
        rw [List.find?_eq_none]
        intro i hi
        simp [hall i hi]
      rw [h1]
      simp only
      rw [orderNotMatchingGroupBy_eq, Option.map_eq_none', List.find?_eq_none]
      intro o ho
      simp [orderSkipped, hkeys o ho]
    rw [validateGrouping_of_none qp3 hv]
    simp only
    split
    · exact ⟨_, rfl, f5⟩
    · exact ⟨_, rfl, f5⟩

/-- The statement `select count(*) from t order by count(*)` is accepted with a nil
`ProjectionError`. -/
theorem CreateQPFromSelect_skips_aggregation_keys_witness :
    orderByCountSelect.GroupBy = [] ∧
    (∀ i ∈ orderByCountSelect.SelectExprs, i.containsAggregation = true) ∧
    (∀ o ∈ orderByCountProjection.OrderExprs,
      sqlparser.IsAggregation o.WeightStrExpr = true) ∧
    ∃ qp, CreateQPFromSelect orderByCountSelect plainSemTable = .ok qp ∧
      qp.ProjectionError = none :=
  ⟨rfl, by decide, by decide,
    (CreateQPFromSelect_skips_aggregation_keys orderByCountSelect plainSemTable _
      orderByCountProjection rfl (by rfl) (by decide) (by rfl) (by decide)).2⟩

/-- C9: `select count(*) from t order by count(*)+1` has only aggregate select items,
no GROUP BY, and an order key that contains an aggregation; the validator does not
skip that order key but reports it, and `CreateQPFromSelect` rejects the statement
with the `MixOfGroupFuncAndFields` error naming `count(*) + 1` as a nonaggregated
column. The same happens for `select count(*)+1 from t order by count(*)+1`, whose
select item, the same expression, is flagged aggregate and passed over. -/
theorem CreateQPFromSelect_nested_aggregation_key_rejected :
    orderByCountPlusOneSelect.GroupBy = [] ∧
    (∀ i ∈ orderByCountPlusOneSelect.SelectExprs, i.containsAggregation = true) ∧
    sqlparser.ContainsAggregation (some countStarPlusOne) = true ∧
    sqlparser.IsAggregation (some countStarPlusOne) = false ∧
    QueryProjection.getNonAggrExprNotMatchingGroupByExprs
        { orderByCountProjection with
          OrderExprs := [aggregationOrder countStarPlusOne .AscOrder] }
      = some (.AliasedExpr countStarPlusOne "") ∧
    CreateQPFromSelect orderByCountPlusOneSelect plainSemTable
      = .error (mixOfGroupFuncAndFieldsError (.AliasedExpr countStarPlusOne "")) ∧
    (mixOfGroupFuncAndFieldsError (.AliasedExpr countStarPlusOne "")).msg =
      "In aggregated query without GROUP BY, expression of SELECT list contains nonaggregated column 'count(*) + 1'; this is incompatible with sql_mode=only_full_group_by" ∧
    (classify (.AliasedExpr countStarPlusOne "")).Aggr = true ∧
    CreateQPFromSelect orderByOwnItemSelect plainSemTable
      = .error (mixOfGroupFuncAndFieldsError (.AliasedExpr countStarPlusOne "")) :=
  ⟨rfl, by decide, by decide, by decide, by decide, by rfl, by rfl, by decide, by rfl⟩

/-- C10: for a SELECT with no GROUP BY clause and no aggregation in its select list on
which `CreateQPFromSelect` succeeds, the projection has `HasAggr = false`, an empty
grouping sequence and a nil `ProjectionError`, whatever the ORDER BY contains. -/
theorem CreateQPFromSelect_plain (sel : sqlparser.Select) (semTable : semantics.SemTable)
    (qp : QueryProjection)
    (hg : sel.GroupBy = [])
    (hna : ∀ i ∈ sel.SelectExprs, i.containsAggregation = false)
    (h : CreateQPFromSelect sel semTable = .ok qp) :
    qp.HasAggr = false ∧ qp.groupByExprs = [] ∧ qp.ProjectionError = none := by
  obtain ⟨qp1, qp2, qp3, qp4, hsel, hgrp, hord, hval, hq⟩ :=
    CreateQPFromSelect_stages sel semTable qp h
  obtain ⟨_, _, f3, _, f5, f6, _⟩ := stages_facts sel semTable qp1 qp2 qp3 hsel hgrp hord
  have hA : qp3.HasAggr = false := by
    rw [f3, List.any_eq_false]
    intro i hi
    simp [hna i hi]
  have hG : qp3.groupByExprs = [] := List.length_eq_zero.mp (by rw [f6, hg]; rfl)
  have h43 : qp4 = qp3 := by
    unfold validateGrouping at hval
    simp only [hA, hG, List.length_nil, gt_iff_lt, lt_self_iff_false, decide_False,
      Bool.or_self, Bool.false_eq_true, if_false, Except.ok.injEq] at hval
    exact hval.symm
  rcases hq with hq | hq
  · rw [hq, h43]; exact ⟨hA, hG, f5⟩
  · rw [hq, h43]; exact ⟨hA, rfl, f5⟩

/-- Witness of C10: `select a from t order by b desc`. -/
theorem CreateQPFromSelect_plain_witness :
    plainSelect.GroupBy = [] ∧
    (∀ i ∈ plainSelect.SelectExprs, i.containsAggregation = false) ∧
    CreateQPFromSelect plainSelect plainSemTable = .ok plainProjection ∧
    plainProjection.HasAggr = false ∧ plainProjection.groupByExprs = [] ∧
    plainProjection.ProjectionError = none :=
  ⟨rfl, by decide, by rfl,
    CreateQPFromSelect_plain plainSelect plainSemTable plainProjection rfl (by decide) (by rfl)⟩

end abstract

/-! ## Walks of expressions -/

namespace sqlparser

theorem visitThen_eq (r : VisitResult) (c : Option vterrors.Error)
    (h : r.2 = none → r.1 = true) : visitThen r c = r.2.or c := by
  obtain ⟨b, e⟩ := r
  cases e with
  | some err => cases b <;> rfl
  | none =>
    have : b = true := h rfl
    subst this
    rfl

theorem findSome_singleton {α β : Type} (f : α → Option β) (x : α) :
    [x].findSome? f = f x := by
  cases h : f x <;> simp [List.findSome?, h]

theorem andThen_eq (a b : Option vterrors.Error) : andThen a b = a.or b := by
  cases a <;> rfl

mutual
/-- A walk whose visitor stops only with an error returns the first error the visitor
gives on the nodes in walking order. -/
theorem Expr.exprWalk_eq_findSome (visit : SQLNode → VisitResult)
    (hv : ∀ n, (visit n).2 = none → (visit n).1 = true) :
    ∀ (e : Expr), e.walk visit = e.nodes.findSome? (fun n => (visit n).2)
  | .ColName n q => by
    rw [Expr.walk, Expr.nodes, visitThen_eq _ _ (hv _), findSome_singleton]
    cases (visit _).2 <;> rfl
  | .NullVal => by
    rw [Expr.walk, Expr.nodes, visitThen_eq _ _ (hv _), findSome_singleton]
    cases (visit _).2 <;> rfl
  | .Literal v => by
    rw [Expr.walk, Expr.nodes, visitThen_eq _ _ (hv _), findSome_singleton]
    cases (visit _).2 <;> rfl
  | .Argument a => by
    rw [Expr.walk, Expr.nodes, visitThen_eq _ _ (hv _), findSome_singleton]
    cases (visit _).2 <;> rfl
  | .BinaryExpr o l r => by
    rw [Expr.walk, Expr.nodes, visitThen_eq _ _ (hv _), andThen_eq,
      Expr.exprWalk_eq_findSome visit hv l, Expr.exprWalk_eq_findSome visit hv r,
      List.findSome?_cons, List.findSome?_append]
    cases (visit (.expr (.BinaryExpr o l r))).2 <;> rfl
  | .FuncExpr n d es => by
    rw [Expr.walk, Expr.nodes, visitThen_eq _ _ (hv _),
      SelectExprs.itemsWalk_eq_findSome visit hv es, List.findSome?_cons]
    cases (visit (.expr (.FuncExpr n d es))).2 <;> rfl
  | .GroupConcatExpr d es s => by
    rw [Expr.walk, Expr.nodes, visitThen_eq _ _ (hv _),
      SelectExprs.itemsWalk_eq_findSome visit hv es, List.findSome?_cons]
    cases (visit (.expr (.GroupConcatExpr d es s))).2 <;> rfl
  | .Subquery s => by
    rw [Expr.walk, Expr.nodes, visitThen_eq _ _ (hv _),
      SelectExprs.itemsWalk_eq_findSome visit hv s, List.findSome?_cons]
    cases (visit (.expr (.Subquery s))).2 <;> rfl
theorem SelectExpr.itemWalk_eq_findSome (visit : SQLNode → VisitResult)
    (hv : ∀ n, (visit n).2 = none → (visit n).1 = true) :
    ∀ (s : SelectExpr), s.walk visit = s.nodes.findSome? (fun n => (visit n).2)
  | .StarExpr t => by
    rw [SelectExpr.walk, SelectExpr.nodes, visitThen_eq _ _ (hv _), findSome_singleton]
    cases (visit _).2 <;> rfl
  | .AliasedExpr e a => by
    rw [SelectExpr.walk, SelectExpr.nodes, visitThen_eq _ _ (hv _),
      Expr.exprWalk_eq_findSome visit hv e, List.findSome?_cons]
    cases (visit (.selectExpr (.AliasedExpr e a))).2 <;> rfl
  | .Nextval e => by
    rw [SelectExpr.walk, SelectExpr.nodes, visitThen_eq _ _ (hv _),
      Expr.exprWalk_eq_findSome visit hv e, List.findSome?_cons]
    cases (visit (.selectExpr (.Nextval e))).2 <;> rfl
theorem SelectExprs.itemsWalk_eq_findSome (visit : SQLNode → VisitResult)
    (hv : ∀ n, (visit n).2 = none → (visit n).1 = true) :
    ∀ (l : SelectExprs), l.walk visit = l.nodes.findSome? (fun n => (visit n).2)
  | .nil => by
    rw [SelectExprs.walk, SelectExprs.nodes, visitThen_eq _ _ (hv _), findSome_singleton]
    cases (visit _).2 <;> rfl
  | .cons h t => by
    rw [SelectExprs.walk, SelectExprs.nodes, visitThen_eq _ _ (hv _), andThen_eq,
      SelectExpr.itemWalk_eq_findSome visit hv h, SelectExprs.walkItems_eq_findSome visit hv t,
      List.findSome?_cons, List.findSome?_append]
    cases (visit (.selectExprs (.cons h t))).2 <;> rfl
theorem SelectExprs.walkItems_eq_findSome (visit : SQLNode → VisitResult)
    (hv : ∀ n, (visit n).2 = none → (visit n).1 = true) :
    ∀ (l : SelectExprs),
      SelectExprs.walkItems visit l = (SelectExprs.itemNodes l).findSome? (fun n => (visit n).2)
  | .nil => by simp [SelectExprs.walkItems, SelectExprs.itemNodes]
  | .cons h t => by
    rw [SelectExprs.walkItems, SelectExprs.itemNodes, andThen_eq,
      SelectExpr.itemWalk_eq_findSome visit hv h, SelectExprs.walkItems_eq_findSome visit hv t,
      List.findSome?_append]
end

end sqlparser

namespace sqlparser

mutual
/-- An expression contains an aggregation exactly when one of its nodes is one. -/
theorem Expr.exprContainsAggregation_eq_any :
    ∀ (e : Expr), e.containsAggregation = e.nodes.any IsAggregationNode
  | .ColName n q => by simp [Expr.containsAggregation, Expr.nodes, IsAggregationNode, IsAggregationExpr]
  | .NullVal => by simp [Expr.containsAggregation, Expr.nodes, IsAggregationNode, IsAggregationExpr]
  | .Literal v => by simp [Expr.containsAggregation, Expr.nodes, IsAggregationNode, IsAggregationExpr]
  | .Argument a => by simp [Expr.containsAggregation, Expr.nodes, IsAggregationNode, IsAggregationExpr]
  | .BinaryExpr o l r => by
    simp [Expr.containsAggregation, Expr.nodes, IsAggregationNode, IsAggregationExpr,
      Expr.exprContainsAggregation_eq_any l, Expr.exprContainsAggregation_eq_any r, List.any_append]
  | .FuncExpr n d es => by
    simp [Expr.containsAggregation, Expr.nodes, IsAggregationNode, IsAggregationExpr,
      SelectExprs.itemsContainsAggregation_eq_any es]
  | .GroupConcatExpr d es s => by
    simp [Expr.containsAggregation, Expr.nodes, IsAggregationNode, IsAggregationExpr]
  | .Subquery s => by
    simp [Expr.containsAggregation, Expr.nodes, IsAggregationNode, IsAggregationExpr,
      SelectExprs.itemsContainsAggregation_eq_any s]
theorem SelectExpr.itemContainsAggregation_eq_any :
    ∀ (s : SelectExpr), s.containsAggregation = s.nodes.any IsAggregationNode
  | .StarExpr t => by simp [SelectExpr.containsAggregation, SelectExpr.nodes, IsAggregationNode]
  | .AliasedExpr e a => by
    simp [SelectExpr.containsAggregation, SelectExpr.nodes, IsAggregationNode,
      Expr.exprContainsAggregation_eq_any e]
  | .Nextval e => by
    simp [SelectExpr.containsAggregation, SelectExpr.nodes, IsAggregationNode,
      Expr.exprContainsAggregation_eq_any e]
theorem SelectExprs.itemsContainsAggregation_eq_any :
    ∀ (l : SelectExprs), l.containsAggregation = l.nodes.any IsAggregationNode
  | .nil => by simp [SelectExprs.containsAggregation, SelectExprs.nodes, IsAggregationNode]
  | .cons h t => by
    simp [SelectExprs.containsAggregation, SelectExprs.nodes, IsAggregationNode,
      SelectExpr.itemContainsAggregation_eq_any h, SelectExprs.containsAggregation_eq_itemAny t,
      List.any_append]
theorem SelectExprs.containsAggregation_eq_itemAny :
    ∀ (l : SelectExprs), l.containsAggregation = (SelectExprs.itemNodes l).any IsAggregationNode
  | .nil => by simp [SelectExprs.containsAggregation, SelectExprs.itemNodes]
  | .cons h t => by
    simp [SelectExprs.containsAggregation, SelectExprs.itemNodes,
      SelectExpr.itemContainsAggregation_eq_any h, SelectExprs.containsAggregation_eq_itemAny t,
      List.any_append]
end

end sqlparser

namespace abstract

theorem invalidGroupingVisit_continues (ex : sqlparser.Expr) (n : sqlparser.SQLNode)
    (h : (invalidGroupingVisit ex n).2 = none) : (invalidGroupingVisit ex n).1 = true := by
  unfold invalidGroupingVisit at h ⊢
  split
  · rename_i h1; simp [h1] at h
  · split
    · rename_i h1 h2; simp [h1, h2] at h
    · rfl

theorem invalidAggregationVisit_continues (n : sqlparser.SQLNode)
    (h : (invalidAggregationVisit n).2 = none) : (invalidAggregationVisit n).1 = true := by
  unfold invalidAggregationVisit at h ⊢
  split
  · split
    · rename_i h1; simp [h1] at h
    · rfl
  · rfl

/-- `checkForInvalidGroupingExpressions` returns the error of the first node, in
walking order, that is an aggregation or a subquery. -/
theorem checkForInvalidGroupingExpressions_eq (ex : sqlparser.Expr) :
    checkForInvalidGroupingExpressions (some ex)
      = ex.nodes.findSome? (fun n => (invalidGroupingVisit ex n).2) := by
  unfold checkForInvalidGroupingExpressions sqlparser.Walk
  exact sqlparser.Expr.exprWalk_eq_findSome _ (invalidGroupingVisit_continues ex) ex

/-- `checkForInvalidAggregations` returns the error of the first node, in walking
order, that is an aggregate call without exactly one argument. -/
theorem checkForInvalidAggregations_eq (e : sqlparser.Expr) (a : String) :
    checkForInvalidAggregations (e, a)
      = e.nodes.findSome? (fun n => (invalidAggregationVisit n).2) := by
  unfold checkForInvalidAggregations sqlparser.Walk
  exact sqlparser.Expr.exprWalk_eq_findSome _ invalidAggregationVisit_continues e

theorem findSome_of_first {α β : Type} (f : α → Option β) (b : β) :
    ∀ (pre : List α) (x : α) (rest : List α),
      (∀ y ∈ pre, f y = none ∨ f y = some b) → f x = some b →
      (pre ++ x :: rest).findSome? f = some b := by
  intro pre
  induction pre with
  | nil => intro x rest _ hx; simp [List.findSome?, hx]
  | cons y pre ih =>
    intro x rest hpre hx
    rcases hpre y (List.mem_cons_self _ _) with h | h
    · simp only [List.cons_append, List.findSome?, h]
      exact ih x rest (fun z hz => hpre z (List.mem_cons_of_mem _ hz)) hx
    · simp [List.findSome?, h]

end abstract

/-! ## Distinct -/

namespace abstract

/-- A successful validation changes at most the `ProjectionError`. -/
theorem validateGrouping_ok (qp qp2 : QueryProjection) (h : validateGrouping qp = .ok qp2) :
    qp2.SelectExprs = qp.SelectExprs ∧ qp2.HasAggr = qp.HasAggr ∧
    qp2.Distinct = qp.Distinct ∧ qp2.groupByExprs = qp.groupByExprs ∧
    qp2.OrderExprs = qp.OrderExprs ∧ qp2.CanPushDownSorting = qp.CanPushDownSorting ∧
    qp2.HasStar = qp.HasStar := by
  unfold validateGrouping at h
  split at h
  · split at h
    · split at h
      · cases h
      · simp only [Except.ok.injEq] at h
        subst h
        simp
    · simp only [Except.ok.injEq] at h
      subst h
      simp
  · simp only [Except.ok.injEq] at h
    subst h
    simp

theorem onlyAggrLoop_eq_all (l : List SelectExpr) : onlyAggrLoop l = l.all (fun s => s.Aggr) := by
  induction l with
  | nil => rfl
  | cons s l ih =>
    unfold onlyAggrLoop
    cases hs : s.Aggr <;> simp [hs, ih]

/-- C11: for a SELECT DISTINCT with no aggregation in its select list on which
`CreateQPFromSelect` succeeds, with or without a GROUP BY clause, the projection has an
empty grouping sequence, `NeedsAggregation()` reports false and `NeedsDistinct()`
reports true. -/
theorem CreateQPFromSelect_distinct_without_aggregation (sel : sqlparser.Select)
    (semTable : semantics.SemTable) (qp : QueryProjection)
    (hd : sel.Distinct = true)
    (hna : ∀ i ∈ sel.SelectExprs, i.containsAggregation = false)
    (h : CreateQPFromSelect sel semTable = .ok qp) :
    qp.groupByExprs = [] ∧ qp.NeedsAggregation = false ∧ qp.NeedsDistinct = true := by
  obtain ⟨qp1, qp2, qp3, qp4, hsel, hgrp, hord, hval, hq⟩ :=
    CreateQPFromSelect_stages sel semTable qp h
  obtain ⟨_, _, f3, f4, _, _, _⟩ := stages_facts sel semTable qp1 qp2 qp3 hsel hgrp hord
  obtain ⟨_, v2, v3, _, _, _, _⟩ := validateGrouping_ok qp3 qp4 hval
  have hA : qp4.HasAggr = false := by
    rw [v2, f3, List.any_eq_false]
    intro i hi
    simp [hna i hi]
  have hD : qp4.Distinct = true := by rw [v3, f4, hd]
  have hclear : CreateQPFromSelect sel semTable = .ok { qp4 with groupByExprs := [] } := by
    rw [CreateQPFromSelect_of_stages sel semTable qp1 qp2 qp3 hsel hgrp hord, hval]
    simp [hA, hD]
  rw [h] at hclear
  simp only [Except.ok.injEq] at hclear
  subst hclear
  refine ⟨rfl, ?_, ?_⟩
  · simp [QueryProjection.NeedsAggregation, hA]
  · simp [QueryProjection.NeedsDistinct, QueryProjection.onlyAggr, hA, hD]

/-- Witness of C11: `select distinct a, b from t group by a`. -/
theorem CreateQPFromSelect_distinct_without_aggregation_witness :
    distinctGroupSelect.Distinct = true ∧
    (∀ i ∈ distinctGroupSelect.SelectExprs, i.containsAggregation = false) ∧
    CreateQPFromSelect distinctGroupSelect plainSemTable = .ok distinctGroupProjection ∧
    distinctGroupProjection.groupByExprs = [] ∧
    distinctGroupProjection.NeedsAggregation = false ∧
    distinctGroupProjection.NeedsDistinct = true :=
  ⟨rfl, by decide, by rfl,
    CreateQPFromSelect_distinct_without_aggregation distinctGroupSelect plainSemTable
      distinctGroupProjection rfl (by decide) (by rfl)⟩

/-- C12: for a SELECT DISTINCT with no GROUP BY in which every item of the (non-empty)
select list contains an aggregation, on which `CreateQPFromSelect` succeeds,
`NeedsDistinct()` reports false; and for every projection `NeedsDistinct()` is true
exactly when `Distinct` is set and it is not the case that `HasAggr` holds, every
select item is flagged aggregate and the grouping sequence is empty. -/
theorem NeedsDistinct_spec (sel : sqlparser.Select) (semTable : semantics.SemTable)
    (qp : QueryProjection)
    (hd : sel.Distinct = true) (hg : sel.GroupBy = [])
    (hne : sel.SelectExprs ≠ [])
    (hall : ∀ i ∈ sel.SelectExprs, i.containsAggregation = true)
    (h : CreateQPFromSelect sel semTable = .ok qp) :
    qp.NeedsDistinct = false ∧
    ∀ q : QueryProjection,
      (q.NeedsDistinct = true ↔
        (q.Distinct = true ∧
          ¬ (q.HasAggr = true ∧ (∀ s ∈ q.SelectExprs, s.Aggr = true) ∧ q.groupByExprs = []))) := by
  have hgen : ∀ q : QueryProjection,
      (q.NeedsDistinct = true ↔
        (q.Distinct = true ∧
          ¬ (q.HasAggr = true ∧ (∀ s ∈ q.SelectExprs, s.Aggr = true) ∧ q.groupByExprs = []))) := by
    intro q
    unfold QueryProjection.NeedsDistinct QueryProjection.onlyAggr
    rw [onlyAggrLoop_eq_all]
    cases hD : q.Distinct
    · simp
    · cases hA : q.HasAggr
      · simp
      · cases hG : q.groupByExprs with
        | nil =>
          by_cases hall : (q.SelectExprs.all (fun s => s.Aggr)) = true
          · have h2 := hall
            rw [List.all_eq_true] at h2
            simp only [hall]
            simpa using h2
          · have h2 := hall
            rw [List.all_eq_true] at h2
            simp only [hall]
            simpa using h2
        | cons g G => simp
  refine ⟨?_, hgen⟩
  obtain ⟨qp1, qp2, qp3, qp4, hsel, hgrp, hord, hval, hq⟩ :=
    CreateQPFromSelect_stages sel semTable qp h
  obtain ⟨_, f2, f3, f4, _, f6, _⟩ := stages_facts sel semTable qp1 qp2 qp3 hsel hgrp hord
  obtain ⟨v1, v2, v3, v4, _, _, _⟩ := validateGrouping_ok qp3 qp4 hval
  have hfields : qp.SelectExprs = sel.SelectExprs.map classify ∧
      qp.HasAggr = sel.SelectExprs.any (fun i => i.containsAggregation) ∧
      qp.Distinct = true ∧ qp.groupByExprs = [] := by
    have hG : qp3.groupByExprs = [] := List.length_eq_zero.mp (by rw [f6, hg]; rfl)
    rcases hq with hq | hq
    · rw [hq]; exact ⟨v1.trans f2, v2.trans f3, by rw [v3, f4, hd], v4.trans hG⟩
    · rw [hq]; exact ⟨v1.trans f2, v2.trans f3, by rw [v3, f4, hd], rfl⟩
  obtain ⟨g1, g2, g3, g4⟩ := hfields
  cases hx : qp.NeedsDistinct
  · rfl
  · exfalso
    have := ((hgen qp).mp hx).2
    apply this
    refine ⟨?_, ?_, g4⟩
    · rw [g2, List.any_eq_true]
      obtain ⟨i, hi⟩ := List.exists_mem_of_ne_nil _ hne
      exact ⟨i, hi, hall i hi⟩
    · intro s hs
      rw [g1, List.mem_map] at hs
      obtain ⟨i, hi, rfl⟩ := hs
      exact hall i hi

/-- Witness of C12: `select distinct count(*) from t` needs no distinct. -/
theorem NeedsDistinct_spec_witness :
    distinctCountSelect.Distinct = true ∧ distinctCountSelect.GroupBy = [] ∧
    distinctCountSelect.SelectExprs ≠ [] ∧
    (∀ i ∈ distinctCountSelect.SelectExprs, i.containsAggregation = true) ∧
    CreateQPFromSelect distinctCountSelect plainSemTable = .ok distinctCountProjection ∧
    distinctCountProjection.NeedsDistinct = false :=
  ⟨rfl, rfl, by decide, by decide, by rfl,
    (NeedsDistinct_spec distinctCountSelect plainSemTable distinctCountProjection rfl rfl
      (by decide) (by decide) (by rfl)).1⟩

end abstract

/-! ## Invalid grouping expressions -/

namespace abstract

theorem addGroupByLoop_append (semTable : semantics.SemTable) :
    ∀ (pre rest : List sqlparser.Expr) (qp : QueryProjection),
      addGroupByLoop semTable (pre ++ rest) qp =
        match addGroupByLoop semTable pre qp with
        | .error err => .error err
        | .ok qp2 => addGroupByLoop semTable rest qp2 := by
  intro pre
  induction pre with
  | nil => intro rest qp; rfl
  | cons g pre ih =>
    intro rest qp
    rw [List.cons_append, addGroupByLoop, addGroupByLoop]
    cases hs : qp.GetSimplifiedExpr g semTable with
    | error err => rfl
    | ok r =>
      obtain ⟨expr, w⟩ := r
      simp only
      cases hc : checkForInvalidGroupingExpressions w with
      | some err => rfl
      | none => exact ih rest _

/-- The GROUP BY loop at an item whose sort key is refused. -/
theorem addGroupByLoop_refused (semTable : semantics.SemTable) (group : sqlparser.Expr)
    (rest : List sqlparser.Expr) (qp : QueryProjection) (e : sqlparser.Expr)
    (w : Option sqlparser.Expr) (err : vterrors.Error)
    (hres : qp.GetSimplifiedExpr group semTable = .ok (e, w))
    (hc : checkForInvalidGroupingExpressions w = some err) :
    addGroupByLoop semTable (group :: rest) qp = .error err := by
  rw [addGroupByLoop, hres]
  simp only [hc]

theorem CreateQPFromSelect_group_error (sel : sqlparser.Select) (semTable : semantics.SemTable)
    (qp1 : QueryProjection) (err : vterrors.Error)
    (hsel : (initialProjection sel).addSelectExpressions sel = .ok qp1)
    (hgrp : addGroupByLoop semTable sel.GroupBy qp1 = .error err) :
    CreateQPFromSelect sel semTable = .error err := by
  unfold CreateQPFromSelect
  unfold initialProjection at hsel
  rw [hsel]
  simp only [hgrp]

/-- `CreateQPFromSelect` returns the error of `checkForInvalidGroupingExpressions` for
the first GROUP BY item that is refused. -/
theorem CreateQPFromSelect_first_refused (sel : sqlparser.Select)
    (semTable : semantics.SemTable) (qp1 qp2 : QueryProjection)
    (pre rest : List sqlparser.Expr) (group e : sqlparser.Expr) (w : Option sqlparser.Expr)
    (err : vterrors.Error)
    (hsel : (initialProjection sel).addSelectExpressions sel = .ok qp1)
    (hsplit : sel.GroupBy = pre ++ group :: rest)
    (hpre : addGroupByLoop semTable pre qp1 = .ok qp2)
    (hres : qp1.GetSimplifiedExpr group semTable = .ok (e, w))
    (hc : checkForInvalidGroupingExpressions w = some err) :
    CreateQPFromSelect sel semTable = .error err := by
  apply CreateQPFromSelect_group_error sel semTable qp1 err hsel
  rw [hsplit, addGroupByLoop_append, hpre]
  obtain ⟨built, hq, _, _⟩ := addGroupByLoop_ok semTable _ _ _ hpre
  have hres2 : qp2.GetSimplifiedExpr group semTable = .ok (e, w) := by
    rw [← hres]; exact GetSimplifiedExpr_congr _ _ _ _ (by rw [hq])
  exact addGroupByLoop_refused semTable group rest qp2 e w err hres2 hc

theorem invalidGroupingVisit_aggregation (ex : sqlparser.Expr) (n : sqlparser.SQLNode)
    (h : sqlparser.IsAggregationNode n = true) :
    (invalidGroupingVisit ex n).2 = some (wrongGroupFieldError ex) := by
  simp [invalidGroupingVisit, h]

theorem invalidGroupingVisit_cases (ex : sqlparser.Expr) (n : sqlparser.SQLNode) :
    (sqlparser.IsAggregationNode n = true ∧
      (invalidGroupingVisit ex n).2 = some (wrongGroupFieldError ex)) ∨
    (sqlparser.IsAggregationNode n = false ∧ (isSubQ n || isSubqueryArgument n) = true ∧
      (invalidGroupingVisit ex n).2 = some subqueriesInGroupByError) ∨
    (sqlparser.IsAggregationNode n = false ∧ (isSubQ n || isSubqueryArgument n) = false ∧
      (invalidGroupingVisit ex n).2 = none) := by
  unfold invalidGroupingVisit
  cases h1 : sqlparser.IsAggregationNode n
  · cases h2 : (isSubQ n || isSubqueryArgument n)
    · exact Or.inr (Or.inr ⟨rfl, rfl, by simp [h2]⟩)
    · exact Or.inr (Or.inl ⟨rfl, rfl, by simp [h2]⟩)
  · exact Or.inl ⟨rfl, by simp⟩

/-- C13: grouping by an aggregate is rejected. For a SELECT with a valid select list
whose GROUP BY contains an item whose resolved sort-key expression contains an
aggregation, `CreateQPFromSelect` returns an error and no projection; when that item
is the first failing one and its sort key contains no subquery (no subquery node and
no `__sq` argument standing for one), the error is the invalid-argument
`WrongGroupField` error "Can't group on" naming that sort-key expression. -/
theorem CreateQPFromSelect_group_by_aggregation (sel : sqlparser.Select)
    (semTable : semantics.SemTable) (qp1 : QueryProjection)
    (pre rest : List sqlparser.Expr) (group e ex : sqlparser.Expr)
    (hsel : (initialProjection sel).addSelectExpressions sel = .ok qp1)
    (hsplit : sel.GroupBy = pre ++ group :: rest)
    (hres : qp1.GetSimplifiedExpr group semTable = .ok (e, some ex))
    (hagg : sqlparser.ContainsAggregation (some ex) = true) :
    (∃ err, CreateQPFromSelect sel semTable = .error err) ∧
    (∀ qp2, addGroupByLoop semTable pre qp1 = .ok qp2 →
      (∀ n ∈ ex.nodes, isSubQ n = false ∧ isSubqueryArgument n = false) →
      CreateQPFromSelect sel semTable = .error (wrongGroupFieldError ex)) ∧
    (wrongGroupFieldError ex).code = vtrpcpb.Code.INVALID_ARGUMENT ∧
    (wrongGroupFieldError ex).state = vterrors.State.WrongGroupField ∧
    (wrongGroupFieldError ex).msg = "Can't group on '" ++ ex.render ++ "'" := by
  have hany : ∃ n ∈ ex.nodes, sqlparser.IsAggregationNode n = true := by
    have : ex.containsAggregation = true := hagg
    rw [sqlparser.Expr.exprContainsAggregation_eq_any, List.any_eq_true] at this
    exact this
  have hsome : ∃ err, checkForInvalidGroupingExpressions (some ex) = some err := by
    obtain ⟨n, hn, ha⟩ := hany
    have : (checkForInvalidGroupingExpressions (some ex)).isSome = true := by
      rw [checkForInvalidGroupingExpressions_eq, List.findSome?_isSome_iff]
      exact ⟨n, hn, by rw [invalidGroupingVisit_aggregation ex n ha]; rfl⟩
    exact Option.isSome_iff_exists.mp this
  refine ⟨?_, ?_, rfl, rfl, rfl⟩
  · cases hpre : addGroupByLoop semTable pre qp1 with
    | error err =>
      refine ⟨err, CreateQPFromSelect_group_error sel semTable qp1 err hsel ?_⟩
      rw [hsplit, addGroupByLoop_append, hpre]
    | ok qp2 =>
      obtain ⟨err, herr⟩ := hsome
      exact ⟨err, CreateQPFromSelect_first_refused sel semTable qp1 qp2 pre rest group e
        (some ex) err hsel hsplit hpre hres herr⟩
  · intro qp2 hpre hnosub
    apply CreateQPFromSelect_first_refused sel semTable qp1 qp2 pre rest group e
      (some ex) _ hsel hsplit hpre hres
    rw [checkForInvalidGroupingExpressions_eq]
    obtain ⟨n, hn, ha⟩ := hany
    obtain ⟨s, t, hst⟩ := List.append_of_mem hn
    rw [hst]
    apply findSome_of_first
    · intro y hy
      have hy2 : y ∈ ex.nodes := by rw [hst]; exact List.mem_append_left _ hy
      rcases invalidGroupingVisit_cases ex y with h | h | h
      · exact Or.inr h.2
      · have := hnosub y hy2
        simp [this.1, this.2] at h
      · exact Or.inl h.2.2
    · exact invalidGroupingVisit_aggregation ex n ha

/-- Witness of C13: `select a from t group by count(*)` fails with
"Can't group on 'count(*)'". -/
theorem CreateQPFromSelect_group_by_aggregation_witness :
    groupByCountSelect.GroupBy = [] ++ countStar :: [] ∧
    sqlparser.ContainsAggregation (some countStar) = true ∧
    CreateQPFromSelect groupByCountSelect plainSemTable = .error (wrongGroupFieldError countStar) ∧
    (wrongGroupFieldError countStar).msg = "Can't group on 'count(*)'" :=
  ⟨rfl, by decide,
    (CreateQPFromSelect_group_by_aggregation groupByCountSelect plainSemTable _ [] []
      countStar countStar countStar (by rfl) rfl (by rfl) (by decide)).2.1 _ (by rfl)
      (by decide),
    by decide⟩

/-- C14: a subquery in GROUP BY is rejected as unimplemented. For an expression that is
or contains a subquery node, or an argument whose name starts with `__sq`, before
which the walk meets no aggregation, `checkForInvalidGroupingExpressions` returns the
unimplemented error "unsupported: subqueries disallowed in GROUP BY" (it never asks
whether the subquery is correlated), and `CreateQPFromSelect`, when its GROUP BY loop
reaches an item with that sort key, returns this error and no projection. -/
theorem checkForInvalidGroupingExpressions_subquery (ex : sqlparser.Expr)
    (before after : List sqlparser.SQLNode) (n : sqlparser.SQLNode)
    (hnodes : ex.nodes = before ++ n :: after)
    (hbefore : ∀ m ∈ before, sqlparser.IsAggregationNode m = false)
    (hn : (isSubQ n || isSubqueryArgument n) = true) :
    checkForInvalidGroupingExpressions (some ex) = some subqueriesInGroupByError ∧
    subqueriesInGroupByError.code = vtrpcpb.Code.UNIMPLEMENTED ∧
    subqueriesInGroupByError.msg = "unsupported: subqueries disallowed in GROUP BY" ∧
    ∀ (sel : sqlparser.Select) (semTable : semantics.SemTable) (qp1 qp2 : QueryProjection)
      (pre rest : List sqlparser.Expr) (group e : sqlparser.Expr),
      (initialProjection sel).addSelectExpressions sel = .ok qp1 →
      sel.GroupBy = pre ++ group :: rest →
      addGroupByLoop semTable pre qp1 = .ok qp2 →
      qp1.GetSimplifiedExpr group semTable = .ok (e, some ex) →
      CreateQPFromSelect sel semTable = .error subqueriesInGroupByError := by
  have hna : sqlparser.IsAggregationNode n = false := by
    cases n with
    | expr x =>
      cases x <;> simp_all [isSubQ, isSubqueryArgument, sqlparser.IsAggregationNode,
        sqlparser.IsAggregationExpr]
    | selectExpr s => rfl
    | selectExprs l => rfl
  have hcheck : checkForInvalidGroupingExpressions (some ex) = some subqueriesInGroupByError := by
    rw [checkForInvalidGroupingExpressions_eq, hnodes]
    apply findSome_of_first
    · intro y hy
      rcases invalidGroupingVisit_cases ex y with h | h | h
      · rw [hbefore y hy] at h; exact absurd h.1 (by simp)
      · exact Or.inr h.2.2
      · exact Or.inl h.2.2
    · rcases invalidGroupingVisit_cases ex n with h | h | h
      · rw [hna] at h; exact absurd h.1 (by simp)
      · exact h.2.2
      · rw [hn] at h; exact absurd h.2.1 (by simp)
  refine ⟨hcheck, rfl, rfl, ?_⟩
  intro sel semTable qp1 qp2 pre rest group e hsel hsplit hpre hres
  exact CreateQPFromSelect_first_refused sel semTable qp1 qp2 pre rest group e (some ex) _
    hsel hsplit hpre hres hcheck

/-- Witness of C14: `select a from t group by a, (select b)` fails with the
unimplemented error. -/
theorem checkForInvalidGroupingExpressions_subquery_witness :
    subqueryB.nodes = [] ++ .expr subqueryB ::
      [.selectExprs (.cons (columnItem "b") .nil), .selectExpr (columnItem "b"),
        .expr (.ColName "b" "")] ∧
    (isSubQ (.expr subqueryB) || isSubqueryArgument (.expr subqueryB)) = true ∧
    checkForInvalidGroupingExpressions (some subqueryB) = some subqueriesInGroupByError ∧
    CreateQPFromSelect groupBySubquerySelect plainSemTable = .error subqueriesInGroupByError :=
  ⟨by rfl, by decide,
    (checkForInvalidGroupingExpressions_subquery subqueryB [] _ (.expr subqueryB) (by rfl)
      (by simp) (by decide)).1,
    (checkForInvalidGroupingExpressions_subquery subqueryB [] _ (.expr subqueryB) (by rfl)
      (by simp) (by decide)).2.2.2 groupBySubquerySelect plainSemTable _ _
      [.ColName "a" ""] [] subqueryB subqueryB (by rfl) (by rfl) (by rfl) (by rfl)⟩

end abstract

/-! ## Resolution of ORDER BY and GROUP BY expressions -/

namespace abstract

theorem simplifyByAlias_eq (e : sqlparser.Expr) (name : String) :
    ∀ (l : List SelectExpr),
      simplifyByAlias e name l = (e, some ((aliasTarget name l).getD e)) := by
  intro l
  induction l with
  | nil => rfl
  | cons s l ih =>
    unfold simplifyByAlias aliasTarget
    cases hc : s.Col with
    | AliasedExpr ex a =>
      by_cases hm : (!(a == "") && sqlparser.ColIdentEqual name a) = true
      · simp [List.findSome?, hc, hm]
      · simp only [hm, Bool.false_eq_true, if_false, List.findSome?, hc]
        rw [ih]; rfl
    | StarExpr t =>
      simp only [List.findSome?, hc]
      rw [ih]; rfl
    | Nextval x =>
      simp only [List.findSome?, hc]
      rw [ih]; rfl

/-- C15: alias substitution. For an unqualified column reference `e` that does not
originate from a derived table and whose table lookup yields no error other than
`ErrMultipleTables`, if some aliased select item has a non-empty alias equal (as
identifiers are compared, without regard to case) to the column name,
`GetSimplifiedExpr` returns the display expression `e` and, as sort key, the
expression of the first such select item. -/
theorem GetSimplifiedExpr_alias (qp : QueryProjection) (semTable : semantics.SemTable)
    (name : String) (tblInfo : Option semantics.TableInfo) (err : Option vterrors.Error)
    (ex : sqlparser.Expr)
    (hlook : semTable.TableInfoForExpr (.ColName name "") = (tblInfo, err))
    (herr : err = none ∨ err = some semantics.ErrMultipleTables)
    (hnd : ∀ d, tblInfo ≠ some (.DerivedTable d))
    (halias : aliasTarget name qp.SelectExprs = some ex) :
    qp.GetSimplifiedExpr (.ColName name "") semTable = .ok (.ColName name "", some ex) := by
  unfold QueryProjection.GetSimplifiedExpr
  simp only [sqlparser.IsNull, Bool.false_eq_true, if_false, hlook]
  have h1 : (if err == some semantics.ErrMultipleTables then none else err) = none := by
    rcases herr with h | h <;> simp [h]
  simp only [h1]
  have h2 : simplifyByAlias (.ColName name "") name qp.SelectExprs
      = (.ColName name "", some ex) := by
    rw [simplifyByAlias_eq, halias]; rfl
  cases tblInfo with
  | none => simp [h2]
  | some t =>
    cases t with
    | RealTable i => simp [h2]
    | DerivedTable d => exact absurd rfl (hnd d)

/-- Witness of C15: for `select foo as bar, weightstring(foo) from music order by bar`
the sort key of the order key `bar` is `foo`. -/
theorem GetSimplifiedExpr_alias_witness :
    plainSemTable.TableInfoForExpr (.ColName "bar" "") = (some (.RealTable 0), none) ∧
    aliasTarget "bar" aliasOrderProjection.SelectExprs = some (.ColName "foo" "") ∧
    aliasOrderProjection.GetSimplifiedExpr (.ColName "bar" "") plainSemTable
      = .ok (.ColName "bar" "", some (.ColName "foo" "")) ∧
    CreateQPFromSelect aliasOrderSelect plainSemTable = .ok aliasOrderProjection ∧
    aliasOrderProjection.OrderExprs.map (fun o => o.WeightStrExpr)
      = [some (.ColName "foo" "")] :=
  ⟨rfl, by decide,
    GetSimplifiedExpr_alias aliasOrderProjection plainSemTable "bar" (some (.RealTable 0)) none
      (.ColName "foo" "") rfl (Or.inl rfl) (by intro d hd; cases hd) (by decide),
    by rfl, by decide⟩

/-- Evaluation for C16: for the NULL literal `GetSimplifiedExpr` returns the NULL
literal itself as sort key, not an absent one: a NULL literal is not a column
reference, so the function returns before its test for NULL. -/
theorem GetSimplifiedExpr_null (qp : QueryProjection) (semTable : semantics.SemTable) :
    qp.GetSimplifiedExpr .NullVal semTable = .ok (.NullVal, some .NullVal) ∧
    qp.GetSimplifiedExpr .NullVal semTable ≠ .ok (.NullVal, none) := by
  refine ⟨rfl, ?_⟩
  intro h
  have : qp.GetSimplifiedExpr .NullVal semTable = .ok (.NullVal, some .NullVal) := rfl
  rw [this] at h
  cases h

theorem orderKeyOf_congr (qp qp2 : QueryProjection) (semTable : semantics.SemTable)
    (order : sqlparser.Order) (h : qp.SelectExprs = qp2.SelectExprs) :
    orderKeyOf qp semTable order = orderKeyOf qp2 semTable order := by
  unfold orderKeyOf
  rw [GetSimplifiedExpr_congr qp qp2 _ _ h]

/-- What a successful ORDER BY loop computes. -/
theorem addOrderByLoop_spec (semTable : semantics.SemTable) :
    ∀ (orders : List sqlparser.Order) (qp qp2 : QueryProjection) (c c2 : Bool),
      addOrderByLoop semTable orders qp c = .ok (qp2, c2) →
      qp2 = { qp with OrderExprs := qp.OrderExprs ++ orders.filterMap (orderKeyOf qp semTable) } ∧
      c2 = (c && (orders.filterMap (orderKeyOf qp semTable)).all
        (fun o => !sqlparser.ContainsAggregation o.WeightStrExpr)) ∧
      ∀ order ∈ orders, ∃ w, qp.GetSimplifiedExpr order.Expr semTable = .ok (order.Expr, w) := by
  intro orders
  induction orders with
  | nil =>
    intro qp qp2 c c2 h
    simp only [addOrderByLoop, Except.ok.injEq, Prod.mk.injEq] at h
    obtain ⟨h1, h2⟩ := h
    subst h1; subst h2
    simp
  | cons order orders ih =>
    intro qp qp2 c c2 h
    unfold addOrderByLoop at h
    cases hs : qp.GetSimplifiedExpr order.Expr semTable with
    | error err => rw [hs] at h; cases h
    | ok r =>
      obtain ⟨expr, w⟩ := r
      rw [hs] at h
      have hexpr : expr = order.Expr := (GetSimplifiedExpr_ok _ _ _ _ _ hs).1
      subst hexpr
      by_cases hn : sqlparser.IsNull w = true
      · simp only [hn, if_true] at h
        obtain ⟨i1, i2, i3⟩ := ih _ _ _ _ h
        have hk : orderKeyOf qp semTable order = none := by simp [orderKeyOf, hs, hn]
        refine ⟨?_, ?_, ?_⟩
        · rw [i1, List.filterMap_cons, hk]
        · rw [i2, List.filterMap_cons, hk]
        · intro o ho
          rw [List.mem_cons] at ho
          rcases ho with ho | ho
          · subst ho; exact ⟨w, hs⟩
          · exact i3 o ho
      · simp only [hn, Bool.false_eq_true, if_false] at h
        obtain ⟨i1, i2, i3⟩ := ih _ _ _ _ h
        have hk : orderKeyOf qp semTable order
            = some { Inner := { Expr := order.Expr, Direction := order.Direction },
                     WeightStrExpr := w } := by
          simp [orderKeyOf, hs, hn]
        have hcongr : ∀ (q : QueryProjection), q.SelectExprs = qp.SelectExprs →
            orders.filterMap (orderKeyOf q semTable)
              = orders.filterMap (orderKeyOf qp semTable) := by
          intro q hq
          congr 1
          funext o
          exact orderKeyOf_congr _ _ _ _ hq
        have hc2 := hcongr
          { qp with
            OrderExprs := qp.OrderExprs ++
              [{ Inner := { Expr := order.Expr, Direction := order.Direction },
                 WeightStrExpr := w }] } rfl
        rw [hc2] at i1 i2
        refine ⟨?_, ?_, ?_⟩
        · rw [i1, List.filterMap_cons, hk]
          simp
        · rw [i2, List.filterMap_cons, hk]
          simp [Bool.and_assoc]
        · intro o ho
          rw [List.mem_cons] at ho
          rcases ho with ho | ho
          · subst ho; exact ⟨w, hs⟩
          · obtain ⟨w2, hw2⟩ := i3 o ho
            exact ⟨w2, by rw [← hw2]; exact GetSimplifiedExpr_congr _ _ _ _ rfl⟩

/-- What a successful `addOrderBy` computes. -/
theorem addOrderBy_eq (semTable : semantics.SemTable) (orders : List sqlparser.Order)
    (qp qp2 : QueryProjection) (h : qp.addOrderBy orders semTable = .ok qp2) :
    qp2 = { qp with
            OrderExprs := qp.OrderExprs ++ orders.filterMap (orderKeyOf qp semTable)
            CanPushDownSorting := (orders.filterMap (orderKeyOf qp semTable)).all
              (fun o => !sqlparser.ContainsAggregation o.WeightStrExpr) } ∧
    ∀ order ∈ orders, ∃ w, qp.GetSimplifiedExpr order.Expr semTable = .ok (order.Expr, w) := by
  unfold QueryProjection.addOrderBy at h
  cases hl : addOrderByLoop semTable orders qp true with
  | error err => rw [hl] at h; cases h
  | ok r =>
    obtain ⟨qp3, c⟩ := r
    rw [hl] at h
    simp only [Except.ok.injEq] at h
    obtain ⟨i1, i2, i3⟩ := addOrderByLoop_spec semTable orders qp qp3 true c hl
    refine ⟨?_, i3⟩
    rw [← h, i1, i2]
    simp

/-- C17: for an ORDER BY list on which resolution succeeds, `addOrderBy` appends to
`OrderExprs` exactly the items whose resolved sort-key expression is not the NULL
literal, in their original relative order, each with the direction the user gave, the
original expression as display expression and the resolved sort key; an `ORDER BY
NULL` item contributes no order key. -/
theorem addOrderBy_keeps_non_null (qp qp2 : QueryProjection)
    (orders : List sqlparser.Order) (semTable : semantics.SemTable)
    (h : qp.addOrderBy orders semTable = .ok qp2) :
    qp2.OrderExprs = qp.OrderExprs ++ orders.filterMap (orderKeyOf qp semTable) ∧
    (∀ order ∈ orders, ∃ w,
      qp.GetSimplifiedExpr order.Expr semTable = .ok (order.Expr, w) ∧
      orderKeyOf qp semTable order =
        if sqlparser.IsNull w then none
        else some { Inner := { Expr := order.Expr, Direction := order.Direction },
                    WeightStrExpr := w }) ∧
    (∀ order ∈ orders, order.Expr = .NullVal → orderKeyOf qp semTable order = none) := by
  obtain ⟨h1, h2⟩ := addOrderBy_eq semTable orders qp qp2 h
  refine ⟨by rw [h1], ?_, ?_⟩
  · intro order ho
    obtain ⟨w, hw⟩ := h2 order ho
    exact ⟨w, hw, by simp [orderKeyOf, hw]⟩
  · intro order _ hnull
    simp [orderKeyOf, hnull, QueryProjection.GetSimplifiedExpr, sqlparser.IsNull]

/-- Witness of C17: `order by a desc, null, count(*)` leaves the keys `a desc` and
`count(*) asc`. -/
theorem addOrderBy_keeps_non_null_witness :
    QueryProjection.zero.addOrderBy mixedOrderBy plainSemTable
      = .ok { QueryProjection.zero with
              OrderExprs := [columnOrder "a" .DescOrder, aggregationOrder countStar .AscOrder] } ∧
    mixedOrderBy.filterMap (orderKeyOf QueryProjection.zero plainSemTable)
      = [columnOrder "a" .DescOrder, aggregationOrder countStar .AscOrder] :=
  ⟨by rfl,
    ((List.nil_append _).symm.trans
      (addOrderBy_keeps_non_null QueryProjection.zero _ mixedOrderBy plainSemTable
        (by rfl)).1.symm).trans (by rfl)⟩

/-- C18: for a projection built successfully by `CreateQPFromSelect` or
`CreateQPFromUnion`, `CanPushDownSorting` is true if and only if no order key in
`OrderExprs` has a sort-key expression that contains an aggregation; in particular it
is true when there is no order key. -/
theorem CanPushDownSorting_iff (qp : QueryProjection)
    (h : (∃ sel semTable, CreateQPFromSelect sel semTable = .ok qp) ∨
      (∃ union semTable, CreateQPFromUnion union semTable = .ok qp)) :
    (qp.CanPushDownSorting = true ↔
      ∀ o ∈ qp.OrderExprs, sqlparser.ContainsAggregation o.WeightStrExpr = false) ∧
    (qp.OrderExprs = [] → qp.CanPushDownSorting = true) := by
  have key : qp.CanPushDownSorting
      = qp.OrderExprs.all (fun o => !sqlparser.ContainsAggregation o.WeightStrExpr) := by
    rcases h with ⟨sel, semTable, h⟩ | ⟨union, semTable, h⟩
    · obtain ⟨qp1, qp2, qp3, qp4, hsel, hgrp, hord, hval, hq⟩ :=
        CreateQPFromSelect_stages sel semTable qp h
      obtain ⟨e1, _⟩ := addOrderBy_eq semTable _ _ _ hord
      have hO2 : qp2.OrderExprs = [] := by
        obtain ⟨_, _, _, _, _, a6, _, _⟩ := addSelectExpressionsLoop_ok _ _ _ hsel
        obtain ⟨bg, hqg, _, _⟩ := addGroupByLoop_ok semTable _ _ _ hgrp
        rw [hqg]; exact a6
      obtain ⟨_, _, _, _, v5, v6, _⟩ := validateGrouping_ok qp3 qp4 hval
      have h3 : qp3.CanPushDownSorting
          = qp3.OrderExprs.all (fun o => !sqlparser.ContainsAggregation o.WeightStrExpr) := by
        rw [e1, hO2]; rfl
      rcases hq with hq | hq
      · rw [hq, v5, v6]; exact h3
      · rw [hq]; show qp4.CanPushDownSorting = qp4.OrderExprs.all _
        rw [v5, v6]; exact h3
    · unfold CreateQPFromUnion at h
      cases h1 : QueryProjection.zero.addSelectExpressions
          (sqlparser.GetFirstSelect union.toStatement) with
      | error err => rw [h1] at h; cases h
      | ok qp1 =>
        rw [h1] at h
        cases h2 : qp1.addOrderBy union.OrderBy semTable with
        | error err => simp only [h2] at h; cases h
        | ok qp2 =>
          simp only [h2, Except.ok.injEq] at h
          subst h
          obtain ⟨e1, _⟩ := addOrderBy_eq semTable _ _ _ h2
          have hO1 : qp1.OrderExprs = [] := by
            obtain ⟨_, _, _, _, _, a6, _, _⟩ := addSelectExpressionsLoop_ok _ _ _ h1
            exact a6
          rw [e1, hO1]; rfl
  refine ⟨?_, ?_⟩
  · rw [key, List.all_eq_true]
    constructor
    · intro hall o ho
      simpa using hall o ho
    · intro hall o ho
      simpa using hall o ho
  · intro hempty
    rw [key, hempty]; rfl

/-- Witness of C18: the projection of the union ordered by `a desc, null, count(*)`
cannot push its sorting down, its second order key `count(*)` being an aggregation. -/
theorem CanPushDownSorting_iff_witness :
    CreateQPFromUnion sampleUnion plainSemTable = .ok sampleUnionProjection ∧
    (sampleUnionProjection.CanPushDownSorting = true ↔
      ∀ o ∈ sampleUnionProjection.OrderExprs,
        sqlparser.ContainsAggregation o.WeightStrExpr = false) ∧
    sampleUnionProjection.CanPushDownSorting = false :=
  ⟨by rfl,
    (CanPushDownSorting_iff sampleUnionProjection
      (Or.inr ⟨sampleUnion, plainSemTable, by rfl⟩)).1,
    rfl⟩

end abstract

/-! ## The select list -/

namespace abstract

/-- C19: for a select list on which `addSelectExpressions` succeeds (on a projection
without select items yet, as both constructors call it), `SelectExprs` has one entry
per select-list item in the same order, a star item is never flagged aggregate, an
aliased item is flagged aggregate exactly when its expression contains an aggregation,
`HasAggr` is true if and only if some entry is flagged aggregate, and `HasStar` is true
if and only if some item is a star. -/
theorem addSelectExpressions_spec (qp qp2 : QueryProjection) (sel : sqlparser.Select)
    (hfresh : qp.SelectExprs = [] ∧ qp.HasAggr = false ∧ qp.HasStar = false)
    (h : qp.addSelectExpressions sel = .ok qp2) :
    qp2.SelectExprs.map (fun s => s.Col) = sel.SelectExprs ∧
    (∀ s ∈ qp2.SelectExprs, ∀ t, s.Col = .StarExpr t → s.Aggr = false) ∧
    (∀ s ∈ qp2.SelectExprs, ∀ e a, s.Col = .AliasedExpr e a →
      s.Aggr = sqlparser.ContainsAggregation (some e)) ∧
    (qp2.HasAggr = true ↔ ∃ s ∈ qp2.SelectExprs, s.Aggr = true) ∧
    (qp2.HasStar = true ↔ ∃ i ∈ sel.SelectExprs, ∃ t, i = .StarExpr t) := by
  obtain ⟨a1, a2, a3, _⟩ := addSelectExpressionsLoop_ok _ _ _ h
  obtain ⟨f1, f2, f3⟩ := hfresh
  rw [f1, List.nil_append] at a1
  rw [f2, Bool.false_or] at a2
  rw [f3, Bool.false_or] at a3
  refine ⟨?_, ?_, ?_, ?_, ?_⟩
  · rw [a1, List.map_map]
    have : ((fun s : SelectExpr => s.Col) ∘ classify) = id := by
      funext i; rfl
    rw [this, List.map_id]
  · intro s hs t ht
    rw [a1, List.mem_map] at hs
    obtain ⟨i, _, rfl⟩ := hs
    have hi : i = .StarExpr t := ht
    subst hi
    rfl
  · intro s hs e a he
    rw [a1, List.mem_map] at hs
    obtain ⟨i, _, rfl⟩ := hs
    have hi : i = .AliasedExpr e a := he
    subst hi
    rfl
  · rw [a2, a1, List.any_eq_true]
    constructor
    · rintro ⟨i, hi, hagg⟩
      exact ⟨classify i, List.mem_map_of_mem _ hi, hagg⟩
    · rintro ⟨s, hs, hagg⟩
      rw [List.mem_map] at hs
      obtain ⟨i, hi, rfl⟩ := hs
      exact ⟨i, hi, hagg⟩
  · rw [a3, List.any_eq_true]
    constructor
    · rintro ⟨i, hi, hstar⟩
      cases i with
      | StarExpr t => exact ⟨_, hi, t, rfl⟩
      | AliasedExpr e a => simp at hstar
      | Nextval e => simp at hstar
    · rintro ⟨i, hi, t, rfl⟩
      exact ⟨_, hi, rfl⟩

/-- Witness of C19: `select *, a, sum(b) + 1 from t` gives three entries, of which only
the last is flagged aggregate. -/
theorem addSelectExpressions_spec_witness :
    QueryProjection.zero.addSelectExpressions starSelect
      = .ok { QueryProjection.zero with
              SelectExprs := starSelect.SelectExprs.map classify
              HasAggr := true
              HasStar := true } ∧
    (starSelect.SelectExprs.map classify).map (fun s => s.Aggr) = [false, false, true] ∧
    (starSelect.SelectExprs.map classify).map (fun s => s.Col) = starSelect.SelectExprs :=
  ⟨by rfl, by decide,
    (addSelectExpressions_spec QueryProjection.zero _ starSelect ⟨rfl, rfl, rfl⟩ (by rfl)).1⟩

/-- An error of `checkForInvalidAggregations` is the error of an aggregate call among
the nodes that does not have exactly one argument. -/
theorem checkForInvalidAggregations_some (e : sqlparser.Expr) (a : String)
    (err : vterrors.Error) (h : checkForInvalidAggregations (e, a) = some err) :
    ∃ n d es, sqlparser.SQLNode.expr (.FuncExpr n d es) ∈ e.nodes ∧
      sqlparser.IsAggregateName n = true ∧ es.len ≠ 1 ∧
      err = singleArgumentError (.FuncExpr n d es) := by
  rw [checkForInvalidAggregations_eq] at h
  obtain ⟨x, hx, hfx⟩ := List.exists_of_findSome?_eq_some h
  unfold invalidAggregationVisit at hfx
  split at hfx
  · rename_i n d es
    split at hfx
    · rename_i hc
      simp only [Bool.and_eq_true, bne_iff_ne, ne_eq] at hc
      simp only [Option.some.injEq] at hfx
      exact ⟨n, d, es, hx, hc.1, hc.2, hfx.symm⟩
    · cases hfx
  · cases hfx

/-- `checkForInvalidAggregations` fails when some aggregate call among the nodes does
not have exactly one argument. -/
theorem checkForInvalidAggregations_of_invalid (e : sqlparser.Expr) (a : String)
    (n : String) (d : Bool) (es : sqlparser.SelectExprs)
    (hmem : sqlparser.SQLNode.expr (.FuncExpr n d es) ∈ e.nodes)
    (hagg : sqlparser.IsAggregateName n = true) (hlen : es.len ≠ 1) :
    ∃ err, checkForInvalidAggregations (e, a) = some err := by
  have : (checkForInvalidAggregations (e, a)).isSome = true := by
    rw [checkForInvalidAggregations_eq, List.findSome?_isSome_iff]
    refine ⟨_, hmem, ?_⟩
    simp [invalidAggregationVisit, hagg, hlen]
  exact Option.isSome_iff_exists.mp this

/-- The select-list loop fails on a list with an invalid aggregate call, and with the
single-argument error when no item before it is of an unknown kind. -/
theorem addSelectExpressionsLoop_invalid (e : sqlparser.Expr) (a : String)
    (err0 : vterrors.Error) (hc : checkForInvalidAggregations (e, a) = some err0) :
    ∀ (items : List sqlparser.SelectExpr) (qp : QueryProjection),
      sqlparser.SelectExpr.AliasedExpr e a ∈ items →
      (∃ err, addSelectExpressionsLoop items qp = .error err) ∧
      ((∀ i ∈ items, ∀ x, i ≠ .Nextval x) →
        ∃ n d es, sqlparser.IsAggregateName n = true ∧ es.len ≠ 1 ∧
          addSelectExpressionsLoop items qp
            = .error (singleArgumentError (.FuncExpr n d es))) := by
  intro items
  induction items with
  | nil => intro qp hmem; cases hmem
  | cons item items ih =>
    intro qp hmem
    cases item with
    | Nextval x =>
      refine ⟨⟨_, rfl⟩, ?_⟩
      intro hno
      exact absurd rfl (hno _ (List.mem_cons_self _ _) x)
    | StarExpr t =>
      have hmem2 : sqlparser.SelectExpr.AliasedExpr e a ∈ items := by
        rw [List.mem_cons] at hmem
        rcases hmem with hmem | hmem
        · cases hmem
        · exact hmem
      obtain ⟨i1, i2⟩ := ih _ hmem2
      simp only [addSelectExpressionsLoop]
      exact ⟨i1, fun hno => i2 (fun i hi => hno i (List.mem_cons_of_mem _ hi))⟩
    | AliasedExpr e2 a2 =>
      simp only [addSelectExpressionsLoop]
      cases hc2 : checkForInvalidAggregations (e2, a2) with
      | some err2 =>
        obtain ⟨n, d, es, _, h1, h2, h3⟩ := checkForInvalidAggregations_some e2 a2 err2 hc2
        exact ⟨⟨err2, rfl⟩, fun _ => ⟨n, d, es, h1, h2, by rw [h3]⟩⟩
      | none =>
        have hmem2 : sqlparser.SelectExpr.AliasedExpr e a ∈ items := by
          rw [List.mem_cons] at hmem
          rcases hmem with hmem | hmem
          · simp only [sqlparser.SelectExpr.AliasedExpr.injEq] at hmem
            have : checkForInvalidAggregations (e, a) = checkForInvalidAggregations (e2, a2) := by
              rw [hmem.1]; rfl
            rw [this, hc2] at hc; cases hc
          · exact hmem
        simp only
        split
        · obtain ⟨i1, i2⟩ := ih _ hmem2
          exact ⟨i1, fun hno => i2 (fun i hi => hno i (List.mem_cons_of_mem _ hi))⟩
        · obtain ⟨i1, i2⟩ := ih _ hmem2
          exact ⟨i1, fun hno => i2 (fun i hi => hno i (List.mem_cons_of_mem _ hi))⟩

theorem CreateQPFromSelect_select_error (sel : sqlparser.Select)
    (semTable : semantics.SemTable) (err : vterrors.Error)
    (hsel : (initialProjection sel).addSelectExpressions sel = .error err) :
    CreateQPFromSelect sel semTable = .error err := by
  unfold CreateQPFromSelect
  unfold initialProjection at hsel
  rw [hsel]

theorem CreateQPFromUnion_select_error (union : sqlparser.Union)
    (semTable : semantics.SemTable) (err : vterrors.Error)
    (hsel : QueryProjection.zero.addSelectExpressions
      (sqlparser.GetFirstSelect union.toStatement) = .error err) :
    CreateQPFromUnion union semTable = .error err := by
  unfold CreateQPFromUnion
  rw [hsel]

/-- C20: for a SELECT, and for a UNION through its first SELECT, whose select list
contains an aliased expression in which some aggregate function call, at any depth,
has a number of arguments different from 1, `CreateQPFromSelect` (`CreateQPFromUnion`)
returns an error and no projection, and the error is "aggregate functions take a
single argument" when the select list holds only stars and aliased expressions;
conversely `checkForInvalidAggregations` returns no error when every aggregate
function call in the expression has exactly one argument. -/
theorem CreateQP_invalid_aggregation (items : List sqlparser.SelectExpr)
    (e : sqlparser.Expr) (a : String) (n : String) (d : Bool) (es : sqlparser.SelectExprs)
    (hitem : sqlparser.SelectExpr.AliasedExpr e a ∈ items)
    (hnode : sqlparser.SQLNode.expr (.FuncExpr n d es) ∈ e.nodes)
    (hagg : sqlparser.IsAggregateName n = true) (hlen : es.len ≠ 1) :
    (∀ (sel : sqlparser.Select) (semTable : semantics.SemTable), sel.SelectExprs = items →
      (∃ err, CreateQPFromSelect sel semTable = .error err) ∧
      ((∀ i ∈ items, ∀ x, i ≠ .Nextval x) →
        ∃ n2 d2 es2, sqlparser.IsAggregateName n2 = true ∧ es2.len ≠ 1 ∧
          CreateQPFromSelect sel semTable
            = .error (singleArgumentError (.FuncExpr n2 d2 es2)))) ∧
    (∀ (union : sqlparser.Union) (semTable : semantics.SemTable),
      (sqlparser.GetFirstSelect union.toStatement).SelectExprs = items →
      (∃ err, CreateQPFromUnion union semTable = .error err) ∧
      ((∀ i ∈ items, ∀ x, i ≠ .Nextval x) →
        ∃ n2 d2 es2, sqlparser.IsAggregateName n2 = true ∧ es2.len ≠ 1 ∧
          CreateQPFromUnion union semTable
            = .error (singleArgumentError (.FuncExpr n2 d2 es2)))) ∧
    (∀ f : sqlparser.Expr,
      (singleArgumentError f).code = vtrpcpb.Code.INVALID_ARGUMENT ∧
      (singleArgumentError f).msg
        = "aggregate functions take a single argument '" ++ f.render ++ "'") ∧
    (∀ (e2 : sqlparser.Expr) (a2 : String),
      (∀ n2 d2 es2, sqlparser.SQLNode.expr (.FuncExpr n2 d2 es2) ∈ e2.nodes →
        sqlparser.IsAggregateName n2 = true → es2.len = 1) →
      checkForInvalidAggregations (e2, a2) = none) := by
  obtain ⟨err0, hc⟩ := checkForInvalidAggregations_of_invalid e a n d es hnode hagg hlen
  refine ⟨?_, ?_, fun f => ⟨rfl, rfl⟩, ?_⟩
  · intro sel semTable hs
    obtain ⟨⟨err, h1⟩, h2⟩ :=
      addSelectExpressionsLoop_invalid e a err0 hc items (initialProjection sel) hitem
    have h1s : (initialProjection sel).addSelectExpressions sel = .error err := by
      unfold QueryProjection.addSelectExpressions; rw [hs]; exact h1
    refine ⟨⟨err, CreateQPFromSelect_select_error sel semTable err h1s⟩, ?_⟩
    intro hno
    obtain ⟨n2, d2, es2, g1, g2, g3⟩ := h2 hno
    refine ⟨n2, d2, es2, g1, g2, CreateQPFromSelect_select_error sel semTable _ ?_⟩
    unfold QueryProjection.addSelectExpressions; rw [hs]; exact g3
  · intro union semTable hs
    obtain ⟨⟨err, h1⟩, h2⟩ :=
      addSelectExpressionsLoop_invalid e a err0 hc items QueryProjection.zero hitem
    have h1s : QueryProjection.zero.addSelectExpressions
        (sqlparser.GetFirstSelect union.toStatement) = .error err := by
      unfold QueryProjection.addSelectExpressions; rw [hs]; exact h1
    refine ⟨⟨err, CreateQPFromUnion_select_error union semTable err h1s⟩, ?_⟩
    intro hno
    obtain ⟨n2, d2, es2, g1, g2, g3⟩ := h2 hno
    refine ⟨n2, d2, es2, g1, g2, CreateQPFromUnion_select_error union semTable _ ?_⟩
    unfold QueryProjection.addSelectExpressions; rw [hs]; exact g3
  · intro e2 a2 hall
    cases hx : checkForInvalidAggregations (e2, a2) with
    | none => rfl
    | some err =>
      obtain ⟨n2, d2, es2, hm, g1, g2, _⟩ := checkForInvalidAggregations_some e2 a2 err hx
      exact absurd (hall n2 d2 es2 hm g1) g2

/-- Witness of C20: `select a, b, count(a, b) from t group by a`, alone and as the first
SELECT of a union, is refused with "aggregate functions take a single argument
'count(a, b)'", and `count(*)` passes the check. -/
theorem CreateQP_invalid_aggregation_witness :
    sqlparser.SelectExpr.AliasedExpr countAB "" ∈ twoArgumentSelect.SelectExprs ∧
    sqlparser.SQLNode.expr countAB ∈ countAB.nodes ∧
    sqlparser.IsAggregateName "count" = true ∧
    (∃ err, CreateQPFromSelect twoArgumentSelect plainSemTable = .error err) ∧
    CreateQPFromSelect twoArgumentSelect plainSemTable = .error (singleArgumentError countAB) ∧
    CreateQPFromUnion twoArgumentUnion plainSemTable = .error (singleArgumentError countAB) ∧
    checkForInvalidAggregations (countStar, "") = none :=
  ⟨by decide, by decide, by decide,
    ((CreateQP_invalid_aggregation twoArgumentSelect.SelectExprs countAB "" "count" false
      (.cons (columnItem "a") (.cons (columnItem "b") .nil)) (by decide) (by decide) (by decide)
      (by decide)).1 twoArgumentSelect plainSemTable rfl).1,
    by rfl, by rfl, by rfl⟩

end abstract

/-! ## Aggregate extraction -/

namespace abstract

/-- A successful loop of `AggregationExpressions` only appends entries, one for each
select item that contains an aggregation, in order, each recording its item. -/
theorem aggregationExpressionsLoop_spec
    (SA : String → Option engine.AggregateOpcode) :
    ∀ (items : List SelectExpr) (idx : Nat) (out res : List Aggr),
      aggregationExpressionsLoop SA idx items out = .ok res →
      ∃ added, res = out ++ added ∧
        List.Forall₂ (Aggr.Records SA) added (aggregateItemsFrom idx items) := by
  intro items
  induction items with
  | nil =>
    intro idx out res h
    simp only [aggregationExpressionsLoop, Except.ok.injEq] at h
    exact ⟨[], by simp [h], List.Forall₂.nil⟩
  | cons s rest ih =>
    intro idx out res h
    obtain ⟨col, aggr⟩ := s
    unfold aggregationExpressionsLoop at h
    by_cases hc : col.containsAggregation = true
    · simp only [hc, Bool.not_true, Bool.false_eq_true, if_false] at h
      cases col with
      | StarExpr t => simp [sqlparser.SelectExpr.containsAggregation] at hc
      | Nextval e => simp [SelectExpr.GetAliasedExpr] at h
      | AliasedExpr e a =>
        simp only [SelectExpr.GetAliasedExpr] at h
        cases e with
        | FuncExpr name distinct exprs =>
          simp only at h
          cases hs : SA (sqlparser.Lowered name) with
          | none => simp [hs] at h
          | some opcode =>
            simp only [hs] at h
            obtain ⟨added, hres, hf⟩ := ih _ _ _ h
            refine ⟨{ Original := (.FuncExpr name distinct exprs, a),
                      Func := .FuncExpr name distinct exprs,
                      OpCode := distinctOpcode distinct opcode,
                      Alias := aggrAlias (.FuncExpr name distinct exprs, a),
                      Index := some (idx : Int), Distinct := distinct } :: added,
              by rw [hres]; simp, ?_⟩
            have hitems : aggregateItemsFrom idx
                ({ Col := .AliasedExpr (.FuncExpr name distinct exprs) a, Aggr := aggr } :: rest) =
                (idx, { Col := .AliasedExpr (.FuncExpr name distinct exprs) a, Aggr := aggr }) ::
                  aggregateItemsFrom (idx + 1) rest := by
              simp [aggregateItemsFrom, List.enumFrom_cons, List.filter_cons, hc]
            rw [hitems]
            refine List.Forall₂.cons ?_ hf
            exact ⟨rfl, rfl, rfl, rfl, name, distinct, exprs, opcode, rfl, hs, rfl, rfl⟩
        | ColName n q => simp at h
        | NullVal => simp at h
        | Literal v => simp at h
        | Argument v => simp at h
        | BinaryExpr o l r => simp at h
        | GroupConcatExpr d es sep => simp at h
        | Subquery sq => simp at h
    · have hc2 : col.containsAggregation = false := by simpa using hc
      simp only [hc2, Bool.not_false, if_true] at h
      obtain ⟨added, hres, hf⟩ := ih _ _ _ h
      refine ⟨added, hres, ?_⟩
      have hitems : aggregateItemsFrom idx ({ Col := col, Aggr := aggr } :: rest) =
          aggregateItemsFrom (idx + 1) rest := by
        simp [aggregateItemsFrom, List.enumFrom_cons, List.filter_cons, hc2]
      rw [hitems]
      exact hf

end abstract

namespace abstract

/-- The loop of `AggregationExpressions` fails at the first refused select item, with
the error of that item, when no item is a `NEXT VALUE`. -/
theorem aggregationExpressionsLoop_error
    (SA : String → Option engine.AggregateOpcode) :
    ∀ (items : List SelectExpr) (idx : Nat) (out : List Aggr) (s : SelectExpr),
      (∀ x ∈ items, ∀ e, x.Col ≠ .Nextval e) →
      items.find? (offending SA) = some s →
      aggregationExpressionsLoop SA idx items out = .error (offenceError s) := by
  intro items
  induction items with
  | nil => intro idx out s _ h; simp at h
  | cons x rest ih =>
    intro idx out s hN h
    obtain ⟨col, aggr⟩ := x
    have hN2 : ∀ x ∈ rest, ∀ e, x.Col ≠ .Nextval e := fun x hx => hN x (List.mem_cons_of_mem _ hx)
    unfold aggregationExpressionsLoop
    by_cases hc : col.containsAggregation = true
    · simp only [hc, Bool.not_true, Bool.false_eq_true, if_false]
      cases col with
      | StarExpr t => simp [sqlparser.SelectExpr.containsAggregation] at hc
      | Nextval e => exact absurd rfl (hN _ (List.mem_cons_self _ _) e)
      | AliasedExpr e a =>
        simp only [SelectExpr.GetAliasedExpr]
        cases e with
        | FuncExpr name distinct exprs =>
          simp only
          cases hs : SA (sqlparser.Lowered name) with
          | none =>
            have ho : offending SA { Col := .AliasedExpr (.FuncExpr name distinct exprs) a,
                                     Aggr := aggr } = true := by
              simp [offending, topFunctionName, hc, hs]
            rw [List.find?_cons_of_pos _ ho] at h
            simp only [Option.some.injEq] at h
            subst h
            simp [offenceError, topFunctionName]
          | some opcode =>
            have ho : offending SA { Col := .AliasedExpr (.FuncExpr name distinct exprs) a,
                                     Aggr := aggr } = false := by
              simp [offending, topFunctionName, hc, hs]
            rw [List.find?_cons_of_neg _ (by simp [ho])] at h
            simp only
            exact ih _ _ s hN2 h
        | ColName n q =>
          have ho : offending SA { Col := .AliasedExpr (.ColName n q) a, Aggr := aggr } = true := by
            simp [offending, topFunctionName, hc]
          rw [List.find?_cons_of_pos _ ho] at h
          simp only [Option.some.injEq] at h
          subst h
          simp [offenceError, topFunctionName]
        | NullVal =>
          have ho : offending SA { Col := .AliasedExpr .NullVal a, Aggr := aggr } = true := by
            simp [offending, topFunctionName, hc]
          rw [List.find?_cons_of_pos _ ho] at h
          simp only [Option.some.injEq] at h
          subst h
          simp [offenceError, topFunctionName]
        | Literal v =>
          have ho : offending SA { Col := .AliasedExpr (.Literal v) a, Aggr := aggr } = true := by
            simp [offending, topFunctionName, hc]
          rw [List.find?_cons_of_pos _ ho] at h
          simp only [Option.some.injEq] at h
          subst h
          simp [offenceError, topFunctionName]
        | Argument v =>
          have ho : offending SA { Col := .AliasedExpr (.Argument v) a, Aggr := aggr } = true := by
            simp [offending, topFunctionName, hc]
          rw [List.find?_cons_of_pos _ ho] at h
          simp only [Option.some.injEq] at h
          subst h
          simp [offenceError, topFunctionName]
        | BinaryExpr o l r =>
          have ho : offending SA { Col := .AliasedExpr (.BinaryExpr o l r) a, Aggr := aggr } = true := by
            simp [offending, topFunctionName, hc]
          rw [List.find?_cons_of_pos _ ho] at h
          simp only [Option.some.injEq] at h
          subst h
          simp [offenceError, topFunctionName]
        | GroupConcatExpr d es sep =>
          have ho : offending SA { Col := .AliasedExpr (.GroupConcatExpr d es sep) a,
                                   Aggr := aggr } = true := by
            simp [offending, topFunctionName, hc]
          rw [List.find?_cons_of_pos _ ho] at h
          simp only [Option.some.injEq] at h
          subst h
          simp [offenceError, topFunctionName]
        | Subquery sq =>
          have ho : offending SA { Col := .AliasedExpr (.Subquery sq) a, Aggr := aggr } = true := by
            simp [offending, topFunctionName, hc]
          rw [List.find?_cons_of_pos _ ho] at h
          simp only [Option.some.injEq] at h
          subst h
          simp [offenceError, topFunctionName]
    · have hc2 : col.containsAggregation = false := by simpa using hc
      have ho : offending SA { Col := col, Aggr := aggr } = false := by
        simp [offending, hc2]
      rw [List.find?_cons_of_neg _ (by simp [ho])] at h
      simp only [hc2, Bool.not_false, if_true]
      exact ih _ _ s hN2 h

/-- The loop of `AggregationExpressions` succeeds when no select item is refused. -/
theorem aggregationExpressionsLoop_success
    (SA : String → Option engine.AggregateOpcode) :
    ∀ (items : List SelectExpr) (idx : Nat) (out : List Aggr),
      (∀ x ∈ items, offending SA x = false) →
      ∃ res, aggregationExpressionsLoop SA idx items out = .ok res := by
  intro items
  induction items with
  | nil => intro idx out _; exact ⟨out, rfl⟩
  | cons x rest ih =>
    intro idx out h
    obtain ⟨col, aggr⟩ := x
    have hx := h _ (List.mem_cons_self _ _)
    have hrest : ∀ x ∈ rest, offending SA x = false := fun x hx => h x (List.mem_cons_of_mem _ hx)
    unfold aggregationExpressionsLoop
    by_cases hc : col.containsAggregation = true
    · simp only [hc, Bool.not_true, Bool.false_eq_true, if_false]
      cases col with
      | StarExpr t => simp [sqlparser.SelectExpr.containsAggregation] at hc
      | Nextval e => simp [offending, topFunctionName, hc] at hx
      | AliasedExpr e a =>
        simp only [SelectExpr.GetAliasedExpr]
        cases e with
        | FuncExpr name distinct exprs =>
          simp only
          cases hs : SA (sqlparser.Lowered name) with
          | none => simp [offending, topFunctionName, hc, hs] at hx
          | some opcode => simp only; exact ih _ _ hrest
        | ColName n q => simp [offending, topFunctionName, hc] at hx
        | NullVal => simp [offending, topFunctionName, hc] at hx
        | Literal v => simp [offending, topFunctionName, hc] at hx
        | Argument v => simp [offending, topFunctionName, hc] at hx
        | BinaryExpr o l r => simp [offending, topFunctionName, hc] at hx
        | GroupConcatExpr d es sep => simp [offending, topFunctionName, hc] at hx
        | Subquery sq => simp [offending, topFunctionName, hc] at hx
    · have hc2 : col.containsAggregation = false := by simpa using hc
      simp only [hc2, Bool.not_false, if_true]
      exact ih _ _ hrest

/-- A successful `addSelectExpressions` loop has met no `NEXT VALUE` item. -/
theorem addSelectExpressionsLoop_aliased :
    ∀ (items : List sqlparser.SelectExpr) (qp qp2 : QueryProjection),
      addSelectExpressionsLoop items qp = .ok qp2 →
      ∀ i ∈ items, ∀ e, i ≠ .Nextval e := by
  intro items
  induction items with
  | nil => intro qp qp2 _ i hi; cases hi
  | cons item items ih =>
    intro qp qp2 h i hi e
    cases item with
    | StarExpr t =>
      simp only [addSelectExpressionsLoop] at h
      rcases List.mem_cons.1 hi with rfl | hi
      · intro hh; cases hh
      · exact ih _ _ h i hi e
    | AliasedExpr ex a =>
      simp only [addSelectExpressionsLoop] at h
      rcases List.mem_cons.1 hi with rfl | hi
      · intro hh; cases hh
      · cases hc : checkForInvalidAggregations (ex, a) with
        | some err => rw [hc] at h; cases h
        | none =>
          simp only [hc] at h
          split at h
          · exact ih _ _ h i hi e
          · exact ih _ _ h i hi e
    | Nextval ex =>
      simp only [addSelectExpressionsLoop] at h
      cases h

/-- The select list of a projection built by `CreateQPFromSelect`: the classified
items of the statement, none of them a `NEXT VALUE`. -/
theorem CreateQPFromSelect_select_list (sel : sqlparser.Select) (semTable : semantics.SemTable)
    (qp : QueryProjection) (h : CreateQPFromSelect sel semTable = .ok qp) :
    qp.SelectExprs = sel.SelectExprs.map classify ∧
    (∀ x ∈ qp.SelectExprs, ∀ e, x.Col ≠ .Nextval e) ∧
    (∀ x ∈ qp.SelectExprs, x.Aggr = x.Col.containsAggregation) := by
  obtain ⟨qp1, qp2, qp3, qp4, hsel, hgrp, hord, hval, hq⟩ :=
    CreateQPFromSelect_stages sel semTable qp h
  obtain ⟨_, f2, _⟩ := stages_facts sel semTable qp1 qp2 qp3 hsel hgrp hord
  obtain ⟨v1, _⟩ := validateGrouping_ok qp3 qp4 hval
  have hS : qp.SelectExprs = sel.SelectExprs.map classify := by
    rcases hq with rfl | rfl
    · rw [v1, f2]
    · show qp4.SelectExprs = _
      rw [v1, f2]
  have hN := addSelectExpressionsLoop_aliased _ _ _ hsel
  refine ⟨hS, ?_, ?_⟩
  · intro x hx e
    rw [hS, List.mem_map] at hx
    obtain ⟨i, hi, rfl⟩ := hx
    exact hN i hi e
  · intro x hx
    rw [hS, List.mem_map] at hx
    obtain ⟨i, hi, rfl⟩ := hx
    rfl

end abstract

namespace abstract


theorem forall2_mem_left {α β : Type} {R : α → β → Prop} :
    ∀ {l1 : List α} {l2 : List β}, List.Forall₂ R l1 l2 → ∀ a ∈ l1, ∃ b ∈ l2, R a b := by
  intro l1 l2 h
  induction h with
  | nil => intro a ha; cases ha
  | cons hab _ ih =>
    intro a ha
    rw [List.mem_cons] at ha
    rcases ha with ha | ha
    · subst ha; exact ⟨_, List.mem_cons_self _ _, hab⟩
    · obtain ⟨b, hb, hr⟩ := ih a ha
      exact ⟨b, List.mem_cons_of_mem _ hb, hr⟩

/-- A refused select item, in words. -/
theorem offending_iff (SA : String → Option engine.AggregateOpcode) (s : SelectExpr) :
    offending SA s = true ↔
      s.Col.containsAggregation = true ∧
        (topFunctionName s = none ∨
          ∃ name, topFunctionName s = some name ∧ SA (sqlparser.Lowered name) = none) := by
  unfold offending
  cases ht : topFunctionName s with
  | none => simp
  | some name => simp

/-- The error of a refused select item, in words. -/
theorem offenceError_cases (s : SelectExpr) :
    (offenceError s).code = vtrpcpb.Code.UNIMPLEMENTED ∧
    ((topFunctionName s = none ∧ offenceError s = complexAggregateError) ∨
      ∃ name, topFunctionName s = some name ∧
        offenceError s = unsupportedAggregationError (sqlparser.Lowered name)) := by
  unfold offenceError
  cases ht : topFunctionName s with
  | none => exact ⟨rfl, Or.inl ⟨rfl, rfl⟩⟩
  | some name => exact ⟨rfl, Or.inr ⟨name, rfl, rfl⟩⟩

/-- C21: on a projection built by `CreateQPFromSelect`, `AggregationExpressions` fails,
returning no list, exactly when some select item that contains an aggregation either
is not itself a function call or calls a function whose lower-cased name is not a key
of the opcode table; the error is unimplemented, "complex aggregate expression" for an
item of the first kind and the error naming the lower-cased function for one of the
second kind. Otherwise it succeeds. -/
theorem AggregationExpressions_fails_iff (sel : sqlparser.Select)
    (semTable : semantics.SemTable) (qp : QueryProjection)
    (SupportedAggregates : String → Option engine.AggregateOpcode)
    (h : CreateQPFromSelect sel semTable = .ok qp) :
    ((∃ err, qp.AggregationExpressions SupportedAggregates = .error err) ↔
      ∃ s ∈ qp.SelectExprs, s.Col.containsAggregation = true ∧
        (topFunctionName s = none ∨
          ∃ name, topFunctionName s = some name ∧
            SupportedAggregates (sqlparser.Lowered name) = none)) ∧
    (∀ err, qp.AggregationExpressions SupportedAggregates = .error err →
      err.code = vtrpcpb.Code.UNIMPLEMENTED ∧
      ∃ s ∈ qp.SelectExprs, s.Col.containsAggregation = true ∧
        ((topFunctionName s = none ∧ err = complexAggregateError) ∨
          ∃ name, topFunctionName s = some name ∧
            SupportedAggregates (sqlparser.Lowered name) = none ∧
            err = unsupportedAggregationError (sqlparser.Lowered name))) ∧
    ((∃ out, qp.AggregationExpressions SupportedAggregates = .ok out) ↔
      ∀ s ∈ qp.SelectExprs, s.Col.containsAggregation = true →
        ∃ name opcode, topFunctionName s = some name ∧
          SupportedAggregates (sqlparser.Lowered name) = some opcode) := by
  obtain ⟨_, hN, _⟩ := CreateQPFromSelect_select_list sel semTable qp h
  cases hf : qp.SelectExprs.find? (offending SupportedAggregates) with
  | some s =>
    have herr : qp.AggregationExpressions SupportedAggregates = .error (offenceError s) :=
      aggregationExpressionsLoop_error SupportedAggregates _ 0 [] s hN hf
    have hmem := List.mem_of_find?_eq_some hf
    have hoff := (offending_iff SupportedAggregates s).1 (List.find?_some hf)
    obtain ⟨hcode, hcases⟩ := offenceError_cases s
    refine ⟨⟨fun _ => ⟨s, hmem, hoff⟩, fun _ => ⟨_, herr⟩⟩, ?_, ?_⟩
    · intro err he
      rw [herr] at he
      simp only [Except.error.injEq] at he
      subst he
      refine ⟨hcode, s, hmem, hoff.1, ?_⟩
      rcases hcases with hc | ⟨name, hn, he⟩
      · exact Or.inl hc
      · refine Or.inr ⟨name, hn, ?_, he⟩
        rcases hoff.2 with h0 | ⟨name2, hn2, hs2⟩
        · rw [h0] at hn; cases hn
        · rw [hn] at hn2
          simp only [Option.some.injEq] at hn2
          subst hn2
          exact hs2
    · constructor
      · rintro ⟨out, ho⟩
        rw [herr] at ho
        cases ho
      · intro hall
        obtain ⟨name, opcode, hn, hs⟩ := hall s hmem hoff.1
        rcases hoff.2 with h0 | ⟨name2, hn2, hs2⟩
        · rw [h0] at hn; cases hn
        · rw [hn] at hn2
          simp only [Option.some.injEq] at hn2
          subst hn2
          rw [hs] at hs2
          cases hs2
  | none =>
    have hall : ∀ x ∈ qp.SelectExprs, offending SupportedAggregates x = false := by
      intro x hx
      have := List.find?_eq_none.1 hf x hx
      simpa using this
    obtain ⟨res, hres⟩ := aggregationExpressionsLoop_success SupportedAggregates _ 0 [] hall
    have hok : qp.AggregationExpressions SupportedAggregates = .ok res := hres
    refine ⟨⟨?_, ?_⟩, ?_, ⟨fun _ => ?_, fun _ => ⟨res, hok⟩⟩⟩
    · rintro ⟨err, he⟩
      rw [hok] at he
      cases he
    · rintro ⟨s, hs, hoff⟩
      have h1 := (offending_iff SupportedAggregates s).2 hoff
      rw [hall s hs] at h1
      cases h1
    · intro err he
      rw [hok] at he
      cases he
    · intro s hs hc
      have h1 := hall s hs
      unfold offending at h1
      rw [hc, Bool.true_and] at h1
      cases ht : topFunctionName s with
      | none => rw [ht] at h1; cases h1
      | some name =>
        rw [ht] at h1
        cases hsa : SupportedAggregates (sqlparser.Lowered name) with
        | none => simp [hsa] at h1
        | some opcode => exact ⟨name, opcode, rfl, hsa⟩

/-- Witness of C21: `select sum(a) + sum(b), avg(c) from t` is refused for its first
item, and `select a, COUNT(*), sum(distinct b) as total, min(distinct c) from t group
by a` is accepted. -/
theorem AggregationExpressions_fails_iff_witness :
    CreateQPFromSelect complexAggregateSelect plainSemTable = .ok complexAggregateProjection ∧
    complexAggregateProjection.AggregationExpressions sampleAggregates =
      .error complexAggregateError ∧
    (∃ err, complexAggregateProjection.AggregationExpressions sampleAggregates = .error err) ∧
    aggregatesProjection.AggregationExpressions sampleAggregates = .ok aggregatesList ∧
    (∀ s ∈ aggregatesProjection.SelectExprs, s.Col.containsAggregation = true →
      ∃ name opcode, topFunctionName s = some name ∧
        sampleAggregates (sqlparser.Lowered name) = some opcode) :=
  ⟨by rfl, by rfl,
   (AggregationExpressions_fails_iff complexAggregateSelect plainSemTable
      complexAggregateProjection sampleAggregates (by rfl)).1.2
      ⟨{ Col := .AliasedExpr (.BinaryExpr "+" (columnCall "sum" false "a")
          (columnCall "sum" false "b")) "", Aggr := true },
        by decide, by decide, Or.inl (by decide)⟩,
   by rfl,
   (AggregationExpressions_fails_iff aggregatesSelect plainSemTable aggregatesProjection
      sampleAggregates (by rfl)).2.2.1 ⟨aggregatesList, by rfl⟩⟩

end abstract

namespace abstract

/-- C22: for every `Aggr` returned by `AggregationExpressions`, the function call it
records has its lower-cased name in the opcode table, `Distinct` is the DISTINCT flag
of the call, and `OpCode` is the opcode of the table, except that for a DISTINCT call
the COUNT opcode is replaced by COUNT_DISTINCT and the SUM opcode by SUM_DISTINCT;
every other opcode is kept with DISTINCT, and every opcode is kept without it. -/
theorem AggregationExpressions_opcode (qp : QueryProjection)
    (SupportedAggregates : String → Option engine.AggregateOpcode) (out : List Aggr)
    (h : qp.AggregationExpressions SupportedAggregates = .ok out) :
    ∀ a ∈ out, ∃ name distinct exprs opcode,
      a.Func = .FuncExpr name distinct exprs ∧
      SupportedAggregates (sqlparser.Lowered name) = some opcode ∧
      a.Distinct = distinct ∧
      (distinct = true → opcode = .AggregateCount → a.OpCode = .AggregateCountDistinct) ∧
      (distinct = true → opcode = .AggregateSum → a.OpCode = .AggregateSumDistinct) ∧
      (distinct = true → opcode ≠ .AggregateCount → opcode ≠ .AggregateSum →
        a.OpCode = opcode) ∧
      (distinct = false → a.OpCode = opcode) := by
  intro a ha
  obtain ⟨added, hres, hf⟩ := aggregationExpressionsLoop_spec SupportedAggregates _ 0 [] out h
  rw [List.nil_append] at hres
  subst hres
  obtain ⟨p, _, hr⟩ := forall2_mem_left hf a ha
  obtain ⟨_, _, hfunc, _, name, distinct, exprs, opcode, horig, hs, hop, hd⟩ := hr
  refine ⟨name, distinct, exprs, opcode, by rw [hfunc, horig], hs, hd, ?_, ?_, ?_, ?_⟩
  · intro h1 h2
    rw [hop, h1, h2]
    rfl
  · intro h1 h2
    rw [hop, h1, h2]
    rfl
  · intro h1 h2 h3
    rw [hop, h1]
    cases opcode <;> first | rfl | exact absurd rfl h2 | exact absurd rfl h3
  · intro h1
    rw [hop, h1]
    rfl

/-- Witness of C22: `select a, COUNT(*), sum(distinct b) as total, min(distinct c) from
t group by a` gives COUNT, SUM_DISTINCT and MIN, the last two DISTINCT. -/
theorem AggregationExpressions_opcode_witness :
    aggregatesProjection.AggregationExpressions sampleAggregates = .ok aggregatesList ∧
    aggregatesList.map (fun a => (a.OpCode, a.Distinct)) =
      [(.AggregateCount, false), (.AggregateSumDistinct, true), (.AggregateMin, true)] ∧
    ∀ a ∈ aggregatesList, ∃ name distinct exprs opcode,
      a.Func = .FuncExpr name distinct exprs ∧
      sampleAggregates (sqlparser.Lowered name) = some opcode ∧
      a.Distinct = distinct ∧
      (distinct = true → opcode = .AggregateCount → a.OpCode = .AggregateCountDistinct) ∧
      (distinct = true → opcode = .AggregateSum → a.OpCode = .AggregateSumDistinct) ∧
      (distinct = true → opcode ≠ .AggregateCount → opcode ≠ .AggregateSum →
        a.OpCode = opcode) ∧
      (distinct = false → a.OpCode = opcode) :=
  ⟨by rfl, by rfl,
   AggregationExpressions_opcode aggregatesProjection sampleAggregates aggregatesList (by rfl)⟩

/-- The positions in an enumeration increase. -/
theorem enumFrom_pairwise {α : Type} :
    ∀ (l : List α) (n : Nat), (l.enumFrom n).Pairwise (fun p q => p.1 < q.1) := by
  intro l
  induction l with
  | nil => intro n; exact List.Pairwise.nil
  | cons x l ih =>
    intro n
    rw [List.enumFrom_cons]
    refine List.Pairwise.cons ?_ (ih (n + 1))
    intro q hq
    have := List.le_fst_of_mem_enumFrom hq
    show n < q.1
    omega

/-- A pairwise relation carried along a pointwise relation of two lists. -/
theorem pairwise_of_forall2 {α β : Type} {R : α → β → Prop} {S : β → β → Prop}
    {T : α → α → Prop} (hT : ∀ a b p q, R a p → R b q → S p q → T a b) :
    ∀ {l1 : List α} {l2 : List β}, List.Forall₂ R l1 l2 → l2.Pairwise S → l1.Pairwise T := by
  intro l1 l2 h
  induction h with
  | nil => intro _; exact List.Pairwise.nil
  | cons hab hrest ih =>
    intro hp
    rw [List.pairwise_cons] at hp
    refine List.Pairwise.cons ?_ (ih hp.2)
    intro b hb
    obtain ⟨q, hq, hr⟩ := forall2_mem_left hrest b hb
    exact hT _ _ _ _ hab hr (hp.1 q hq)

/-- C23: for a projection built by `CreateQPFromSelect` on which
`AggregationExpressions` succeeds, the result has exactly one `Aggr` per select item
flagged aggregate, in select-list order; each has a present `Index` equal to the
position of its item, its `Original` is the item, and its `Alias` is the AS alias when
there is one and otherwise the text of the expression. So the indices are strictly
increasing and the list is sorted under the comparator of `Aggrs`. -/
theorem AggregationExpressions_indexed (sel : sqlparser.Select)
    (semTable : semantics.SemTable) (qp : QueryProjection)
    (SupportedAggregates : String → Option engine.AggregateOpcode) (out : List Aggr)
    (h : CreateQPFromSelect sel semTable = .ok qp)
    (ha : qp.AggregationExpressions SupportedAggregates = .ok out) :
    List.Forall₂
      (fun a p => a.Index = some (p.1 : Int) ∧
        p.2.Col = .AliasedExpr a.Original.1 a.Original.2 ∧
        a.Alias = (if a.Original.2 = "" then a.Original.1.render else a.Original.2))
      out (qp.SelectExprs.enum.filter (fun p => p.2.Aggr)) ∧
    out.Pairwise (fun x y => ∃ i j : Int, x.Index = some i ∧ y.Index = some j ∧ i < j) ∧
    out.Pairwise (fun x y => Aggrs.Less x y = true) ∧
    out.Pairwise (fun x y => Aggrs.Less y x = false) := by
  obtain ⟨_, _, hA⟩ := CreateQPFromSelect_select_list sel semTable qp h
  obtain ⟨added, hres, hf⟩ := aggregationExpressionsLoop_spec SupportedAggregates _ 0 [] out ha
  rw [List.nil_append] at hres
  subst hres
  have hitems : aggregateItemsFrom 0 qp.SelectExprs =
      qp.SelectExprs.enum.filter (fun p => p.2.Aggr) := by
    unfold aggregateItemsFrom List.enum
    apply List.filter_congr
    intro p hp
    have hm : p.2 ∈ qp.SelectExprs := by
      have := List.mem_map_of_mem Prod.snd hp
      rwa [List.enumFrom_map_snd] at this
    rw [hA p.2 hm]
  rw [hitems] at hf
  have hinc : (qp.SelectExprs.enum.filter (fun p => p.2.Aggr)).Pairwise
      (fun p q => p.1 < q.1) :=
    (enumFrom_pairwise qp.SelectExprs 0).sublist (List.filter_sublist _)
  have hlt : out.Pairwise
      (fun x y => ∃ i j : Int, x.Index = some i ∧ y.Index = some j ∧ i < j) := by
    refine pairwise_of_forall2 ?_ hf hinc
    intro a b p q hap hbq hpq
    exact ⟨p.1, q.1, hap.1, hbq.1, by exact_mod_cast hpq⟩
  refine ⟨hf.imp ?_, hlt, hlt.imp ?_, hlt.imp ?_⟩
  · intro a p hr
    refine ⟨hr.1, hr.2.1, ?_⟩
    rw [hr.2.2.2.1]
    unfold aggrAlias
    by_cases he : a.Original.2 = "" <;> simp [he]
  · rintro x y ⟨i, j, hx, hy, hij⟩
    simp [Aggrs.Less, CompareRefInt, hx, hy, hij]
  · rintro x y ⟨i, j, hx, hy, hij⟩
    simp only [Aggrs.Less, CompareRefInt, hx, hy, decide_eq_false_iff_not]
    omega

/-- Witness of C23: `select a, COUNT(*), sum(distinct b) as total, min(distinct c) from
t group by a` gives the aggregates of items 1, 2 and 3 with the aliases `COUNT(*)`,
`total` and `min(distinct c)`. -/
theorem AggregationExpressions_indexed_witness :
    CreateQPFromSelect aggregatesSelect plainSemTable = .ok aggregatesProjection ∧
    aggregatesProjection.AggregationExpressions sampleAggregates = .ok aggregatesList ∧
    aggregatesList.map (fun a => (a.Index, a.Alias)) =
      [(some 1, "COUNT(*)"), (some 2, "total"), (some 3, "min(distinct c)")] ∧
    aggregatesList.Pairwise (fun x y => Aggrs.Less y x = false) :=
  ⟨by rfl, by rfl, by rfl,
   (AggregationExpressions_indexed aggregatesSelect plainSemTable aggregatesProjection
      sampleAggregates aggregatesList (by rfl) (by rfl)).2.2.2⟩

end abstract

/-! ## Output columns of grouping keys -/

namespace abstract


/-- The test of `matchesItem`, in words. -/
theorem matchesItem_iff (e : sqlparser.Expr) (s : SelectExpr) :
    matchesItem e s = true ↔
      ∃ ex a, s.Col = .AliasedExpr ex a ∧
        (ex = e ∨ ∃ name qualifier, e = .ColName name qualifier ∧ a ≠ "" ∧
          sqlparser.ColIdentEqual name a = true) := by
  unfold matchesItem
  cases hcol : s.Col with
  | StarExpr t => simp
  | Nextval x => simp
  | AliasedExpr ex a =>
    have heq : sqlparser.EqualsExpr (some ex) (some e) = true ↔ ex = e := by
      rw [sqlparser.EqualsExpr_iff]; simp
    simp only [Bool.or_eq_true, heq]
    constructor
    · intro h
      refine ⟨ex, a, rfl, ?_⟩
      rcases h with h | h
      · exact Or.inl h
      · cases e <;> first | exact absurd h Bool.false_ne_true | skip
        rename_i name qualifier
        refine Or.inr ⟨name, qualifier, rfl, ?_⟩
        simpa using h
    · rintro ⟨ex2, a2, hc, h⟩
      cases hc
      rcases h with h | ⟨name, qualifier, he, ha, hn⟩
      · exact Or.inl h
      · subst he
        exact Or.inr (by simp [ha, hn])

theorem ite_or {α : Type} (c1 c2 : Bool) (A B : α) :
    (if c1 = true then A else if c2 = true then A else B) =
      if (c2 || c1) = true then A else B := by
  cases c1 <;> cases c2 <;> rfl

/-- One step of the loop of `FindSelectExprIndexForExpr`. -/
theorem findSelectExprIndexLoop_cons (e : sqlparser.Expr) (idx : Nat) (x : SelectExpr)
    (rest : List SelectExpr) :
    findSelectExprIndexLoop e idx (x :: rest) =
      if matchesItem e x then
        match x.Col with
        | .AliasedExpr ex a => (some (idx : Int), some (ex, a))
        | _ => (none, none)
      else findSelectExprIndexLoop e (idx + 1) rest := by
  rw [findSelectExprIndexLoop]
  unfold matchesItem
  cases hcol : x.Col with
  | StarExpr t => simp
  | Nextval y => simp
  | AliasedExpr ex a =>
    exact ite_or _ _ _ _

/-- The loop of `FindSelectExprIndexForExpr` finds nothing when no item answers. -/
theorem findSelectExprIndexLoop_none (e : sqlparser.Expr) :
    ∀ (items : List SelectExpr) (idx : Nat),
      (∀ x ∈ items, matchesItem e x = false) →
      findSelectExprIndexLoop e idx items = (none, none) := by
  intro items
  induction items with
  | nil => intro idx _; rfl
  | cons x rest ih =>
    intro idx h
    rw [findSelectExprIndexLoop_cons, h x (List.mem_cons_self _ _)]
    exact ih _ (fun y hy => h y (List.mem_cons_of_mem _ hy))

/-- The loop of `FindSelectExprIndexForExpr` stops at the first item that answers. -/
theorem findSelectExprIndexLoop_some (e : sqlparser.Expr) (x : SelectExpr)
    (post : List SelectExpr) (hx : matchesItem e x = true) :
    ∀ (pre : List SelectExpr) (idx : Nat),
      (∀ y ∈ pre, matchesItem e y = false) →
      ∃ ex a, x.Col = .AliasedExpr ex a ∧
        findSelectExprIndexLoop e idx (pre ++ x :: post) =
          (some ((idx + pre.length : Nat) : Int), some (ex, a)) := by
  intro pre
  induction pre with
  | nil =>
    intro idx _
    obtain ⟨ex, a, hcol, _⟩ := (matchesItem_iff e x).1 hx
    refine ⟨ex, a, hcol, ?_⟩
    rw [List.nil_append, findSelectExprIndexLoop_cons, hx, hcol]
    simp
  | cons y pre ih =>
    intro idx h
    obtain ⟨ex, a, hcol, hl⟩ := ih (idx + 1) (fun z hz => h z (List.mem_cons_of_mem _ hz))
    refine ⟨ex, a, hcol, ?_⟩
    rw [List.cons_append, findSelectExprIndexLoop_cons, h y (List.mem_cons_self _ _)]
    simp only [Bool.false_eq_true, if_false]
    rw [hl]
    simp only [List.length_cons]
    congr 3
    omega

/-- C24: `FindSelectExprIndexForExpr(e)` returns a present index exactly when some
select item answers for `e`: an aliased item whose expression is structurally equal
to `e` or, when `e` is a column reference, whose non-empty alias equals the name of
the column. The index is then the smallest position of such an item and the aliased
expression returned is the item at that position, so never a star; without an index
no aliased expression is returned. Consequently the grouping keys that
`CreateQPFromSelect` keeps have `InnerIndex` set exactly when an item of the select
list answers for their GROUP BY expression. -/
theorem FindSelectExprIndexForExpr_spec (qp : QueryProjection) (e : sqlparser.Expr) :
    (∀ s, matchesItem e s = true ↔
      ∃ ex a, s.Col = .AliasedExpr ex a ∧
        (ex = e ∨ ∃ name qualifier, e = .ColName name qualifier ∧ a ≠ "" ∧
          sqlparser.ColIdentEqual name a = true)) ∧
    ((∃ i, (qp.FindSelectExprIndexForExpr e).1 = some i) ↔
      ∃ s ∈ qp.SelectExprs, matchesItem e s = true) ∧
    (∀ i, (qp.FindSelectExprIndexForExpr e).1 = some i →
      ∃ (n : Nat) (ex : sqlparser.Expr) (a : String), i = (n : Int) ∧
        (∃ s, qp.SelectExprs[n]? = some s ∧ s.Col = .AliasedExpr ex a ∧
          matchesItem e s = true) ∧
        (∀ m s, m < n → qp.SelectExprs[m]? = some s → matchesItem e s = false) ∧
        (qp.FindSelectExprIndexForExpr e).2 = some (ex, a)) ∧
    ((qp.FindSelectExprIndexForExpr e).1 = none →
      (qp.FindSelectExprIndexForExpr e).2 = none) ∧
    (∀ sel semTable, CreateQPFromSelect sel semTable = .ok qp →
      qp.groupByExprs = [] ∨
      List.Forall₂
        (fun group g =>
          g.InnerIndex = (qp.FindSelectExprIndexForExpr group).1 ∧
          (g.InnerIndex.isSome = true ↔ ∃ s ∈ qp.SelectExprs, matchesItem group s = true))
        sel.GroupBy qp.groupByExprs) := by
  have key : ∀ (q : QueryProjection) (e : sqlparser.Expr),
      ((∃ i, (q.FindSelectExprIndexForExpr e).1 = some i) ↔
        ∃ s ∈ q.SelectExprs, matchesItem e s = true) ∧
      (∀ i, (q.FindSelectExprIndexForExpr e).1 = some i →
        ∃ (n : Nat) (ex : sqlparser.Expr) (a : String), i = (n : Int) ∧
          (∃ s, q.SelectExprs[n]? = some s ∧ s.Col = .AliasedExpr ex a ∧
            matchesItem e s = true) ∧
          (∀ m s, m < n → q.SelectExprs[m]? = some s → matchesItem e s = false) ∧
          (q.FindSelectExprIndexForExpr e).2 = some (ex, a)) ∧
      ((q.FindSelectExprIndexForExpr e).1 = none →
        (q.FindSelectExprIndexForExpr e).2 = none) := by
    intro q e
    unfold QueryProjection.FindSelectExprIndexForExpr
    cases hf : q.SelectExprs.find? (matchesItem e) with
    | none =>
      have hall : ∀ x ∈ q.SelectExprs, matchesItem e x = false := by
        intro x hx
        have := List.find?_eq_none.1 hf x hx
        simpa using this
      rw [findSelectExprIndexLoop_none e _ 0 hall]
      refine ⟨⟨?_, ?_⟩, ?_, fun _ => rfl⟩
      · rintro ⟨i, hi⟩; cases hi
      · rintro ⟨s, hs, hm⟩
        rw [hall s hs] at hm
        cases hm
      · intro i hi; cases hi
    | some x =>
      obtain ⟨hx, pre, post, hsplit, hpre⟩ := List.find?_eq_some.1 hf
      have hpre2 : ∀ y ∈ pre, matchesItem e y = false := by
        intro y hy
        have := hpre y hy
        simpa using this
      obtain ⟨ex, a, hcol, hl⟩ := findSelectExprIndexLoop_some e x post hx pre 0 hpre2
      rw [hsplit, hl]
      refine ⟨⟨fun _ => ⟨x, by simp, hx⟩, fun _ => ⟨_, rfl⟩⟩, ?_, ?_⟩
      · intro i hi
        simp only [Option.some.injEq] at hi
        have hget : (pre ++ x :: post)[pre.length]? = some x := by
          rw [List.getElem?_append_right (Nat.le_refl _)]
          simp
        refine ⟨pre.length, ex, a, by rw [← hi]; simp, ⟨x, hget, hcol, hx⟩, ?_, rfl⟩
        intro m s hm hs
        rw [List.getElem?_append_left hm] at hs
        exact hpre2 s (List.getElem?_mem hs)
      · intro hn; cases hn
  refine ⟨matchesItem_iff e, (key qp e).1, (key qp e).2.1, (key qp e).2.2, ?_⟩
  intro sel semTable h
  obtain ⟨qp1, qp2, qp3, qp4, hsel, hgrp, hord, hval, hq⟩ :=
    CreateQPFromSelect_stages sel semTable qp h
  obtain ⟨f1, f2, _, _, _, _, f7⟩ := stages_facts sel semTable qp1 qp2 qp3 hsel hgrp hord
  obtain ⟨v1, _, _, v4, _⟩ := validateGrouping_ok qp3 qp4 hval
  rcases hq with rfl | rfl
  · right
    rw [v4]
    refine f7.imp ?_
    intro group g hg
    have hS : qp1.SelectExprs = qp.SelectExprs := by rw [f1, v1, f2]
    have hfind : qp1.FindSelectExprIndexForExpr group = qp.FindSelectExprIndexForExpr group :=
      FindSelectExprIndexForExpr_congr _ _ _ hS
    have hidx : g.InnerIndex = (qp.FindSelectExprIndexForExpr group).1 := by
      rw [← hfind, ← hg.2.2]
    refine ⟨hidx, ?_⟩
    rw [← (key qp group).1, hidx, Option.isSome_iff_exists]
  · exact Or.inl rfl

/-- Witness of C24: in `select *, a + 1, B as x, count(*) from t group by x, a + 1, c`
the key `x` is found by its alias at position 2, the key `a + 1` by its expression at
position 1, and the key `c` is not found. -/
theorem FindSelectExprIndexForExpr_spec_witness :
    CreateQPFromSelect indexedGroupSelect plainSemTable = .ok indexedGroupProjection ∧
    indexedGroupProjection.groupByExprs.map (fun g => g.InnerIndex) = [some 2, some 1, none] ∧
    indexedGroupProjection.FindSelectExprIndexForExpr (.ColName "x" "") =
      (some 2, some (.ColName "B" "", "x")) ∧
    (indexedGroupProjection.groupByExprs = [] ∨
      List.Forall₂
        (fun group g =>
          g.InnerIndex = (indexedGroupProjection.FindSelectExprIndexForExpr group).1 ∧
          (g.InnerIndex.isSome = true ↔
            ∃ s ∈ indexedGroupProjection.SelectExprs, matchesItem group s = true))
        indexedGroupSelect.GroupBy indexedGroupProjection.groupByExprs) :=
  ⟨by rfl, by rfl, by rfl,
   (FindSelectExprIndexForExpr_spec indexedGroupProjection (.ColName "x" "")).2.2.2.2
      indexedGroupSelect plainSemTable (by rfl)⟩

end abstract

/-! ## The comparator of output indices -/

namespace abstract

/-- C25: `CompareRefInt(a, b)` is true exactly when `a` is present and either `b` is
absent or the value of `a` is strictly less than that of `b`: an absent index is
greater than every present one, and two absent indices are not less than each other.
So the comparison is irreflexive, asymmetric and transitive, and being incomparable
under it is transitive: a strict weak ordering. -/
theorem CompareRefInt_strict_weak_order :
    (∀ a b : Option Int, CompareRefInt a b = true ↔
      ∃ x, a = some x ∧ (b = none ∨ ∃ y, b = some y ∧ x < y)) ∧
    (∀ x : Int, CompareRefInt (some x) none = true ∧ CompareRefInt none (some x) = false) ∧
    CompareRefInt none none = false ∧
    (∀ a : Option Int, CompareRefInt a a = false) ∧
    (∀ a b : Option Int, CompareRefInt a b = true → CompareRefInt b a = false) ∧
    (∀ a b c : Option Int, CompareRefInt a b = true → CompareRefInt b c = true →
      CompareRefInt a c = true) ∧
    (∀ a b c : Option Int, CompareRefInt a b = false → CompareRefInt b a = false →
      CompareRefInt b c = false → CompareRefInt c b = false →
      CompareRefInt a c = false ∧ CompareRefInt c a = false) := by
  refine ⟨?_, ?_, rfl, ?_, ?_, ?_, ?_⟩
  · intro a b
    cases a <;> cases b <;> simp [CompareRefInt]
  · intro x
    exact ⟨rfl, rfl⟩
  · intro a
    cases a <;> simp [CompareRefInt]
  · intro a b
    cases a <;> cases b <;> simp [CompareRefInt]
    intro h; omega
  · intro a b c
    cases a <;> cases b <;> cases c <;> simp [CompareRefInt]
    intro h1 h2; omega
  · intro a b c
    cases a <;> cases b <;> cases c <;> simp [CompareRefInt]
    intro h1 h2 h3 h4; omega

/-- Witness of C25: index 0 is less than index 2, which is less than the absent index,
so index 0 is less than the absent index. -/
theorem CompareRefInt_strict_weak_order_witness :
    CompareRefInt (some 0) (some 2) = true ∧ CompareRefInt (some 2) none = true ∧
    CompareRefInt (some 0) none = true ∧ CompareRefInt none (some 0) = false :=
  ⟨by decide, by decide,
   CompareRefInt_strict_weak_order.2.2.2.2.2.1 (some 0) (some 2) none (by decide) (by decide),
   CompareRefInt_strict_weak_order.2.2.2.2.1 (some 0) none (by decide)⟩

/-- C26: `CompareRefInt` at a nil reference and a present one: the nil reference is
not the smaller one, `CompareRefInt(nil, b)` is false and `CompareRefInt(b, nil)` is
true for every present `b`. -/
theorem CompareRefInt_nil (b : Int) :
    CompareRefInt none (some b) = false ∧ CompareRefInt (some b) none = true :=
  ⟨rfl, rfl⟩

end abstract

/-! ## The fake health check -/

namespace discovery

/-- The loop of `GetHealthyTabletStats` keeps, in order, the entries that pass. -/
theorem GetHealthyTabletStats_foldl (target : Option Target) :
    ∀ (items : List (String × fhcItem)) (result : List TabletHealth),
      items.foldl
        (fun result item =>
          if protoEqual item.2.ts.Target target && item.2.ts.Serving &&
              decide (item.2.ts.LastError = none) then
            result ++ [item.2.ts]
          else result)
        result = result ++ (items.filter (passes target)).map (fun item => item.2.ts) := by
  intro items
  induction items with
  | nil => intro result; simp
  | cons item items ih =>
    intro result
    rw [List.foldl_cons, ih]
    have hp : (protoEqual item.2.ts.Target target && item.2.ts.Serving &&
        decide (item.2.ts.LastError = none)) = passes target item := by
      unfold passes protoEqual
      cases item.2.ts.LastError <;> simp
    rw [hp]
    cases hpass : passes target item <;> simp [hpass]

/-- C27: `GetHealthyTabletStats(target)` returns, one entry for each and in the order
of the loop, the registered items whose target equals `target`, that are serving and
whose `LastError` is nil: an item with a last error is not returned. In the sample
health check only tablet `a` is returned, not the serving tablet `b` that has a last
error. -/
theorem GetHealthyTabletStats_last_error_nil :
    (∀ (fhc : FakeHealthCheck) (target : Option Target),
      fhc.GetHealthyTabletStats target =
        (fhc.items.filter (passes target)).map (fun item => item.2.ts)) ∧
    (∀ (fhc : FakeHealthCheck) (target : Option Target),
      ∀ t ∈ fhc.GetHealthyTabletStats target,
        t.Target = target ∧ t.Serving = true ∧ t.LastError = none) ∧
    sampleHealthCheck.GetHealthyTabletStats (some replicaTarget) = [replica "a" true none] ∧
    ("b", { ts := replica "b" true (some noConnection) }) ∈ sampleHealthCheck.items ∧
    replica "b" true (some noConnection) ∉
      sampleHealthCheck.GetHealthyTabletStats (some replicaTarget) := by
  have hfilter : ∀ (fhc : FakeHealthCheck) (target : Option Target),
      fhc.GetHealthyTabletStats target =
        (fhc.items.filter (passes target)).map (fun item => item.2.ts) := by
    intro fhc target
    unfold FakeHealthCheck.GetHealthyTabletStats
    rw [GetHealthyTabletStats_foldl]
    simp
  refine ⟨hfilter, ?_, by rfl, by decide, by decide⟩
  intro fhc target t ht
  rw [hfilter, List.mem_map] at ht
  obtain ⟨item, hitem, rfl⟩ := ht
  have hp := (List.mem_filter.1 hitem).2
  unfold passes at hp
  simp only [Bool.and_eq_true, decide_eq_true_eq, Option.isNone_iff_eq_none] at hp
  exact ⟨hp.1.1, hp.1.2, hp.2⟩

end discovery

/-! ## Grouping keys as select items -/

namespace abstract

/-- The sort key `GetSimplifiedExpr` gives an expression that is not a column
reference is the expression itself. -/
theorem GetSimplifiedExpr_column_or_same (qp : QueryProjection) (e : sqlparser.Expr)
    (semTable : semantics.SemTable) (expr : sqlparser.Expr) (w : Option sqlparser.Expr)
    (h : qp.GetSimplifiedExpr e semTable = .ok (expr, w)) :
    (∃ name qualifier, expr = .ColName name qualifier) ∨ w = some expr := by
  cases e with
  | ColName name qualifier =>
    exact Or.inl ⟨name, qualifier, (GetSimplifiedExpr_ok qp _ semTable expr w h).1⟩
  | NullVal =>
    simp only [QueryProjection.GetSimplifiedExpr, Except.ok.injEq, Prod.mk.injEq] at h
    exact Or.inr (by rw [← h.1, ← h.2])
  | Literal v =>
    simp only [QueryProjection.GetSimplifiedExpr, Except.ok.injEq, Prod.mk.injEq] at h
    exact Or.inr (by rw [← h.1, ← h.2])
  | Argument v =>
    simp only [QueryProjection.GetSimplifiedExpr, Except.ok.injEq, Prod.mk.injEq] at h
    exact Or.inr (by rw [← h.1, ← h.2])
  | BinaryExpr o l r =>
    simp only [QueryProjection.GetSimplifiedExpr, Except.ok.injEq, Prod.mk.injEq] at h
    exact Or.inr (by rw [← h.1, ← h.2])
  | FuncExpr n d es =>
    simp only [QueryProjection.GetSimplifiedExpr, Except.ok.injEq, Prod.mk.injEq] at h
    exact Or.inr (by rw [← h.1, ← h.2])
  | GroupConcatExpr d es sep =>
    simp only [QueryProjection.GetSimplifiedExpr, Except.ok.injEq, Prod.mk.injEq] at h
    exact Or.inr (by rw [← h.1, ← h.2])
  | Subquery sq =>
    simp only [QueryProjection.GetSimplifiedExpr, Except.ok.injEq, Prod.mk.injEq] at h
    exact Or.inr (by rw [← h.1, ← h.2])

/-- What `AsAliasedExpr` does on a key that has a column reference as display
expression or its display expression as sort key, for a comparison that such a key
can have. -/
theorem AsAliasedExpr_of_comparison (comparable : sqlparser.Expr → Bool) (g : GroupBy)
    (differ : Except String Bool) (hk : keyComparison comparable g differ) :
    g.AsAliasedExpr differ ≠ .error shouldNotHappenPanic ∧
    (g.AsAliasedExpr differ = .error uncomparablePanic ↔
      g.aliasedExpr = none ∧ isColumn g.Inner = false ∧ comparable g.Inner = false) ∧
    ((∃ r, g.AsAliasedExpr differ = .ok r) ↔
      ¬ (g.aliasedExpr = none ∧ isColumn g.Inner = false ∧ comparable g.Inner = false)) := by
  have hne : uncomparablePanic ≠ shouldNotHappenPanic := by decide
  obtain ⟨inner, w, idx, al⟩ := g
  cases al with
  | some p =>
    obtain ⟨e, a⟩ := p
    simp [GroupBy.AsAliasedExpr]
  | none =>
    cases inner with
    | ColName name qualifier =>
      obtain ⟨b, hb⟩ := hk
      subst hb
      cases b <;> simp [GroupBy.AsAliasedExpr, isColumn]
    | NullVal =>
      have hd : differ = compareWithItself comparable .NullVal := hk
      subst hd
      cases hc : comparable .NullVal <;>
        simp [GroupBy.AsAliasedExpr, isColumn, compareWithItself, hc, hne]
    | Literal v =>
      have hd : differ = compareWithItself comparable (.Literal v) := hk
      subst hd
      cases hc : comparable (.Literal v) <;>
        simp [GroupBy.AsAliasedExpr, isColumn, compareWithItself, hc, hne]
    | Argument v =>
      have hd : differ = compareWithItself comparable (.Argument v) := hk
      subst hd
      cases hc : comparable (.Argument v) <;>
        simp [GroupBy.AsAliasedExpr, isColumn, compareWithItself, hc, hne]
    | BinaryExpr o l r =>
      have hd : differ = compareWithItself comparable (.BinaryExpr o l r) := hk
      subst hd
      cases hc : comparable (.BinaryExpr o l r) <;>
        simp [GroupBy.AsAliasedExpr, isColumn, compareWithItself, hc, hne]
    | FuncExpr n d es =>
      have hd : differ = compareWithItself comparable (.FuncExpr n d es) := hk
      subst hd
      cases hc : comparable (.FuncExpr n d es) <;>
        simp [GroupBy.AsAliasedExpr, isColumn, compareWithItself, hc, hne]
    | GroupConcatExpr d es sep =>
      have hd : differ = compareWithItself comparable (.GroupConcatExpr d es sep) := hk
      subst hd
      cases hc : comparable (.GroupConcatExpr d es sep) <;>
        simp [GroupBy.AsAliasedExpr, isColumn, compareWithItself, hc, hne]
    | Subquery sq =>
      have hd : differ = compareWithItself comparable (.Subquery sq) := hk
      subst hd
      cases hc : comparable (.Subquery sq) <;>
        simp [GroupBy.AsAliasedExpr, isColumn, compareWithItself, hc, hne]

/-- C28: for every SELECT on which `CreateQPFromSelect` succeeds, every entry of the
grouping sequence carries its original aliased select item, or has a column reference
as display expression, or has its display expression as sort key, so no comparison
that Go can make on it reaches the branch "this should not happen". `AsAliasedExpr`
still panics on such an entry, in the comparison of line 92 itself, exactly when the
entry carries no aliased select item and its expression is not a column reference and
has a Go type that is not comparable. With the tuple type not comparable,
`select count(*) from t group by (a, b)` builds a key on which `AsAliasedExpr` panics. -/
theorem AsAliasedExpr_panics_on_uncomparable_key :
    (∀ (comparable : sqlparser.Expr → Bool) (sel : sqlparser.Select)
        (semTable : semantics.SemTable) (qp : QueryProjection),
      CreateQPFromSelect sel semTable = .ok qp →
      ∀ g ∈ qp.groupByExprs,
        (g.aliasedExpr.isSome = true ∨ (∃ name qualifier, g.Inner = .ColName name qualifier) ∨
          g.WeightStrExpr = some g.Inner) ∧
        ∀ differ, keyComparison comparable g differ →
          g.AsAliasedExpr differ ≠ .error shouldNotHappenPanic ∧
          (g.AsAliasedExpr differ = .error uncomparablePanic ↔
            g.aliasedExpr = none ∧ isColumn g.Inner = false ∧ comparable g.Inner = false) ∧
          ((∃ r, g.AsAliasedExpr differ = .ok r) ↔
            ¬ (g.aliasedExpr = none ∧ isColumn g.Inner = false ∧
              comparable g.Inner = false))) ∧
    CreateQPFromSelect tupleSelect plainSemTable = .ok tupleProjection ∧
    tupleProjection.groupByExprs = [tupleKey] ∧
    tupleComparable tupleKey.Inner = false ∧
    keyComparison tupleComparable tupleKey (.error uncomparablePanic) ∧
    tupleKey.AsAliasedExpr (compareWithItself tupleComparable tupleKey.Inner) =
      .error uncomparablePanic := by
  refine ⟨?_, by rfl, rfl, by rfl, by rfl, by rfl⟩
  intro comparable sel semTable qp h g hg
  obtain ⟨qp1, qp2, qp3, qp4, hsel, hgrp, hord, hval, hq⟩ :=
    CreateQPFromSelect_stages sel semTable qp h
  obtain ⟨_, _, _, _, _, _, f7⟩ := stages_facts sel semTable qp1 qp2 qp3 hsel hgrp hord
  obtain ⟨_, _, _, v4, _⟩ := validateGrouping_ok qp3 qp4 hval
  have hg3 : g ∈ qp3.groupByExprs := by
    rcases hq with rfl | rfl
    · rw [← v4]; exact hg
    · cases hg
  obtain ⟨group, _, hs, _, _⟩ := forall2_mem_right f7 g hg3
  have hcases := GetSimplifiedExpr_column_or_same qp1 group semTable _ _ hs
  exact ⟨Or.inr hcases, fun differ hk => AsAliasedExpr_of_comparison comparable g differ hk⟩

/-- C29: for `select count(*) as b from t group by t.b`, with `t.b` a column of a real
table, `CreateQPFromSelect` builds one grouping key whose sort key is `t.b` and whose
`InnerIndex` is 0 with the aliased expression `count(*) as b`: select item 0 is
`count(*)`, which is not structurally equal to the sort key. -/
theorem CreateQPFromSelect_index_disagrees_with_sort_key :
    CreateQPFromSelect aliasClashSelect plainSemTable = .ok aliasClashProjection ∧
    plainSemTable.TableInfoForExpr (.ColName "b" "t") = (some (.RealTable 0), none) ∧
    aliasClashProjection.SelectExprs[0]? = some { Col := .AliasedExpr countStar "b", Aggr := true } ∧
    aliasClashProjection.groupByExprs.map
        (fun g => (g.InnerIndex, g.aliasedExpr, g.WeightStrExpr)) =
      [(some 0, some (countStar, "b"), some (.ColName "b" "t"))] ∧
    sqlparser.EqualsExpr (some countStar) (some (.ColName "b" "t")) = false ∧
    aliasClashProjection.FindSelectExprIndexForExpr (.ColName "b" "t") =
      (some 0, some (countStar, "b")) ∧
    aliasClashProjection.GetSimplifiedExpr (.ColName "b" "t") plainSemTable =
      .ok (.ColName "b" "t", some (.ColName "b" "t")) :=
  ⟨by rfl, by rfl, by rfl, by rfl, by rfl, by rfl, by rfl⟩

end abstract
